import Mathlib

/-!
# Chain block scanner

A shallow embedding of `bifrostv2/blockscanner/common_blockscanner.go`.

The scanner talks to three collaborators whose answers the code cannot
predict: the scanner storage, the stop channel and the remote chain.  Their
answers are given by oracles.  Every interaction with the storage or with the
stop channel reads the oracle at the scanner's `tick` and advances the tick, so
an oracle may answer each call differently.  The functions return, next to the
new scanner state, the list of the externally visible actions they performed,
in the order they were performed.

* A `select` between `stopChan` and a send on `scanChan` either takes the stop
  case or performs the send; which one is the oracle's choice.  A send that
  waits for room in the queue is a send.
* The results of the successive `getRPCBlock` calls of the scan loop are given
  as a list; the loop is run for as many rounds as the list has results, and a
  run that uses up the list without returning is reported as still running.
* `GetFromHttpWithRetry` is total: its loop is defined by recursion on
  `MaxHttpRequestRetry - retry`.

Heights are `int64` in the source and `Int` here: the only arithmetic on them
is `previousBlock++` inside `for idx := b.previousBlock; idx < currentBlock`,
where `previousBlock = idx < currentBlock`, so the increment never leaves the
`int64` range.  The counter `retry` of `GetFromHttpWithRetry` is an `int` that
is incremented only while it is below `MaxHttpRequestRetry`, or from 1 to 2.
-/

namespace Blockscanner

/-- Error values as built with `github.com/pkg/errors`: `errors.New` and
`errors.Errorf` make an error that has no cause, `errors.Wrap` and
`errors.Wrapf` make an error whose cause is the wrapped error.  The third
form is the error `fmt.Errorf` makes of a format with `%w`: it keeps its whole
message and the error it wraps. -/
inductive Error where
  | fundamental (msg : String)
  | withMessage (cause : Error) (msg : String)
  | wrapError (msg : String) (err : Error)
  deriving DecidableEq, Repr

namespace Error

/-- The function `errors.Cause`: the innermost error of a chain of wraps of
`github.com/pkg/errors`; an error of `fmt.Errorf` has no `Cause` method. -/
def Cause : Error → Error
  | fundamental msg => fundamental msg
  | withMessage cause _ => cause.Cause
  | wrapError msg err => wrapError msg err

/-- The function `errors.New`. -/
def New (msg : String) : Error := fundamental msg

/-- The function `errors.Wrap`. -/
def Wrap (err : Error) (msg : String) : Error := withMessage err msg

end Error

/-- Modelled from the spec: the per-height status type, which is declared
outside the given sources; the scanner itself only writes `NotStarted`. -/
inductive BlockStatus where
  | NotStarted
  | Success
  | Failed
  deriving DecidableEq, Repr

/-- The fields of `config.BlockScannerConfiguration` the scanner reads.
Durations are nanosecond counts. -/
structure BlockScannerConfiguration where
  RPCHost : String
  StartBlockHeight : Int
  BlockScanProcessors : Int
  HttpRequestTimeout : Int
  MaxHttpRequestRetry : Int
  BlockHeightDiscoverBackoff : Int
  BlockRetryInterval : Int
  deriving DecidableEq, Repr

/-- The metrics the scanner touches, kept as plain accumulators (the metrics
package is outside the given sources).  `errorCounter` lists the label pairs
of the increments of the error counter vector, oldest first.
`CurrentPosition` is the exact sum of the added values. -/
structure Metrics where
  TotalBlockScanned : Nat
  TotalRetryBlocks : Nat
  CurrentPosition : Int
  errorCounter : List (String × String)
  deriving DecidableEq, Repr

/-- The mutable part of `CommonBlockScanner`, with the oracle index `tick`. -/
structure CommonBlockScanner where
  cfg : BlockScannerConfiguration
  rpcHost : String
  previousBlock : Int
  metrics : Metrics
  tick : Nat
  deriving DecidableEq, Repr

/-- The `ScannerStorage` collaborator, as the answers it gives: the first
argument of each method is the tick of the call.  A write answers `none` when
it succeeds and `some err` when it fails. -/
structure ScannerStorage where
  GetScanPos : Nat → Int × Option Error
  SetScanPos : Nat → Int → Option Error
  SetBlockScannerStatus : Nat → Int → BlockStatus → Option Error
  GetBlocksForRetry : Nat → Bool → List Int × Option Error

/-- The environment of a scanner task: its storage, and for every `select` on
`stopChan` whether the stop case is the one taken. -/
structure Env where
  scannerStorage : ScannerStorage
  stop : Nat → Bool

/-- The externally visible actions of the scanner tasks. -/
inductive Event where
  | GetScanPos
  | GetBlocksForRetry (failedonly : Bool)
  | SetBlockScannerStatus (height : Int) (status : BlockStatus) (failed : Bool)
  | send (height : Int)
  | SetScanPos (height : Int) (failed : Bool)
  | getRPCBlock (currentBlock : Int) (failed : Bool)
  | Sleep (d : Int)
  deriving DecidableEq, Repr

/-- What a run of a task has done: the scanner state it left, its actions in
order, and whether the task function has returned. -/
structure Run where
  b : CommonBlockScanner
  events : List Event
  returned : Bool
  deriving DecidableEq, Repr

/-- The heights sent on `scanChan`, in order. -/
def sends : List Event → List Int
  | [] => []
  | Event.send h :: t => h :: sends t
  | _ :: t => sends t

/-- The arguments `failedonly` of the calls of `GetBlocksForRetry`, in order. -/
def retryQueries : List Event → List Bool
  | [] => []
  | Event.GetBlocksForRetry failedonly :: t => failedonly :: retryQueries t
  | _ :: t => retryQueries t

/-- The heights passed to `SetScanPos`, in order: those of all calls, or with
`onlyOk` those of the calls that did not fail. -/
def cursorWrites (onlyOk : Bool) : List Event → List Int
  | [] => []
  | Event.SetScanPos h failed :: t =>
    if onlyOk && failed then cursorWrites onlyOk t else h :: cursorWrites onlyOk t
  | _ :: t => cursorWrites onlyOk t

/-- Whether an action is a storage write. -/
def Event.isWrite : Event → Bool
  | Event.SetScanPos _ _ => true
  | Event.SetBlockScannerStatus _ _ _ => true
  | _ => false

/-- Advance the oracle index. -/
def CommonBlockScanner.next (b : CommonBlockScanner) : CommonBlockScanner :=
  { b with tick := b.tick + 1 }

/-- One increment of `b.errorCounter.WithLabelValues(l1, l2)`. -/
def CommonBlockScanner.incError (b : CommonBlockScanner) (l1 l2 : String) :
    CommonBlockScanner :=
  { b with metrics := { b.metrics with errorCounter := b.metrics.errorCounter ++ [(l1, l2)] } }

/-- One increment of the counter `metrics.TotalRetryBlocks`. -/
def CommonBlockScanner.incRetryBlocks (b : CommonBlockScanner) : CommonBlockScanner :=
  { b with metrics := { b.metrics with TotalRetryBlocks := b.metrics.TotalRetryBlocks + 1 } }

/-- One increment of the counter `metrics.TotalBlockScanned`. -/
def CommonBlockScanner.incBlockScanned (b : CommonBlockScanner) : CommonBlockScanner :=
  { b with metrics := { b.metrics with TotalBlockScanned := b.metrics.TotalBlockScanned + 1 } }

/-- The call `metrics.CurrentPosition.Add(v)`. -/
def CommonBlockScanner.addPosition (b : CommonBlockScanner) (v : Int) : CommonBlockScanner :=
  { b with metrics := { b.metrics with CurrentPosition := b.metrics.CurrentPosition + v } }

/-- The assignment `b.previousBlock = v`. -/
def CommonBlockScanner.setPrevious (b : CommonBlockScanner) (v : Int) : CommonBlockScanner :=
  { b with previousBlock := v }

/-- The constructor `NewCommonBlockScanner`.  `urlParse` is `url.Parse`
(its error result); a `nil` storage or metrics argument is `none`. -/
def NewCommonBlockScanner (urlParse : String → Option Error)
    (cfg : BlockScannerConfiguration) (scannerStorage : Option ScannerStorage)
    (m : Option Metrics) : Except Error CommonBlockScanner :=
  if cfg.RPCHost.length = 0 then
    Except.error (Error.New "host is empty")
  else
    let rpcHost :=
      if "http".toList.isPrefixOf cfg.RPCHost.toList then cfg.RPCHost else "http://" ++ cfg.RPCHost
    match urlParse rpcHost with
    | some err => Except.error err
    | none =>
      match scannerStorage with
      | none => Except.error (Error.New "scannerStorage is nil")
      | some _ =>
        match m with
        | none => Except.error (Error.New "metrics instance is nil")
        | some metrics =>
          Except.ok
            { cfg := cfg
              rpcHost := rpcHost
              previousBlock := cfg.StartBlockHeight
              metrics := metrics
              tick := 0 }

/-- The loop `for _, item := range blocks` of `retryBlocks`: each item is
either sent on `scanChan`, counting one retried block, or the stop case of the
`select` is taken and `retryBlocks` returns. -/
def retryItems (env : Env) : List Int → CommonBlockScanner → Run
  | [], b => ⟨b, [], false⟩
  | item :: rest, b =>
    if env.stop b.tick then
      ⟨b.next, [], true⟩
    else
      let r := retryItems env rest b.next.incRetryBlocks
      ⟨r.b, Event.send item :: r.events, r.returned⟩

/-- The scanner after a call of `GetBlocksForRetry` that returned `err`. -/
def afterGetBlocksForRetry (err : Option Error) (b : CommonBlockScanner) : CommonBlockScanner :=
  match err with
  | some _ => b.next.incError "fail_get_blocks_for_retry" ""
  | none => b.next

/-- The method `retryBlocks`: a failed `GetBlocksForRetry` is counted and
logged, and the returned list is offered all the same. -/
def retryBlocks (env : Env) (failedonly : Bool) (b : CommonBlockScanner) : Run :=
  let res := env.scannerStorage.GetBlocksForRetry b.tick failedonly
  let r := retryItems env res.1 (afterGetBlocksForRetry res.2 b)
  ⟨r.b, Event.GetBlocksForRetry failedonly :: r.events, r.returned⟩

/-- The method `retryFailedBlocks`: at each round of its loop the `select`
either takes the stop case and returns, or takes the ticker and calls
`retryBlocks(true)`.  The first argument bounds the number of rounds run. -/
def retryFailedBlocks (env : Env) : Nat → CommonBlockScanner → Run
  | 0, b => ⟨b, [], false⟩
  | n + 1, b =>
    if env.stop b.tick then
      ⟨b.next, [], true⟩
    else
      let r := retryBlocks env true b.next
      let l := retryFailedBlocks env n r.b
      ⟨l.b, r.events ++ l.events, l.returned⟩

/-- The loop `for idx := b.previousBlock; idx < currentBlock; idx++` of
`scanBlocks`.  The first argument is the number of rounds left, which the
caller sets to `currentBlock - idx`. -/
def scanFor (env : Env) (currentBlock : Int) : Nat → Int → CommonBlockScanner → Run
  | 0, _, b => ⟨b, [], false⟩
  | n + 1, idx, b =>
    if idx < currentBlock then
      let b1 := (b.setPrevious (b.previousBlock + 1)).incBlockScanned
      let h := b1.previousBlock
      match env.scannerStorage.SetBlockScannerStatus b1.tick h BlockStatus.NotStarted with
      | some _ =>
        ⟨b1.next.incError "fail_set_block_status" (toString h),
          [Event.SetBlockScannerStatus h BlockStatus.NotStarted true], true⟩
      | none =>
        let b2 := b1.next
        if env.stop b2.tick then
          ⟨b2.next, [Event.SetBlockScannerStatus h BlockStatus.NotStarted false], true⟩
        else
          let b3 := b2.next.addPosition 1
          match env.scannerStorage.SetScanPos b3.tick h with
          | some _ =>
            ⟨b3.next.incError "fail_save_block_pos" (toString h),
              [Event.SetBlockScannerStatus h BlockStatus.NotStarted false, Event.send h,
                Event.SetScanPos h true], true⟩
          | none =>
            let r := scanFor env currentBlock n (idx + 1) b3.next
            ⟨r.b, Event.SetBlockScannerStatus h BlockStatus.NotStarted false :: Event.send h ::
              Event.SetScanPos h false :: r.events, r.returned⟩
    else
      ⟨b, [], false⟩

/-- The scanner after a call of `getRPCBlock` that returned `err`: a failure
is counted and logged. -/
def afterGetRPCBlock (err : Option Error) (b : CommonBlockScanner) : CommonBlockScanner :=
  match err with
  | some _ => b.next.incError "fail_get_block" ""
  | none => b.next

/-- The loop `for { select { case <-b.stopChan: return; default: ... } }` of
`scanBlocks`.  The list gives the results `(currentBlock, err)` of the
successive calls of `getRPCBlock`; the loop is run until the list is used up
or the function returns. -/
def scanLoop (env : Env) : List (Int × Option Error) → CommonBlockScanner → Run
  | [], b => ⟨b, [], false⟩
  | (currentBlock, err) :: rest, b =>
    if env.stop b.tick then
      ⟨b.next, [], true⟩
    else
      let b1 := afterGetRPCBlock err b
      let fetched := Event.getRPCBlock currentBlock err.isSome
      if b1.previousBlock ≥ currentBlock then
        let r := scanLoop env rest b1
        ⟨r.b, fetched :: Event.Sleep b1.cfg.BlockHeightDiscoverBackoff :: r.events, r.returned⟩
      else if currentBlock > b1.previousBlock then
        let p := scanFor env currentBlock (currentBlock - b1.previousBlock).toNat
          b1.previousBlock b1
        if p.returned then
          ⟨p.b, fetched :: p.events, true⟩
        else
          let r := scanLoop env rest p.b
          ⟨r.b, fetched :: (p.events ++ r.events), r.returned⟩
      else
        let r := scanLoop env rest b1
        ⟨r.b, fetched :: r.events, r.returned⟩

/-- The part of `scanBlocks` before the call of `retryBlocks`: the cursor is
read, and taken over when the read succeeds. -/
def scanBlocksEntry (env : Env) (b : CommonBlockScanner) : CommonBlockScanner :=
  let res := env.scannerStorage.GetScanPos b.tick
  let b1 := match res.2 with
    | some _ => b.next.incError "fail_get_scan_pos" ""
    | none => b.next.setPrevious res.1
  b1.addPosition res.1

/-- The method `scanBlocks`. -/
def scanBlocks (env : Env) (readings : List (Int × Option Error))
    (b : CommonBlockScanner) : Run :=
  let r := retryBlocks env false (scanBlocksEntry env b)
  let l := scanLoop env readings r.b
  ⟨l.b, Event.GetScanPos :: (r.events ++ l.events), l.returned⟩

/-- A byte slice. -/
abbrev Bytes := List UInt8

/-- What the network does on one `GET`: the error of `http.NewRequest`, the
error of `httpClient.Do`, and for a response its status and what
`ioutil.ReadAll` makes of its body. -/
structure HttpExchange where
  newRequestErr : Option Error
  doErr : Option Error
  StatusCode : Int
  Status : String
  body : Bytes
  readErr : Option Error
  deriving DecidableEq, Repr

/-- The network and the clock as seen by `GetFromHttpWithRetry`: its `k`-th
`GET`, the `k`-th answer of `backoffCtrl.NextBackOff()`, and whether the
`k`-th `select` takes the stop case. -/
structure HttpEnv where
  exchange : Nat → HttpExchange
  NextBackOff : Nat → Int
  stop : Nat → Bool

/-- The constant `backoff.Stop`. -/
def backoffStop : Int := -1

/-- The result pair `([]byte, error)`; a `nil` slice is `none`. -/
abbrev HttpResult := Option Bytes × Option Error

/-- The method `getFromHttp`. -/
def getFromHttp (url : String) (x : HttpExchange) (b : CommonBlockScanner) :
    CommonBlockScanner × HttpResult :=
  match x.newRequestErr with
  | some err =>
    (b.incError "fail_create_http_request" url,
      (none, some (Error.Wrap err "fail to create http request")))
  | none =>
    match x.doErr with
    | some err =>
      (b.incError "fail_send_http_request" url,
        (none, some (Error.Wrap err ("fail to get from " ++ url ++ " "))))
    | none =>
      if x.StatusCode ≠ 200 then
        (b.incError "unexpected_status_code" x.Status,
          (none, some (Error.New
            ("unexpected status code:" ++ toString x.StatusCode ++ " from " ++ url))))
      else
        (b, (some x.body, x.readErr))

/-- What a call of `GetFromHttpWithRetry` has done: the scanner state, the
number of calls of `getFromHttp` it made, and the pair it returned. -/
structure HttpRun where
  b : CommonBlockScanner
  attempts : Nat
  result : HttpResult
  deriving DecidableEq, Repr

/-- The loop of `GetFromHttpWithRetry`, entered with the value of `retry` and
the number `k` of attempts made so far.  `maxRetry` is
`b.cfg.MaxHttpRequestRetry`.  A round that does not return leaves
`retry < maxRetry` one larger, so the loop ends. -/
def GetFromHttpWithRetryLoop (net : HttpEnv) (url : String) (maxRetry : Int)
    (retry : Int) (k : Nat) (b : CommonBlockScanner) : HttpRun :=
  let a := getFromHttp url (net.exchange k) b
  match a.2.2 with
  | none => ⟨a.1, k + 1, (a.2.1, none)⟩
  | some err =>
    let retry1 := retry + 1
    if net.NextBackOff k = backoffStop then
      ⟨a.1, k + 1,
        (none, some (Error.Wrap err ("fail to get from " ++ url ++ " after maximum retry")))⟩
    else if retry1 ≥ maxRetry then
      ⟨a.1, k + 1,
        (none, some (Error.New
          ("fail to get from " ++ url ++ " after maximum retry(" ++ toString maxRetry ++ ")")))⟩
    else if net.stop k then
      ⟨a.1, k + 1, (none, some err)⟩
    else
      GetFromHttpWithRetryLoop net url maxRetry retry1 (k + 1) a.1
termination_by (maxRetry - retry).toNat
decreasing_by omega

/-- The method `GetFromHttpWithRetry`: the loop entered with `retry := 1`. -/
def GetFromHttpWithRetry (net : HttpEnv) (url : String) (b : CommonBlockScanner) : HttpRun :=
  GetFromHttpWithRetryLoop net url b.cfg.MaxHttpRequestRetry 1 0 b

/-- The two library decoders `getRPCBlock` relies on: `json.Unmarshal` into
`RPCBlock` followed by the read of `Result.Block.Header.Height`, and
`strconv.ParseInt(_, 10, 64)`. -/
structure Decoder where
  unmarshalHeight : Bytes → Except Error String
  ParseInt : String → Int × Option Error

/-- The method `getRPCBlock`, without its duration histogram. -/
def getRPCBlock (dec : Decoder) (net : HttpEnv) (requestUrl : String)
    (b : CommonBlockScanner) : CommonBlockScanner × (Int × Option Error) :=
  let r := GetFromHttpWithRetry net requestUrl b
  match r.result.2 with
  | some err =>
    (r.b.incError "fail_get_block" requestUrl, (0, some (Error.Wrap err "fail to get blocks")))
  | none =>
    match dec.unmarshalHeight (r.result.1.getD []) with
    | Except.error err =>
      (r.b.incError "fail_unmarshal_block" requestUrl,
        (0, some (Error.Wrap err "fail to unmarshal body to RPCBlock")))
    | Except.ok block =>
      match dec.ParseInt block with
      | (_, some err) =>
        (r.b.incError "fail_parse_block_height" block,
          (0, some (Error.Wrap err "fail to convert block height to int")))
      | (parsedBlock, none) => (r.b, (parsedBlock, none))

/-- The heights `p + 1, p + 2, ..., p + k`, in this order. -/
def heightsFrom (p : Int) : Nat → List Int
  | 0 => []
  | k + 1 => (p + 1) :: heightsFrom (p + 1) k

/-- The actions of `k` full rounds of the scan loop that start at cursor `p`:
for each height the status write, the send and the cursor write, none failing. -/
def rounds (p : Int) : Nat → List Event
  | 0 => []
  | k + 1 =>
    Event.SetBlockScannerStatus (p + 1) BlockStatus.NotStarted false :: Event.send (p + 1) ::
      Event.SetScanPos (p + 1) false :: rounds (p + 1) k

/-- Whether an action is a storage write that failed. -/
def Event.isFailedWrite : Event → Bool
  | Event.SetScanPos _ failed => failed
  | Event.SetBlockScannerStatus _ _ failed => failed
  | _ => false

/-- The action sequences a scan loop at cursor `p` can have performed up to
some point of its execution: fetches and sleeps, full rounds for the heights
after `p`, and at the end possibly a round cut short after its status write,
after its send, or by the failure of its cursor write. -/
inductive ScanTrace : Int → List Event → Prop
  | nil (p : Int) : ScanTrace p []
  | fetch (p c : Int) (f : Bool) (t : List Event) :
      ScanTrace p t → ScanTrace p (Event.getRPCBlock c f :: t)
  | sleep (p d : Int) (t : List Event) : ScanTrace p t → ScanTrace p (Event.Sleep d :: t)
  | status (p : Int) (f : Bool) :
      ScanTrace p [Event.SetBlockScannerStatus (p + 1) BlockStatus.NotStarted f]
  | sent (p : Int) :
      ScanTrace p [Event.SetBlockScannerStatus (p + 1) BlockStatus.NotStarted false,
        Event.send (p + 1)]
  | posFailed (p : Int) :
      ScanTrace p [Event.SetBlockScannerStatus (p + 1) BlockStatus.NotStarted false,
        Event.send (p + 1), Event.SetScanPos (p + 1) true]
  | round (p : Int) (t : List Event) :
      ScanTrace (p + 1) t →
      ScanTrace p (Event.SetBlockScannerStatus (p + 1) BlockStatus.NotStarted false ::
        Event.send (p + 1) :: Event.SetScanPos (p + 1) false :: t)

/-- Modelled from the spec: the durable state kept by the scanner storage, whose
implementation is not among the sources: the scan cursor and a status per
height. -/
structure StorageState where
  scanPos : Int
  status : Int → Option BlockStatus

/-- Modelled from the spec: the effect of one action on the durable state: a
write that succeeds stores its value, every other action leaves the state as
it is. -/
def StorageState.apply (st : StorageState) : Event → StorageState
  | Event.SetScanPos h false => { st with scanPos := h }
  | Event.SetBlockScannerStatus h s false =>
    { st with status := fun x => if x = h then some s else st.status x }
  | _ => st

/-- The durable state after a sequence of actions. -/
def StorageState.replay (st : StorageState) (events : List Event) : StorageState :=
  events.foldl StorageState.apply st

/-- No write of the storage fails. -/
def ScannerStorage.NoWriteFails (s : ScannerStorage) : Prop :=
  (∀ t h st, s.SetBlockScannerStatus t h st = none) ∧ (∀ t h, s.SetScanPos t h = none)

/-- No `select` takes the stop case. -/
def Env.NoStop (env : Env) : Prop := ∀ t, env.stop t = false

/-- A storage none of whose calls fails: the cursor read answers `c`, the
retry set is `R`. -/
def quietStorage (c : Int) (R : List Int) : ScannerStorage :=
  { GetScanPos := fun _ => (c, none)
    SetScanPos := fun _ _ => none
    SetBlockScannerStatus := fun _ _ _ => none
    GetBlocksForRetry := fun _ _ => (R, none) }

/-- An environment with a quiet storage and no stop signal. -/
def quietEnv (c : Int) (R : List Int) : Env :=
  { scannerStorage := quietStorage c R
    stop := fun _ => false }

/-- A configuration with start height `start` and `maxRetry` as
`MaxHttpRequestRetry`; the other values are the defaults of the configuration
loader. -/
def sampleCfg (start maxRetry : Int) : BlockScannerConfiguration :=
  { RPCHost := "localhost:26657"
    StartBlockHeight := start
    BlockScanProcessors := 2
    HttpRequestTimeout := 30000000000
    MaxHttpRequestRetry := maxRetry
    BlockHeightDiscoverBackoff := 1000000000
    BlockRetryInterval := 1000000000 }

/-- Metrics with every counter at zero. -/
def freshMetrics : Metrics :=
  { TotalBlockScanned := 0
    TotalRetryBlocks := 0
    CurrentPosition := 0
    errorCounter := [] }

/-- The scanner `NewCommonBlockScanner` makes from `sampleCfg start maxRetry`. -/
def sampleScanner (start maxRetry : Int) : CommonBlockScanner :=
  { cfg := sampleCfg start maxRetry
    rpcHost := "http://localhost:26657"
    previousBlock := start
    metrics := freshMetrics
    tick := 0 }

/-- The actions of a scan from cursor 0 towards height 2, up to the send of
height 2. -/
def sampleActions : List Event :=
  [Event.getRPCBlock 2 false, Event.SetBlockScannerStatus 1 BlockStatus.NotStarted false,
    Event.send 1, Event.SetScanPos 1 false,
    Event.SetBlockScannerStatus 2 BlockStatus.NotStarted false, Event.send 2]

/-- A storage some of whose writes fail: the status write for the heights
picked by `statusFails`, the cursor write for those picked by `posFails`. -/
def faultyStorage (statusFails posFails : Int → Bool) : ScannerStorage :=
  { GetScanPos := fun _ => (0, none)
    SetScanPos := fun _ h => if posFails h then some (Error.New "write failed") else none
    SetBlockScannerStatus := fun _ h _ =>
      if statusFails h then some (Error.New "write failed") else none
    GetBlocksForRetry := fun _ _ => ([], none) }

/-- An environment with a faulty storage and no stop signal. -/
def faultyEnv (statusFails posFails : Int → Bool) : Env :=
  { scannerStorage := faultyStorage statusFails posFails
    stop := fun _ => false }

/-- A storage that holds no cursor yet: the cursor read fails, the retry set
is empty, the writes succeed. -/
def freshStorage : ScannerStorage :=
  { GetScanPos := fun _ => (0, some (Error.New "not found"))
    SetScanPos := fun _ _ => none
    SetBlockScannerStatus := fun _ _ _ => none
    GetBlocksForRetry := fun _ _ => ([], none) }

/-- An environment with a fresh storage and no stop signal. -/
def freshEnv : Env :=
  { scannerStorage := freshStorage
    stop := fun _ => false }

/-- A `GET` answered with status 500. -/
def serverError : HttpExchange :=
  { newRequestErr := none
    doErr := none
    StatusCode := 500
    Status := "500 Internal Server Error"
    body := []
    readErr := none }

/-- A network on which every `GET` is answered with status 500, with a
backoff that never answers `backoff.Stop` and no stop signal. -/
def downNet : HttpEnv :=
  { exchange := fun _ => serverError
    NextBackOff := fun _ => 500000000
    stop := fun _ => false }

/-- A decoder that finds no height in any body. -/
def emptyDecoder : Decoder :=
  { unmarshalHeight := fun _ => Except.ok ""
    ParseInt := fun _ => (0, some (Error.New "invalid syntax")) }

/-- Every `GET` of the network ends in an error of `getFromHttp`. -/
def HttpEnv.AllFail (net : HttpEnv) (url : String) : Prop :=
  ∀ (k : Nat) (b : CommonBlockScanner), ∃ e, (getFromHttp url (net.exchange k) b).2.2 = some e

end Blockscanner

/-!
# Blame (common/blame.go)
-/

namespace Common

/-- The type `Blame`; public keys are strings. -/
structure Blame where
  FailReason : String
  BlameNodes : List String
  deriving DecidableEq, Repr

/-- The variable `EmptyBlame`. -/
def EmptyBlame : Blame :=
  { FailReason := ""
    BlameNodes := [] }

/-- The method `Blame.IsEmpty`. -/
def Blame.IsEmpty (b : Blame) : Bool :=
  b.BlameNodes.length == 0 || b.FailReason.length == 0

end Common

/-!
# Bridge client

A shallow embedding of `bifrost/thorclient/thorchain.go`.

The retryable HTTP client, the decoders and the key store are collaborators:
the answer of the client to a request is given by an oracle, the decoders and
the address functions are parameters.
-/

namespace Thorclient

open Blockscanner (Error)

/-- The message `err.Error()` of an error: an error wrapped with
`github.com/pkg/errors` prints its own message, a colon and the message of its
cause. -/
def errorMessage : Error → String
  | Error.fundamental msg => msg
  | Error.withMessage cause msg => msg ++ ": " ++ errorMessage cause
  | Error.wrapError msg _ => msg

/-- The error `fmt.Errorf(pre + "%w", err)`. -/
def wrapf (pre : String) (err : Error) : Error :=
  Error.wrapError (pre ++ errorMessage err) err

/-- The text `raw` occurs in the text `msg`. -/
def Mentions (msg raw : String) : Prop := raw.toList <:+: msg.toList

instance (msg raw : String) : Decidable (Mentions msg raw) :=
  inferInstanceAs (Decidable (raw.toList <:+: msg.toList))

/-- The fields of `config.ClientConfiguration` the bridge reads. -/
structure ClientConfiguration where
  ChainID : String
  ChainHost : String
  ChainHomeFolder : String
  SignerName : String
  SignerPasswd : String
  deriving DecidableEq, Repr

/-- The data of `ThorchainBridge`.  `signerAddress` is
`b.keys.GetSignerInfo().GetAddress()`; `errCounter` lists the label pairs of
the increments of the error counter vector, oldest first. -/
structure ThorchainBridge where
  cfg : ClientConfiguration
  signerAddress : String
  errCounter : List (String × String)
  blockHeight : Int
  accountNumber : Nat
  seqNumber : Nat
  deriving DecidableEq, Repr

/-- One increment of `b.errCounter.WithLabelValues(l1, l2)`. -/
def ThorchainBridge.incError (b : ThorchainBridge) (l1 l2 : String) : ThorchainBridge :=
  { b with errCounter := b.errCounter ++ [(l1, l2)] }

/-- What the retryable client makes of one request: the error of
`httpClient.Get` or `httpClient.Post`, and for a response its status code and
what `ioutil.ReadAll` makes of its body, the body being text. -/
structure ClientResponse where
  err : Option Error
  StatusCode : Int
  body : String
  readErr : Option Error
  deriving DecidableEq, Repr

/-- The retryable client `b.httpClient`: the answer to a `GET` of a URL, and
to a `POST` of a body of a type to a URL. -/
structure HttpClient where
  Get : String → ClientResponse
  Post : String → String → String → ClientResponse

/-- The constant `http.StatusOK`. -/
def StatusOK : Int := 200

/-- The constant `http.StatusNotFound`. -/
def StatusNotFound : Int := 404

/-- The constant `AuthAccountEndpoint`. -/
def AuthAccountEndpoint : String := "/auth/accounts"

/-- The method `getThorChainURL`, without the escaping of the path. -/
def ThorchainBridge.getThorChainURL (b : ThorchainBridge) (path : String) : String :=
  "http://" ++ b.cfg.ChainHost ++ path

/-- The result `([]byte, int, error)` of `get`; a `nil` slice is `none`. -/
structure GetResult where
  body : Option String
  status : Int
  err : Option Error
  deriving DecidableEq, Repr

/-- The method `get`. -/
def ThorchainBridge.get (b : ThorchainBridge) (client : HttpClient) (path : String) :
    ThorchainBridge × GetResult :=
  let resp := client.Get (b.getThorChainURL path)
  match resp.err with
  | some err =>
    (b.incError "fail_get_from_thorchain" "",
      ⟨none, StatusNotFound, some (Error.Wrap err "failed to GET from thorchain")⟩)
  | none =>
    if resp.StatusCode ≠ StatusOK then
      (b, ⟨none, resp.StatusCode,
        some (Error.New ("Status code: " ++ toString resp.StatusCode ++ " returned"))⟩)
    else
      match resp.readErr with
      | some err =>
        (b.incError "fail_read_thorchain_resp" "",
          ⟨none, resp.StatusCode, some (Error.Wrap err "failed to read response body")⟩)
      | none => (b, ⟨some resp.body, resp.StatusCode, none⟩)

/-- The method `post`. -/
def ThorchainBridge.post (b : ThorchainBridge) (client : HttpClient) (path bodyType body : String) :
    ThorchainBridge × (Option String × Option Error) :=
  let resp := client.Post (b.getThorChainURL path) bodyType body
  match resp.err with
  | some err =>
    (b.incError "fail_post_to_thorchain" "",
      (none, some (Error.Wrap err "failed to POST to thorchain")))
  | none =>
    if resp.StatusCode ≠ StatusOK then
      (b, (none, some (Error.New ("Status code: " ++ toString resp.StatusCode ++ " returned"))))
    else
      match resp.readErr with
      | some err =>
        (b.incError "fail_read_thorchain_resp" "",
          (none, some (Error.Wrap err "failed to read response body")))
      | none => (b, (some resp.body, none))

/-- The largest `uint64`. -/
def maxUint64 : Nat := 2 ^ 64 - 1

/-- The error `strconv.ParseUint` returns for a text that is not a number; the
quoting of the text is plain. -/
def syntaxError (s : String) : Error :=
  Error.fundamental ("strconv.ParseUint: parsing \"" ++ s ++ "\": invalid syntax")

/-- The error `strconv.ParseUint` returns for a number that does not fit. -/
def rangeError (s : String) : Error :=
  Error.fundamental ("strconv.ParseUint: parsing \"" ++ s ++ "\": value out of range")

/-- The loop of `strconv.ParseUint(s, 10, 64)` over the characters of `s`,
with the number `n` read so far.  `cutoff` is `maxUint64/10 + 1`; the sum
`n*10 + d` is taken in `uint64`. -/
def ParseUintLoop (s0 : String) : List Char → Nat → Nat × Option Error
  | [], n => (n, none)
  | c :: cs, n =>
    if '0' ≤ c ∧ c ≤ '9' then
      let d := c.toNat - '0'.toNat
      if n ≥ maxUint64 / 10 + 1 then
        (maxUint64, some (rangeError s0))
      else
        let n1 := (n * 10 + d) % 2 ^ 64
        if n1 < n * 10 ∨ n1 > maxUint64 then
          (maxUint64, some (rangeError s0))
        else
          ParseUintLoop s0 cs n1
    else
      (0, some (syntaxError s0))

/-- The library function `strconv.ParseUint(s, 10, 64)`.  With base 10 every
byte other than a decimal digit is a syntax error, so the text is read by
characters. -/
def ParseUint (s : String) : Nat × Option Error :=
  if s = "" then (0, some (syntaxError s)) else ParseUintLoop s s.toList 0

/-- The number a list of decimal digits stands for, read after the number
`acc`. -/
def decVal (cs : List Char) (acc : Nat) : Nat :=
  cs.foldl (fun n c => n * 10 + (c.toNat - '0'.toNat)) acc

/-- The decoder of the account resource: `json.Unmarshal` into
`types.AccountResp`, followed by the read of `Result.Value.AccountNumber`
and `Result.Value.Sequence`. -/
structure AccountDecoder where
  unmarshal : String → Except Error (String × String)

/-- The result `(uint64, uint64, error)` of
`getAccountNumberAndSequenceNumber`. -/
structure AccountResult where
  accNum : Nat
  seq : Nat
  err : Option Error
  deriving DecidableEq, Repr

/-- The method `getAccountNumberAndSequenceNumber`.  The body `get` returns
with no error is never `nil`. -/
def ThorchainBridge.getAccountNumberAndSequenceNumber (b : ThorchainBridge)
    (client : HttpClient) (dec : AccountDecoder) : ThorchainBridge × AccountResult :=
  let url := AuthAccountEndpoint ++ "/" ++ b.signerAddress
  let r := b.get client url
  match r.2.err with
  | some err => (r.1, ⟨0, 0, some (Error.Wrap err "failed to get auth accounts")⟩)
  | none =>
    match dec.unmarshal (r.2.body.getD "") with
    | Except.error err => (r.1, ⟨0, 0, some (Error.Wrap err "failed to unmarshal account resp")⟩)
    | Except.ok acc =>
      match ParseUint acc.1 with
      | (_, some err) =>
        (r.1, ⟨0, 0, some (Error.Wrap err ("failed to parse account number (" ++ acc.1 ++ ")"))⟩)
      | (accNum, none) =>
        match ParseUint acc.2 with
        | (_, some err) =>
          (r.1, ⟨0, 0,
            some (Error.Wrap err ("failed to parse sequence number (" ++ acc.2 ++ ")"))⟩)
        | (seq, none) => (r.1, ⟨accNum, seq, none⟩)

/-- The answer of the client to the account request of
`getAccountNumberAndSequenceNumber`. -/
def accountResponse (b : ThorchainBridge) (client : HttpClient) : ClientResponse :=
  client.Get (b.getThorChainURL (AuthAccountEndpoint ++ "/" ++ b.signerAddress))

/-- A coin of a transaction, with the chain of its asset. -/
structure Coin where
  Chain : String
  Symbol : String
  Amount : Nat
  deriving DecidableEq, Repr

/-- The fields of `common.Tx` the bridge reads, and its identifier. -/
structure Tx where
  ID : String
  FromAddress : String
  ToAddress : String
  Coins : List Coin
  deriving DecidableEq, Repr

/-- The fields of `stypes.ObservedTx` the bridge reads. -/
structure ObservedTx where
  Tx : Tx
  ObservedPubKey : String
  deriving DecidableEq, Repr

/-- The two functions on addresses the bridge calls: `PubKey.GetAddress`, which
derives the address of a public key on a chain or fails, and
`Address.Equals`. -/
structure AddressBook where
  GetAddress : String → String → Except Error String
  Equals : String → String → Bool

/-- The constant `common.BNBChain`. -/
def BNBChain : String := "BNB"

/-- The messages `GetObservationsStdTx` builds: `NewMsgObservedTxIn` and
`NewMsgObservedTxOut` of a list of transactions and the signer. -/
inductive Msg where
  | ObservedTxIn (txs : List ObservedTx) (signer : String)
  | ObservedTxOut (txs : List ObservedTx) (signer : String)
  deriving DecidableEq, Repr

/-- The transaction `authtypes.NewStdTx(msgs, fee, nil, "")` with
`fee = authtypes.NewStdFee(gas, nil)`. -/
structure StdTx where
  Msgs : List Msg
  Gas : Nat
  Signatures : List String
  Memo : String
  deriving DecidableEq, Repr

/-- The chain of a transaction in `GetObservationsStdTx`: that of its first
coin, `BNBChain` when it has no coin. -/
def chainOf (tx : ObservedTx) : String :=
  match tx.Tx.Coins with
  | [] => BNBChain
  | coin :: _ => coin.Chain

/-- The loop `for _, tx := range txIns` of `GetObservationsStdTx`, entered
with the lists `inbound` and `outbound` built so far; it returns the two lists
or the error of the first transaction that cannot be placed. -/
def splitObservations (book : AddressBook) :
    List ObservedTx → List ObservedTx → List ObservedTx →
      Except Error (List ObservedTx × List ObservedTx)
  | [], inbound, outbound => Except.ok (inbound, outbound)
  | tx :: rest, inbound, outbound =>
    match book.GetAddress tx.ObservedPubKey (chainOf tx) with
    | Except.error err => Except.error err
    | Except.ok obAddr =>
      if book.Equals tx.Tx.ToAddress obAddr then
        splitObservations book rest (inbound ++ [tx]) outbound
      else if book.Equals tx.Tx.FromAddress obAddr then
        splitObservations book rest inbound (outbound ++ [tx])
      else
        Except.error (Error.New "Could not determine if this tx as inbound or outbound")

/-- The messages of the envelope: one for a non-empty `inbound`, then one for a
non-empty `outbound`. -/
def observationMsgs (signer : String) (inbound outbound : List ObservedTx) : List Msg :=
  (if inbound.length > 0 then [Msg.ObservedTxIn inbound signer] else []) ++
    (if outbound.length > 0 then [Msg.ObservedTxOut outbound signer] else [])

/-- The method `GetObservationsStdTx`, without its duration histogram; a `nil`
transaction is `none`. -/
def ThorchainBridge.GetObservationsStdTx (b : ThorchainBridge) (book : AddressBook)
    (txIns : List ObservedTx) : ThorchainBridge × (Option StdTx × Option Error) :=
  if txIns.length = 0 then
    (b.incError "nothing_to_sign" "", (none, some (Error.New "nothing to be signed")))
  else
    match splitObservations book txIns [] [] with
    | Except.error err => (b, (none, some err))
    | Except.ok (inbound, outbound) =>
      (b, (some
        { Msgs := observationMsgs b.signerAddress inbound outbound
          Gas := 100000000
          Signatures := []
          Memo := "" }, none))

/-- Whether a transaction goes to the vault: the address of its observed
public key on its chain exists and equals its to-address. -/
def isInbound (book : AddressBook) (tx : ObservedTx) : Bool :=
  match book.GetAddress tx.ObservedPubKey (chainOf tx) with
  | Except.error _ => false
  | Except.ok obAddr => book.Equals tx.Tx.ToAddress obAddr

/-- Whether a transaction comes from the vault: the address of its observed
public key on its chain exists and equals its from-address. -/
def isOutbound (book : AddressBook) (tx : ObservedTx) : Bool :=
  match book.GetAddress tx.ObservedPubKey (chainOf tx) with
  | Except.error _ => false
  | Except.ok obAddr => book.Equals tx.Tx.FromAddress obAddr

/-- The chain of a transaction in the words of the specification: the chain
of its first coin, and the reference chain BNB when the transaction carries no
coins.  It is stated apart from `chainOf`, to be compared with it. -/
def specChain (tx : ObservedTx) : String :=
  match tx.Tx.Coins.head? with
  | some coin => coin.Chain
  | none => "BNB"

/-- Inbound in the words of the specification: the to-address of the
transaction equals the address derived from the vault key for the chain of the
transaction. -/
def specInbound (book : AddressBook) (tx : ObservedTx) : Bool :=
  match book.GetAddress tx.ObservedPubKey (specChain tx) with
  | Except.error _ => false
  | Except.ok vault => book.Equals tx.Tx.ToAddress vault

/-- Outbound in the words of the specification: the from-address of the
transaction equals the address derived from the vault key for the chain of the
transaction. -/
def specOutbound (book : AddressBook) (tx : ObservedTx) : Bool :=
  match book.GetAddress tx.ObservedPubKey (specChain tx) with
  | Except.error _ => false
  | Except.ok vault => book.Equals tx.Tx.FromAddress vault

/-- Modelled from the spec: the status of a node account, whose type is
declared outside the given sources: the two statuses the bridge tests for, and
any other status under its name. -/
inductive NodeStatus where
  | Unknown
  | Disabled
  | other (name : String)
  deriving DecidableEq, Repr

/-- The text of a status. -/
def NodeStatus.String : NodeStatus → String
  | NodeStatus.Unknown => "Unknown"
  | NodeStatus.Disabled => "Disabled"
  | NodeStatus.other name => name

/-- The field of a node account the bridge reads. -/
structure NodeAccount where
  Status : NodeStatus
  deriving DecidableEq, Repr

/-- The method `EnsureNodeWhitelisted`, given the answer of `GetNodeAccount`
for an address. -/
def ThorchainBridge.EnsureNodeWhitelisted (b : ThorchainBridge)
    (GetNodeAccount : String → Except Error NodeAccount) : Option Error :=
  let bepAddr := b.signerAddress
  if bepAddr.length = 0 then
    some (Error.New "bep address is empty")
  else
    match GetNodeAccount bepAddr with
    | Except.error err => some (Error.Wrap err "failed to get node account")
    | Except.ok na =>
      if na.Status = NodeStatus.Disabled ∨ na.Status = NodeStatus.Unknown then
        some (Error.New ("node account status " ++ na.Status.String ++
          " , will not be able to forward transaction to thorchain"))
      else
        none

/-- The duration `time.Hour`, in nanoseconds. -/
def Hour : Nat := 3600000000000

/-- The duration `time.Second * 30`, in nanoseconds. -/
def ThirtySeconds : Nat := 30000000000

/-- The chain and the clock as seen by `EnsureNodeWhitelistedWithTimeout`: in
its `k`-th round the answer of `GetNodeAccount`, the time that passes between
the call of `time.After` and the poll of its channel by the `select`, and the
time the check takes; times in nanoseconds. -/
structure WhitelistEnv where
  GetNodeAccount : Nat → String → Except Error NodeAccount
  pollDelay : Nat → Nat
  checkTime : Nat → Nat

/-- What a call of `EnsureNodeWhitelistedWithTimeout` has done: the number of
checks, the number of sleeps, the time passed since the call, and the error it
returned, `none` while it has not returned. -/
structure WhitelistRun where
  checks : Nat
  sleeps : Nat
  elapsed : Nat
  result : Option (Option Error)
  deriving DecidableEq, Repr

/-- The loop of `EnsureNodeWhitelistedWithTimeout`, run for at most the given
number of rounds, from round `k` at time `now`.  On entering the `select` the
call `time.After(time.Hour)` makes a new channel that delivers one hour after
this call; the timeout case is taken if that channel has delivered when the
`select` polls it, the default case otherwise. -/
def ThorchainBridge.EnsureNodeWhitelistedWithTimeoutLoop (b : ThorchainBridge)
    (env : WhitelistEnv) : Nat → Nat → Nat → Nat → WhitelistRun
  | 0, k, sleeps, now => ⟨k, sleeps, now, none⟩
  | n + 1, k, sleeps, now =>
    let deadline := now + Hour
    let polled := now + env.pollDelay k
    if polled ≥ deadline then
      ⟨k, sleeps, polled, some (some (Error.New "Observer is not whitelisted yet"))⟩
    else
      match b.EnsureNodeWhitelisted (env.GetNodeAccount k) with
      | none => ⟨k + 1, sleeps, polled + env.checkTime k, some none⟩
      | some _ =>
        b.EnsureNodeWhitelistedWithTimeoutLoop env n (k + 1) (sleeps + 1)
          (polled + env.checkTime k + ThirtySeconds)

/-- The method `EnsureNodeWhitelistedWithTimeout`, run for at most `rounds`
rounds of its loop. -/
def ThorchainBridge.EnsureNodeWhitelistedWithTimeout (b : ThorchainBridge)
    (env : WhitelistEnv) (rounds : Nat) : WhitelistRun :=
  b.EnsureNodeWhitelistedWithTimeoutLoop env rounds 0 0 0

/-- A bridge for the signer of the tests, with no error counted. -/
def sampleBridge : ThorchainBridge :=
  { cfg :=
      { ChainID := "thorchain"
        ChainHost := "localhost"
        ChainHomeFolder := "~/.thorcli"
        SignerName := "signer"
        SignerPasswd := "signerpassword" }
    signerAddress := "thor1vx80hen38j5w0jn6gqh3crqvktj9stnhw56kn0"
    errCounter := []
    blockHeight := 0
    accountNumber := 7
    seqNumber := 9 }

/-- A response with a status code and a body that is read without error. -/
def respond (code : Int) (body : String) : ClientResponse :=
  { err := none
    StatusCode := code
    body := body
    readErr := none }

/-- A client that answers every request with the same response. -/
def fixedClient (r : ClientResponse) : HttpClient :=
  { Get := fun _ => r
    Post := fun _ _ _ => r }

/-- An account resource with the given account number and sequence. -/
def accountBody (acc seq : String) : String :=
  "\x7b\"result\":\x7b\"value\":\x7b\"account_number\":\"" ++ acc ++
    "\",\"sequence\":\"" ++ seq ++ "\"\x7d\x7d\x7d"

/-- A decoder that knows a few bodies: three account resources, the empty
body, and for every other body the error `json.Unmarshal` gives for the body
`whatever`. -/
def testDecoder : AccountDecoder :=
  { unmarshal := fun body =>
      if body = accountBody "5" "6" then Except.ok ("5", "6")
      else if body = accountBody "5" "whatever" then Except.ok ("5", "whatever")
      else if body = accountBody "asdf" "0" then Except.ok ("asdf", "0")
      else if body = "" then Except.error (Error.fundamental "unexpected end of JSON input")
      else Except.error
        (Error.fundamental "invalid character 'w' looking for beginning of value") }

/-- An address book for the examples: the address of a key on a chain is the
chain, a colon and the key, and two addresses are equal when they are the same
text. -/
def sampleBook : AddressBook :=
  { GetAddress := fun pubKey chain => Except.ok (chain ++ ":" ++ pubKey)
    Equals := fun a b => a == b }

/-- A transaction observed for the key `vault`, with one BNB coin. -/
def sampleTx (id sender receiver : String) : ObservedTx :=
  { Tx :=
      { ID := id
        FromAddress := sender
        ToAddress := receiver
        Coins := [{ Chain := "BNB", Symbol := "BNB", Amount := 1 }] }
    ObservedPubKey := "vault" }

/-- A transaction observed for the key `vault` that carries the given coins. -/
def sampleTxWith (id sender receiver : String) (coins : List Coin) : ObservedTx :=
  { Tx :=
      { ID := id
        FromAddress := sender
        ToAddress := receiver
        Coins := coins }
    ObservedPubKey := "vault" }

/-- Coins of which the first is on the chain ETH and the second on the chain
BNB. -/
def ethFirstCoins : List Coin :=
  [{ Chain := "ETH", Symbol := "ETH", Amount := 2 },
    { Chain := "BNB", Symbol := "BNB", Amount := 1 }]

/-- A batch over two chains: a transaction to the vault whose first coin is
on ETH, a transaction from the vault on BNB, a transaction to the vault
without coins, and a transaction from the vault whose first coin is on ETH. -/
def sampleBatch : List ObservedTx :=
  [sampleTxWith "A" "ETH:user" "ETH:vault" ethFirstCoins, sampleTx "B" "BNB:vault" "BNB:user",
    sampleTxWith "C" "BNB:other" "BNB:vault" [],
    sampleTxWith "D" "ETH:vault" "ETH:user" ethFirstCoins]

/-- The transaction `GetObservationsStdTx` makes of an outbound transaction
followed by an inbound one. -/
def sampleEnvelope : StdTx :=
  { Msgs :=
      [Msg.ObservedTxIn [sampleTx "A" "BNB:user" "BNB:vault"] sampleBridge.signerAddress,
        Msg.ObservedTxOut [sampleTx "B" "BNB:vault" "BNB:user"] sampleBridge.signerAddress]
    Gas := 100000000
    Signatures := []
    Memo := "" }

/-- A chain on which the node account of the signer stays in status `Unknown`,
with a microsecond between `time.After` and the poll of the `select` and a
millisecond for each check. -/
def neverWhitelisted : WhitelistEnv :=
  { GetNodeAccount := fun _ _ => Except.ok { Status := NodeStatus.Unknown }
    pollDelay := fun _ => 1000
    checkTime := fun _ => 1000000 }

end Thorclient

/-!
# Construction of the bridge, events, and the height of a block
-/

namespace Thorclient

open Blockscanner (Error)

/-- The constructor `NewThorchainBridge`.  `NewKeys` is the key store: it
loads the key material of a signer from a home folder, and the bridge reads
the signer address of it; `errCounter` is the counter vector taken from the
metrics.  The numbers of the new bridge are the zero values. -/
def NewThorchainBridge (NewKeys : String → String → String → Except Error String)
    (cfg : ClientConfiguration) (errCounter : List (String × String)) :
    Except Error ThorchainBridge :=
  if cfg.ChainID.length = 0 then
    Except.error (Error.New "chain id is empty")
  else if cfg.ChainHost.length = 0 then
    Except.error (Error.New "chain host is empty")
  else if cfg.SignerName.length = 0 then
    Except.error (Error.New "signer name is empty")
  else if cfg.SignerPasswd.length = 0 then
    Except.error (Error.New "signer password is empty")
  else
    match NewKeys cfg.ChainHomeFolder cfg.SignerName cfg.SignerPasswd with
    | Except.error err => Except.error (wrapf "fail to get keybase,err:" err)
    | Except.ok k =>
      Except.ok
        { cfg := cfg
          signerAddress := k
          errCounter := errCounter
          blockHeight := 0
          accountNumber := 0
          seqNumber := 0 }

/-- The path `fmt.Sprintf(EventTxViaID, txID.String())`. -/
def EventTxViaID (txID : String) : String := "/thorchain/events/tx/" ++ txID

/-- The method `GetEvent`.  The type of an event is declared outside the given
sources: `empty` is its zero value `ttypes.Event{}`, and `unmarshal` is
`b.cdc.UnmarshalJSON` into a list of events. -/
def ThorchainBridge.GetEvent {Event : Type} (b : ThorchainBridge) (client : HttpClient)
    (unmarshal : String → Except Error (List Event)) (empty : Event) (txID : String) :
    ThorchainBridge × (Event × Option Error) :=
  let r := b.get client (EventTxViaID txID)
  match r.2.err with
  | some err => (r.1, (empty, some (wrapf "fail to get event: " err)))
  | none =>
    match unmarshal (r.2.body.getD "") with
    | Except.error err => (r.1, (empty, some (wrapf "fail to unmarshal result to event:" err)))
    | Except.ok [] =>
      (r.1, (empty, some (Error.fundamental ("no events for hash id:" ++ txID))))
    | Except.ok (e :: _) => (r.1, (e, none))

/-- A chain on which the node account of the signer is `Unknown` at the first
two checks and `Active` from the third on. -/
def lateWhitelisted : WhitelistEnv :=
  { GetNodeAccount := fun k _ =>
      if k < 2 then Except.ok { Status := NodeStatus.Unknown }
      else Except.ok { Status := NodeStatus.other "Active" }
    pollDelay := fun _ => 1000
    checkTime := fun _ => 1000000 }

/-- A key store that holds the key of the signer `signer` only. -/
def sampleKeys : String → String → String → Except Error String :=
  fun _ name _ =>
    if name = "signer" then Except.ok "thor1vx80hen38j5w0jn6gqh3crqvktj9stnhw56kn0"
    else Except.error (Error.fundamental "Key not found")

/-- A decoder of event lists that knows two bodies: the empty list and a list
of two events, events being their identifiers. -/
def eventDecoder : String → Except Error (List String) :=
  fun body =>
    if body = "[]" then Except.ok []
    else if body = "[1,2]" then Except.ok ["1", "2"]
    else Except.error (Error.fundamental "unexpected end of JSON input")

end Thorclient

namespace Blockscanner

/-- The error `strconv.ParseInt` returns for a text that is not a number; the
quoting of the text is plain. -/
def intSyntaxError (s : String) : Error :=
  Error.fundamental ("strconv.ParseInt: parsing \"" ++ s ++ "\": invalid syntax")

/-- The error `strconv.ParseInt` returns for a number that does not fit. -/
def intRangeError (s : String) : Error :=
  Error.fundamental ("strconv.ParseInt: parsing \"" ++ s ++ "\": value out of range")

/-- The value `1 << 63`, the `cutoff` of `strconv.ParseInt(_, 10, 64)`. -/
def cutoff : Nat := 9223372036854775808

/-- The part of `strconv.ParseInt(s0, 10, 64)` after the sign is picked off:
`neg` tells whether the sign was a minus, `s` is the text after the sign.  The
text is read by `strconv.ParseUint`, and the number is checked against the
range of `int64`; a range error of `ParseUint` comes with the largest `uint64`
and is caught by these checks. -/
def ParseIntOf (s0 : String) (neg : Bool) (s : String) : Int × Option Error :=
  let r := Thorclient.ParseUint s
  if r.2.isSome ∧ r.2 ≠ some (Thorclient.rangeError s) then
    (0, some (intSyntaxError s0))
  else if neg = false ∧ r.1 ≥ cutoff then
    ((cutoff : Int) - 1, some (intRangeError s0))
  else if neg = true ∧ r.1 > cutoff then
    (-(cutoff : Int), some (intRangeError s0))
  else
    (if neg then -(r.1 : Int) else (r.1 : Int), none)

/-- The library function `strconv.ParseInt(s, 10, 64)`: an empty text is a
syntax error, and a leading `+` or `-` is picked off before the number is
read. -/
def ParseInt (s0 : String) : Int × Option Error :=
  if s0 = "" then
    (0, some (intSyntaxError s0))
  else
    match s0.toList with
    | [] => (0, some (intSyntaxError s0))
    | c :: t =>
      if c = '+' then ParseIntOf s0 false (String.mk t)
      else if c = '-' then ParseIntOf s0 true (String.mk t)
      else ParseIntOf s0 false s0

/-- The text `s` is a decimal numeral of the integer `n`: one or more decimal
digits, after an optional sign. -/
def IsDecimalOf (s : String) (n : Int) : Prop :=
  ∃ digits : List Char, digits ≠ [] ∧ (∀ c ∈ digits, '0' ≤ c ∧ c ≤ '9') ∧
    ((s = String.mk digits ∧ n = (Thorclient.decVal digits 0 : Int)) ∨
      (s = String.mk ('+' :: digits) ∧ n = (Thorclient.decVal digits 0 : Int)) ∨
      (s = String.mk ('-' :: digits) ∧ n = -(Thorclient.decVal digits 0 : Int)))

/-- The decoder of `getRPCBlock` with the library's `strconv.ParseInt`; the
decoding of the body stays a parameter. -/
def goDecoder (unmarshalHeight : Bytes → Except Error String) : Decoder :=
  { unmarshalHeight := unmarshalHeight
    ParseInt := ParseInt }

/-- The bytes of a text of ASCII characters. -/
def bytesOf (s : String) : Bytes := s.toList.map (fun c => UInt8.ofNat c.toNat)

/-- A block resource with the given text in its height field. -/
def blockBody (height : String) : Bytes :=
  bytesOf ("\x7b\"result\":\x7b\"block\":\x7b\"header\":\x7b\"height\":\"" ++ height ++
    "\"\x7d\x7d\x7d\x7d")

/-- A decoder that knows a few bodies: block resources with the heights `42`,
`-7`, `abc` and `9223372036854775808`, a resource without a height, and for
every other body the error of `json.Unmarshal` for an empty body. -/
def blockDecoder : Bytes → Except Error String :=
  fun body =>
    if body = blockBody "42" then Except.ok "42"
    else if body = blockBody "-7" then Except.ok "-7"
    else if body = blockBody "abc" then Except.ok "abc"
    else if body = blockBody "9223372036854775808" then Except.ok "9223372036854775808"
    else if body = bytesOf "\x7b\"result\":\x7b\x7d\x7d" then Except.ok ""
    else Except.error (Error.fundamental "unexpected end of JSON input")

/-- A `GET` answered with status 200 and the given body. -/
def served (body : Bytes) : HttpExchange :=
  { newRequestErr := none
    doErr := none
    StatusCode := 200
    Status := "200 OK"
    body := body
    readErr := none }

/-- A network on which every `GET` is answered with status 200 and the given
body. -/
def upNet (body : Bytes) : HttpEnv :=
  { exchange := fun _ => served body
    NextBackOff := fun _ => 500000000
    stop := fun _ => false }

/-!
## The delivery queue

The channel `scanChan` is made with `make(chan int64, cfg.BlockScanProcessors)`
and is sent on at two places, the `select` of `retryBlocks` and the one of
`scanBlocks`; both have the two cases `<-b.stopChan` and `b.scanChan <- h` and
no `default` case.  The state below holds what these statements act on: the
buffer of the channel, whether `stopChan` is closed, and for each of the two
tasks the heights it has still to offer, which are the heights it arrives with
at its `select`, in order.  What the tasks do between two sends does not touch
the channel.  A schedule lists, in the order in which they happen, the
attempts of the tasks at their `select`, the receives of the consumers and the
closing of `stopChan`.
-/

/-- The two tasks that send on `scanChan`. -/
inductive Producer where
  | scanLoop
  | retryLoop
  deriving DecidableEq, Repr

/-- The channel `scanChan` with its capacity and its buffer, oldest height
first, the heights the consumers have received, whether `stopChan` is closed,
and the heights each task has still to offer. -/
structure Delivery where
  capacity : Nat
  queue : List Int
  received : List Int
  stopped : Bool
  scanTodo : List Int
  retryTodo : List Int
  deriving DecidableEq, Repr

/-- The heights a task has still to offer. -/
def Delivery.todo (d : Delivery) : Producer → List Int
  | Producer.scanLoop => d.scanTodo
  | Producer.retryLoop => d.retryTodo

/-- The state in which a task has the heights `l` still to offer. -/
def Delivery.setTodo (d : Delivery) : Producer → List Int → Delivery
  | Producer.scanLoop, l => { d with scanTodo := l }
  | Producer.retryLoop, l => { d with retryTodo := l }

/-- What can happen next: a task is scheduled at its `select` (with the case
the runtime picks when both are ready), a send of a task is paired with a
consumer that waits in a receive, a consumer receives from the buffer, or
`Stop` closes `stopChan`. -/
inductive Action where
  | select (p : Producer) (stopFirst : Bool)
  | handoff (p : Producer)
  | receive
  | stop
  deriving DecidableEq, Repr

/-- One step.  At its `select` a task has the stop case ready when `stopChan`
is closed and the send case ready when the buffer has room: it takes a ready
case, returning on the stop case, and since there is no `default` case it
stays where it is when neither is ready.  A consumer can only wait in a
receive while the buffer is empty. -/
def Delivery.step (d : Delivery) : Action → Delivery
  | Action.select p stopFirst =>
    match d.todo p with
    | [] => d
    | h :: rest =>
      if d.queue.length < d.capacity then
        if d.stopped && stopFirst then d.setTodo p []
        else { d.setTodo p rest with queue := d.queue ++ [h] }
      else if d.stopped then d.setTodo p []
      else d
  | Action.handoff p =>
    match d.todo p with
    | [] => d
    | h :: rest =>
      if d.queue.length = 0 then { d.setTodo p rest with received := d.received ++ [h] }
      else d
  | Action.receive =>
    match d.queue with
    | [] => d
    | h :: rest => { d with queue := rest, received := d.received ++ [h] }
  | Action.stop => { d with stopped := true }

/-- The state after a schedule. -/
def Delivery.run (d : Delivery) (schedule : List Action) : Delivery :=
  schedule.foldl Delivery.step d

/-- The state in which the two tasks of a scanner start: the channel is empty
and has the capacity `cfg.BlockScanProcessors`, which is not negative, since
`make` panics on a negative size. -/
def delivery (b : CommonBlockScanner) (scanTodo retryTodo : List Int) : Delivery :=
  { capacity := b.cfg.BlockScanProcessors.toNat
    queue := []
    received := []
    stopped := false
    scanTodo := scanTodo
    retryTodo := retryTodo }

/-- No height has been dropped: each task has sent a first part of the
heights it had to offer and has the rest still to offer, and the heights sent
by the two tasks are, counted with their multiplicity, the heights received
and the heights in the buffer. -/
def Delivery.NothingDropped (d : Delivery) (scanTodo retryTodo : List Int) : Prop :=
  ∃ sentScan sentRetry : List Int, scanTodo = sentScan ++ d.scanTodo ∧
    retryTodo = sentRetry ++ d.retryTodo ∧ (d.received ++ d.queue).Perm (sentScan ++ sentRetry)

/-- A schedule for a scanner with two slots: the scan loop sends two heights
and then finds the queue full, as does the retry loop; after a receive the
scan loop sends its third height, and after another the retry loop sends its
own. -/
def sampleSchedule : List Action :=
  [Action.select Producer.scanLoop false, Action.select Producer.scanLoop false,
    Action.select Producer.scanLoop false, Action.select Producer.retryLoop false,
    Action.receive, Action.select Producer.scanLoop false, Action.select Producer.retryLoop false,
    Action.receive, Action.select Producer.retryLoop false]

end Blockscanner

/-!
## Concurrent submissions

`PostKeysignFailure` builds its transaction and hands it to `Broadcast`, which
is not among the given sources.  The bridge has the fields `seqNumber` and
`broadcastLock`; what `Broadcast` does with them is taken from the
specification: it acquires the lock before it reads the sequence, increments
the sequence, sends the transaction, and releases the lock only after the
response is known.
-/

namespace Thorclient

/-- Modelled from the spec: how far a call of `Broadcast`, which is not among
the sources, has come: it waits for the lock, holds the lock, has read the
sequence, has incremented `seqNumber`, has posted the transaction signed with
the sequence it read and knows the response, or has released the lock and
returned. -/
inductive Submission where
  | waiting
  | locked
  | read (sequence : Nat)
  | advanced (sequence : Nat)
  | sent (sequence : Nat)
  | done (sequence : Nat)
  deriving DecidableEq, Repr

/-- Whether a call is between its `Lock` and its `Unlock`. -/
def Submission.holding : Submission → Bool
  | Submission.locked => true
  | Submission.read _ => true
  | Submission.advanced _ => true
  | Submission.sent _ => true
  | _ => false

/-- Modelled from the spec: a bridge with concurrent calls of `Broadcast`:
the bridge, the call that holds `broadcastLock` if any, how far each call has
come, and the calls that have posted a transaction with the sequence each
used, oldest first. -/
structure Shared where
  b : ThorchainBridge
  lock : Option Nat
  calls : Nat → Submission
  posted : List (Nat × Nat)

/-- The state in which call `i` has come to `c`. -/
def Shared.setCall (st : Shared) (i : Nat) (c : Submission) : Shared :=
  { st with calls := fun j => if j = i then c else st.calls j }

/-- Modelled from the spec: the next step of call `i` of `Broadcast`.  A call
that waits takes the lock when it is free and stays where it is otherwise; the
steps between `Lock` and `Unlock` do not look at the lock.  The sequence is a
`uint64`.  The outcome of the post has no part in the steps: the sequence is
incremented before the response is known. -/
def Shared.step (st : Shared) (i : Nat) : Shared :=
  match st.calls i with
  | Submission.waiting =>
    match st.lock with
    | none => { st.setCall i Submission.locked with lock := some i }
    | some _ => st
  | Submission.locked => st.setCall i (Submission.read st.b.seqNumber)
  | Submission.read s =>
    { st.setCall i (Submission.advanced s) with
      b := { st.b with seqNumber := (st.b.seqNumber + 1) % 2 ^ 64 } }
  | Submission.advanced s =>
    { st.setCall i (Submission.sent s) with posted := st.posted ++ [(i, s)] }
  | Submission.sent s => { st.setCall i (Submission.done s) with lock := none }
  | Submission.done _ => st

/-- The state after a schedule, which names the call that makes each step. -/
def Shared.run (st : Shared) (schedule : List Nat) : Shared :=
  schedule.foldl Shared.step st

/-- A bridge on which no call of `Broadcast` has started. -/
def concurrent (b : ThorchainBridge) : Shared :=
  { b := b
    lock := none
    calls := fun _ => Submission.waiting
    posted := [] }

/-- The sequence after `k` increments of the sequence `s0`. -/
def seqAfter (s0 : Nat) : Nat → Nat
  | 0 => s0
  | k + 1 => (seqAfter s0 k + 1) % 2 ^ 64

/-- What holds of every state of a bridge that started with the sequence
`s0`: a call between `Lock` and `Unlock` is the holder of
the lock; the sequence of the bridge is `s0` incremented once for each
transaction posted, and once more while a call has incremented it and not yet
posted; a call has read the sequence that the next post uses; the sequences
posted are the successive values of the sequence; and the calls that have
posted are those that have come to `sent` or `done`, each once. -/
structure Shared.Inv (s0 : Nat) (st : Shared) : Prop where
  excl : ∀ i, (st.calls i).holding = true → st.lock = some i
  free : st.lock = none → st.b.seqNumber = seqAfter s0 st.posted.length
  atLocked : ∀ i, st.calls i = Submission.locked →
    st.b.seqNumber = seqAfter s0 st.posted.length
  atRead : ∀ i s, st.calls i = Submission.read s →
    s = seqAfter s0 st.posted.length ∧ st.b.seqNumber = seqAfter s0 st.posted.length
  atAdvanced : ∀ i s, st.calls i = Submission.advanced s →
    s = seqAfter s0 st.posted.length ∧ st.b.seqNumber = seqAfter s0 (st.posted.length + 1)
  atSent : ∀ i s, st.calls i = Submission.sent s →
    st.b.seqNumber = seqAfter s0 st.posted.length
  values : st.posted.map Prod.snd = (List.range st.posted.length).map (seqAfter s0)
  mem : ∀ i s, (i, s) ∈ st.posted ↔
    (st.calls i = Submission.sent s ∨ st.calls i = Submission.done s)
  once : (st.posted.map Prod.fst).Nodup

/-- Two calls on a bridge, their steps interleaved: call 0 takes the lock,
call 1 finds it taken, and gets it after call 0 has returned. -/
def twoCalls : List Nat := [0, 1, 0, 1, 0, 1, 0, 0, 1, 1, 1, 1, 1]

end Thorclient

/-!
# Pool stakers (x/swapservice/types/type_pool_staker.go)

Staker ids are texts and units are natural numbers.
-/

namespace Swapservice

/-- The type `StakerUnit`. -/
structure StakerUnit where
  StakerID : String
  Units : Nat
  deriving DecidableEq, Repr

/-- The type `PoolStaker`. -/
structure PoolStaker where
  Ticker : String
  TotalUnits : Nat
  Stakers : List StakerUnit
  deriving DecidableEq, Repr

/-- The function `NewPoolStaker`. -/
def NewPoolStaker (ticker : String) (totalUnits : Nat) : PoolStaker :=
  { Ticker := ticker
    TotalUnits := totalUnits
    Stakers := [] }

/-- The loop of `GetStakerUnit` over the stakers that are left, with the
return that follows it. -/
def getStakerUnitLoop (stakerID : String) : List StakerUnit → StakerUnit
  | [] => { StakerID := stakerID, Units := 0 }
  | item :: rest => if item.StakerID = stakerID then item else getStakerUnitLoop stakerID rest

/-- The method `GetStakerUnit`. -/
def PoolStaker.GetStakerUnit (ps : PoolStaker) (stakerID : String) : StakerUnit :=
  getStakerUnitLoop stakerID ps.Stakers

/-- The loop `for idx, item := range ps.Stakers` of `RemoveStakerUnit` and of
`UpsertStakerUnit` over the stakers that are left: `idx` is the index of the
first of them, `pos` the value of `deleteIdx` or `pos` so far.  The loop
does not stop at a staker with the id, so it ends with the index of the last
one. -/
def findIndexLoop (stakerID : String) : List StakerUnit → Nat → Int → Int
  | [], _, pos => pos
  | item :: rest, idx, pos =>
    findIndexLoop stakerID rest (idx + 1) (if item.StakerID = stakerID then (idx : Int) else pos)

/-- The method `RemoveStakerUnit`. -/
def PoolStaker.RemoveStakerUnit (ps : PoolStaker) (stakerID : String) : PoolStaker :=
  let deleteIdx := findIndexLoop stakerID ps.Stakers 0 (-1)
  if deleteIdx ≠ -1 then
    { ps with Stakers := ps.Stakers.take deleteIdx.toNat ++ ps.Stakers.drop (deleteIdx.toNat + 1) }
  else
    ps

/-- The method `UpsertStakerUnit`. -/
def PoolStaker.UpsertStakerUnit (ps : PoolStaker) (stakerUnit : StakerUnit) : PoolStaker :=
  let pos := findIndexLoop stakerUnit.StakerID ps.Stakers 0 (-1)
  if pos ≠ -1 then
    { ps with Stakers := ps.Stakers.set pos.toNat stakerUnit }
  else
    { ps with Stakers := ps.Stakers ++ [stakerUnit] }

/-- The staker ids of a pool are pairwise distinct. -/
def PoolStaker.Distinct (ps : PoolStaker) : Prop :=
  (ps.Stakers.map StakerUnit.StakerID).Nodup

instance (ps : PoolStaker) : Decidable ps.Distinct :=
  inferInstanceAs (Decidable (ps.Stakers.map StakerUnit.StakerID).Nodup)

/-- A pool with three stakers. -/
def samplePool : PoolStaker :=
  { Ticker := "BNB"
    TotalUnits := 60
    Stakers := [⟨"bnb1", 10⟩, ⟨"bnb2", 20⟩, ⟨"bnb3", 30⟩] }

/-- A pool in which one staker id occurs twice. -/
def doublePool : PoolStaker :=
  { Ticker := "BNB"
    TotalUnits := 3
    Stakers := [⟨"bnb1", 1⟩, ⟨"bnb1", 2⟩] }

end Swapservice

/-!
# Memos and block rewards (x/thorchain/memo.go, x/thorchain/vault_data.go)

The functions of the packages `common` and `sdk` that `ParseMemo` calls are
parameters, as is the case mapping `unicode.ToLower` behind
`strings.ToLower`.  The type `sdk.Uint` is an unsigned integer of at most 256
bits whose operations panic when their result does not fit.
-/

namespace Thorchain

open Blockscanner (Error)

/-- The type `TxType`, a `uint8`: `val` is below 256. -/
structure TxType where
  val : Nat
  deriving DecidableEq, Repr

/-- The constant `txUnknown`. -/
def txUnknown : TxType := ⟨0⟩

/-- The constant `txCreate`. -/
def txCreate : TxType := ⟨1⟩

/-- The constant `txStake`. -/
def txStake : TxType := ⟨2⟩

/-- The constant `txWithdraw`. -/
def txWithdraw : TxType := ⟨3⟩

/-- The constant `txSwap`. -/
def txSwap : TxType := ⟨4⟩

/-- The constant `txOutbound`. -/
def txOutbound : TxType := ⟨5⟩

/-- The constant `txAdd`. -/
def txAdd : TxType := ⟨6⟩

/-- The constant `txGas`. -/
def txGas : TxType := ⟨7⟩

/-- The constant `txBond`. -/
def txBond : TxType := ⟨8⟩

/-- The constant `txLeave`. -/
def txLeave : TxType := ⟨9⟩

/-- The constant `txYggdrasilFund`. -/
def txYggdrasilFund : TxType := ⟨10⟩

/-- The constant `txYggdrasilReturn`. -/
def txYggdrasilReturn : TxType := ⟨11⟩

/-- The constant `txReserve`. -/
def txReserve : TxType := ⟨12⟩

/-- The constant `txRefund`. -/
def txRefund : TxType := ⟨13⟩

/-- The constant `txMigrate`. -/
def txMigrate : TxType := ⟨14⟩

/-- The map `stringToTxTypeMap`, as a lookup. -/
def stringToTxTypeMap (s : String) : Option TxType :=
  if s = "create" then some txCreate
  else if s = "c" then some txCreate
  else if s = "#" then some txCreate
  else if s = "stake" then some txStake
  else if s = "st" then some txStake
  else if s = "+" then some txStake
  else if s = "withdraw" then some txWithdraw
  else if s = "wd" then some txWithdraw
  else if s = "-" then some txWithdraw
  else if s = "swap" then some txSwap
  else if s = "s" then some txSwap
  else if s = "=" then some txSwap
  else if s = "outbound" then some txOutbound
  else if s = "add" then some txAdd
  else if s = "a" then some txAdd
  else if s = "%" then some txAdd
  else if s = "gas" then some txGas
  else if s = "g" then some txGas
  else if s = "$" then some txGas
  else if s = "bond" then some txBond
  else if s = "leave" then some txLeave
  else if s = "yggdrasil+" then some txYggdrasilFund
  else if s = "yggdrasil-" then some txYggdrasilReturn
  else if s = "reserve" then some txReserve
  else if s = "refund" then some txRefund
  else if s = "migrate" then some txMigrate
  else none

/-- The map `txToStringMap`, as a lookup. -/
def txToStringMap (tx : TxType) : Option String :=
  if tx = txCreate then some "create"
  else if tx = txStake then some "stake"
  else if tx = txWithdraw then some "withdraw"
  else if tx = txSwap then some "swap"
  else if tx = txOutbound then some "outbound"
  else if tx = txRefund then some "refund"
  else if tx = txAdd then some "add"
  else if tx = txGas then some "gas"
  else if tx = txBond then some "bond"
  else if tx = txLeave then some "leave"
  else if tx = txYggdrasilFund then some "yggdrasil+"
  else if tx = txYggdrasilReturn then some "yggdrasil-"
  else if tx = txReserve then some "reserve"
  else if tx = txMigrate then some "migrate"
  else none

/-- The method `TxType.String`: the entry of `txToStringMap`, and the empty
text for a type that has no entry. -/
def TxType.String (tx : TxType) : String := (txToStringMap tx).getD ""

/-- The method `TxType.Equals`. -/
def TxType.Equals (tx tx2 : TxType) : Bool := tx.String == tx2.String

/-- The library function `strings.ToLower`, which maps every character with
`unicode.ToLower`, here `toLower`. -/
def ToLower (toLower : Char → Char) (s : String) : String := String.mk (s.toList.map toLower)

/-- The function `stringToTxType`. -/
def stringToTxType (toLower : Char → Char) (s : String) : TxType × Option Error :=
  match stringToTxTypeMap (ToLower toLower s) with
  | some t => (t, none)
  | none => (txUnknown, some (Error.fundamental ("invalid tx type: " ++ s)))

/-- The text `s2` differs from the text `s1` in the case of ASCII letters
only: it has the characters of `s1`, each as it is or, for an ASCII letter, in
lower case or in upper case.  Characters outside ASCII are left as they
are. -/
def AsciiCaseVariant (s1 s2 : String) : Prop :=
  List.Forall₂ (fun c d => d = c ∨ d = c.toLower ∨ d = c.toUpper) s1.toList s2.toList

/-- The fields of `common.Asset`, a type declared outside the given sources. -/
structure Asset where
  Chain : String
  Symbol : String
  Ticker : String
  deriving DecidableEq, Repr

/-- The type `MemoBase`. -/
structure MemoBase where
  TxType : TxType
  Asset : Asset
  deriving DecidableEq, Repr

/-- The zero value `MemoBase{}`. -/
def noMemoBase : MemoBase :=
  { TxType := txUnknown
    Asset := ⟨"", "", ""⟩ }

/-- The values of the interface `Memo` that `ParseMemo` returns: a `MemoBase`
itself, or one of the memo types that embed a `MemoBase`, with their own
fields. -/
inductive Memo where
  | base (m : MemoBase)
  | create (m : MemoBase)
  | gas (m : MemoBase)
  | add (m : MemoBase)
  | stake (m : MemoBase) (RuneAmount AssetAmount Address : String)
  | withdraw (m : MemoBase) (Amount : String)
  | swap (m : MemoBase) (Destination : String) (SlipLimit : Nat)
  | outbound (m : MemoBase) (TxID : String)
  | refund (m : MemoBase) (TxID : String)
  | bond (m : MemoBase) (NodeAddress : String)
  | leave (m : MemoBase)
  | yggdrasilFund (m : MemoBase)
  | yggdrasilReturn (m : MemoBase)
  | reserve (m : MemoBase)
  | migrate (m : MemoBase)
  deriving DecidableEq, Repr

/-- The `MemoBase` a memo embeds. -/
def Memo.MemoBase : Memo → MemoBase
  | Memo.base m => m
  | Memo.create m => m
  | Memo.gas m => m
  | Memo.add m => m
  | Memo.stake m _ _ _ => m
  | Memo.withdraw m _ => m
  | Memo.swap m _ _ => m
  | Memo.outbound m _ => m
  | Memo.refund m _ => m
  | Memo.bond m _ => m
  | Memo.leave m => m
  | Memo.yggdrasilFund m => m
  | Memo.yggdrasilReturn m => m
  | Memo.reserve m => m
  | Memo.migrate m => m

/-- The method `GetType`, which every memo type takes from `MemoBase`. -/
def Memo.GetType (m : Memo) : TxType := m.MemoBase.TxType

/-- The method `IsType`, which every memo type takes from `MemoBase`. -/
def Memo.IsType (m : Memo) (tx : TxType) : Bool := m.MemoBase.TxType.Equals tx

/-- The function `NewOutboundMemo`: the embedded `MemoBase` keeps its zero
value. -/
def NewOutboundMemo (txID : String) : Memo := Memo.outbound noMemoBase txID

/-- The function `NewRefundMemo`: the embedded `MemoBase` keeps its zero
value. -/
def NewRefundMemo (txID : String) : Memo := Memo.refund noMemoBase txID

/-- The functions `ParseMemo` calls that are outside the given sources:
`unicode.ToLower`, `common.NewAsset`, `Chain.IsBNB`, `common.NewAddress`,
`common.NewTxID` (which returns an id and an error), `sdk.ParseUint`,
`sdk.AccAddressFromBech32`, and the constant `MaxWithdrawBasisPoints`. -/
structure MemoLib where
  toLower : Char → Char
  NewAsset : String → Except Error Asset
  IsBNB : String → Bool
  NewAddress : String → Except Error String
  NewTxID : String → String × Option Error
  ParseUint : String → Except Error Nat
  AccAddressFromBech32 : String → Except Error String
  MaxWithdrawBasisPoints : Nat

/-- The pieces of a list of characters between the occurrences of `sep`. -/
def splitChars (sep : Char) : List Char → List (List Char)
  | [] => [[]]
  | c :: cs =>
    if c = sep then [] :: splitChars sep cs
    else
      match splitChars sep cs with
      | [] => [[c]]
      | p :: ps => (c :: p) :: ps

/-- The library function `strings.Split` for a separator of one character. -/
def Split (s : String) (sep : Char) : List String := (splitChars sep s.toList).map String.mk

/-- The list `noAssetMemos` of `ParseMemo`. -/
def noAssetMemos : List TxType :=
  [txGas, txOutbound, txBond, txLeave, txRefund, txYggdrasilFund, txYggdrasilReturn, txReserve]

/-- The part of `ParseMemo` that reads the asset: for a type that is not in
`noAssetMemos`, the second field must exist and be an asset. -/
def parseAsset (lib : MemoLib) (tx : TxType) (parts : List String) : Except Error Asset :=
  if noAssetMemos.all (fun memoType => tx ≠ memoType) then
    if parts.length < 2 then
      Except.error
        (Error.fundamental ("cannot parse given memo: length " ++ toString parts.length))
    else
      lib.NewAsset (parts.getD 1 "")
  else
    Except.ok noMemoBase.Asset

/-- The case `txStake` of `ParseMemo`. -/
def parseStake (lib : MemoLib) (parts : List String) (asset : Asset) : Memo × Option Error :=
  if ¬ lib.IsBNB asset.Chain then
    if parts.length < 3 then
      (Memo.base noMemoBase, some (Error.fundamental ("invalid stake. Cannot stake to a non " ++
        "BNB-based pool without providing an associated address")))
    else
      match lib.NewAddress (parts.getD 2 "") with
      | Except.error err => (Memo.base noMemoBase, some err)
      | Except.ok addr => (Memo.stake ⟨txStake, asset⟩ "" "" addr, none)
  else
    (Memo.stake ⟨txStake, asset⟩ "" "" "", none)

/-- The case `txWithdraw` of `ParseMemo`. -/
def parseWithdraw (lib : MemoLib) (parts : List String) (asset : Asset) : Memo × Option Error :=
  if parts.length < 2 then
    (Memo.base noMemoBase, some (Error.fundamental "invalid unstake memo"))
  else if parts.length > 2 then
    let withdrawAmount := parts.getD 2 ""
    match lib.ParseUint withdrawAmount with
    | Except.error err => (Memo.base noMemoBase, some err)
    | Except.ok wa =>
      if ¬ (wa > 0) ∨ wa > lib.MaxWithdrawBasisPoints then
        (Memo.base noMemoBase,
          some (Error.fundamental ("withdraw amount :" ++ withdrawAmount ++ " is invalid")))
      else
        (Memo.withdraw ⟨txWithdraw, asset⟩ withdrawAmount, none)
  else
    (Memo.withdraw ⟨txWithdraw, asset⟩ "", none)

/-- The price limit of the case `txSwap` of `ParseMemo`. -/
def parseSlip (lib : MemoLib) (parts : List String) : Except Error Nat :=
  if parts.length > 3 ∧ (parts.getD 3 "").length > 0 then
    match lib.ParseUint (parts.getD 3 "") with
    | Except.error _ =>
      Except.error
        (Error.fundamental ("swap price limit:" ++ parts.getD 3 "" ++ " is invalid"))
    | Except.ok amount => Except.ok amount
  else
    Except.ok 0

/-- The case `txSwap` of `ParseMemo`. -/
def parseSwap (lib : MemoLib) (parts : List String) (asset : Asset) : Memo × Option Error :=
  if parts.length < 2 then
    (Memo.base noMemoBase, some (Error.fundamental ("missing swap parameters: memo should in " ++
      "SWAP:SYMBOLXX-XXX:DESTADDR:TRADE-TARGET format")))
  else
    let destination : Except Error String :=
      if parts.length > 2 ∧ (parts.getD 2 "").length > 0 then lib.NewAddress (parts.getD 2 "")
      else Except.ok ""
    match destination with
    | Except.error err => (Memo.base noMemoBase, some err)
    | Except.ok dest =>
      match parseSlip lib parts with
      | Except.error err => (Memo.base noMemoBase, some err)
      | Except.ok slip => (Memo.swap ⟨txSwap, asset⟩ dest slip, none)

/-- The `switch tx` of `ParseMemo`. -/
def parseByType (lib : MemoLib) (tx : TxType) (parts : List String) (asset : Asset) :
    Memo × Option Error :=
  if tx = txCreate then (Memo.create ⟨txCreate, asset⟩, none)
  else if tx = txGas then (Memo.gas ⟨txGas, noMemoBase.Asset⟩, none)
  else if tx = txLeave then (Memo.leave ⟨txLeave, noMemoBase.Asset⟩, none)
  else if tx = txAdd then (Memo.add ⟨txAdd, asset⟩, none)
  else if tx = txStake then parseStake lib parts asset
  else if tx = txWithdraw then parseWithdraw lib parts asset
  else if tx = txSwap then parseSwap lib parts asset
  else if tx = txOutbound then
    if parts.length < 2 then
      (Memo.base noMemoBase, some (Error.fundamental "not enough parameters"))
    else
      (NewOutboundMemo (lib.NewTxID (parts.getD 1 "")).1, (lib.NewTxID (parts.getD 1 "")).2)
  else if tx = txRefund then
    if parts.length < 2 then
      (Memo.base noMemoBase, some (Error.fundamental "not enough parameters"))
    else
      (NewRefundMemo (lib.NewTxID (parts.getD 1 "")).1, (lib.NewTxID (parts.getD 1 "")).2)
  else if tx = txBond then
    if parts.length < 2 then
      (Memo.base noMemoBase, some (Error.fundamental "not enough parameters"))
    else
      match lib.AccAddressFromBech32 (parts.getD 1 "") with
      | Except.error err =>
        (Memo.base noMemoBase,
          some (Error.Wrap err (parts.getD 1 "" ++ " is an invalid thorchain address")))
      | Except.ok addr => (Memo.bond ⟨txBond, noMemoBase.Asset⟩ addr, none)
  else if tx = txYggdrasilFund then
    (Memo.yggdrasilFund ⟨txYggdrasilFund, noMemoBase.Asset⟩, none)
  else if tx = txYggdrasilReturn then
    (Memo.yggdrasilReturn ⟨txYggdrasilReturn, noMemoBase.Asset⟩, none)
  else if tx = txReserve then (Memo.reserve ⟨txYggdrasilReturn, noMemoBase.Asset⟩, none)
  else if tx = txMigrate then (Memo.migrate ⟨txMigrate, noMemoBase.Asset⟩, none)
  else
    (Memo.base noMemoBase, some (Error.fundamental ("TxType not supported: " ++ tx.String)))

/-- The function `ParseMemo`. -/
def ParseMemo (lib : MemoLib) (memo : String) : Memo × Option Error :=
  if memo.length = 0 then
    (Memo.base noMemoBase, some (Error.fundamental "memo can't be empty"))
  else
    let parts := Split memo ':'
    match stringToTxType lib.toLower (parts.getD 0 "") with
    | (_, some err) => (Memo.base noMemoBase, some err)
    | (tx, none) =>
      match parseAsset lib tx parts with
      | Except.error err => (Memo.base noMemoBase, some err)
      | Except.ok asset => parseByType lib tx parts asset

/-- The type `ParseMemo` gives a memo whose first field names the type `tx`:
the type itself, except that an outbound and a refund memo keep the zero value
`txUnknown` and a reserve memo is given `txYggdrasilReturn`. -/
def parsedType (tx : TxType) : TxType :=
  if tx = txOutbound ∨ tx = txRefund then txUnknown
  else if tx = txReserve then txYggdrasilReturn
  else tx

/-- Library functions for the examples: the case mapping of the ASCII
letters, assets on the chain `BNB`, and texts that are taken as they are. -/
def sampleLib : MemoLib :=
  { toLower := Char.toLower
    NewAsset := fun s => Except.ok ⟨"BNB", s, s⟩
    IsBNB := fun c => c == "BNB"
    NewAddress := fun s => Except.ok s
    NewTxID := fun s => (s, none)
    ParseUint := fun s =>
      match (Thorclient.ParseUint s).2 with
      | some err => Except.error err
      | none => Except.ok (Thorclient.ParseUint s).1
    AccAddressFromBech32 := fun s => Except.ok s
    MaxWithdrawBasisPoints := 10000 }

/-- The conversion of an integer to `int64`: the result of an `int64`
operation whose exact value is the integer. -/
def toInt64 (x : Int) : Int :=
  (x + 9223372036854775808) % 18446744073709551616 - 9223372036854775808

/-- The conversion `uint64(x)` of an `int64`. -/
def toUint64 (x : Int) : Nat := (x % 18446744073709551616).toNat

/-- The function `calculateNodeAccountBondUints`; its arguments are `int64`. -/
def calculateNodeAccountBondUints (height activeBlock slashPts : Int) : Nat :=
  if height < 0 ∨ activeBlock < 0 ∨ slashPts < 0 then
    0
  else
    let blockCount := toInt64 (height - activeBlock)
    let bCount := if blockCount < slashPts then slashPts else blockCount
    toUint64 (toInt64 (bCount - slashPts))

/-- The ways an operation of `sdk.Uint` panics. -/
inductive Panic where
  | overflow
  | underflow
  | notUint64
  | divisionByZero
  deriving DecidableEq, Repr

/-- The largest value of `sdk.Uint`, which has 256 bits. -/
def maxUint : Nat := 2 ^ 256 - 1

/-- The method `Uint.Add`, which panics when the sum has more than 256 bits. -/
def UintAdd (a b : Nat) : Except Panic Nat :=
  if a + b ≤ maxUint then Except.ok (a + b) else Except.error Panic.overflow

/-- The method `Uint.Sub`, which panics when the difference is negative. -/
def UintSub (a b : Nat) : Except Panic Nat :=
  if b ≤ a then Except.ok (a - b) else Except.error Panic.underflow

/-- The method `Uint.QuoUint64`, which panics on a zero divisor. -/
def UintQuoUint64 (a d : Nat) : Except Panic Nat :=
  if d = 0 then Except.error Panic.divisionByZero else Except.ok (a / d)

/-- The method `Uint.Uint64`, which panics when the value has more than 64
bits. -/
def UintUint64 (a : Nat) : Except Panic Nat :=
  if a < 2 ^ 64 then Except.ok a else Except.error Panic.notUint64

/-- The function `calcBlockRewards`.  The block reward is computed in
`float64` from the reserve and the constants `EmissionCurve` and
`BlocksPerYear`, which are outside the given sources, and converted to
`uint64`: `emission` is this computation, from the reserve as a `uint64` to
the block reward. -/
def calcBlockRewards (emission : Nat → Nat) (totalReserve totalLiquidityFees : Nat) :
    Except Panic (Nat × Nat × Nat) :=
  match UintUint64 totalReserve with
  | Except.error p => Except.error p
  | Except.ok reserve =>
    let blockReward := emission reserve % 2 ^ 64
    match UintAdd blockReward totalLiquidityFees with
    | Except.error p => Except.error p
    | Except.ok systemIncome =>
      match UintQuoUint64 systemIncome 3 with
      | Except.error p => Except.error p
      | Except.ok stakerSplit =>
        match UintSub systemIncome stakerSplit with
        | Except.error p => Except.error p
        | Except.ok bonderSplit =>
          if stakerSplit ≥ totalLiquidityFees then
            match UintSub stakerSplit totalLiquidityFees with
            | Except.error p => Except.error p
            | Except.ok poolReward => Except.ok (bonderSplit, poolReward, 0)
          else
            match UintSub totalLiquidityFees stakerSplit with
            | Except.error p => Except.error p
            | Except.ok stakerDeficit => Except.ok (bonderSplit, 0, stakerDeficit)

/-- An emission for the examples: the reserve divided by 6 and then by
6311390, in whole numbers. -/
def sampleEmission (reserve : Nat) : Nat := reserve / 6 / 6311390

end Thorchain

/-!
# Swaps (x/swapservice/swap.go)

The amounts are `float64` values; the type and its operations are parameters
of the embedding, as are the key-value store behind the interface
`poolStorage` and the functions on tickers, which are declared outside the
given sources.  The context carries the logger only and is left out.
-/

namespace Swapservice

open Blockscanner (Error)

/-- The type `Ticker`. -/
abbrev Ticker := String

/-- The type `PoolStruct`. -/
structure PoolStruct where
  PoolID : String
  BalanceRune : String
  BalanceToken : String
  Ticker : String
  TokenName : String
  PoolUnits : String
  PoolAddress : String
  Status : String
  deriving DecidableEq, Repr

/-- The fields of `SwapRecord` that `swap` sets. -/
structure SwapRecord where
  RequestTxHash : String
  SourceTicker : Ticker
  TargetTicker : Ticker
  Requester : String
  Destination : String
  AmountRequested : String
  AmountPaidBack : String
  deriving DecidableEq, Repr

/-- The type `float64` with the operations `swap` uses: `strconv.ParseFloat`,
`strconv.FormatFloat(_, 'f', 8, 64)`, the formats `%f` and `%.2f`, the
constants 0, 2 and 100, the arithmetic, `math.Pow`, `math.Abs` and the
comparisons. -/
structure Float64 (F : Type) where
  ParseFloat : String → Except Error F
  FormatFloat : F → String
  formatF : F → String
  formatF2 : F → String
  zero : F
  two : F
  hundred : F
  add : F → F → F
  sub : F → F → F
  mul : F → F → F
  div : F → F → F
  Pow : F → F → F
  Abs : F → F
  gt : F → F → Bool
  le : F → F → Bool
  eq : F → F → Bool

/-- The fields of `config.Settings` that `swapOne` reads. -/
structure Settings (F : Type) where
  GlobalPoolSlip : F
  GlobalTradeSlipLimit : F

/-- What `swap` is given from outside the sources: the methods of the keeper
behind `poolStorage`, on a store of type `K`, the functions `IsRune` and
`Ticker.Empty`, and the constants `RuneTicker` and `PoolEnabled`. -/
structure Env (F K : Type) where
  fl : Float64 F
  PoolExist : K → Ticker → Bool
  GetPoolStruct : K → Ticker → PoolStruct
  SetPoolStruct : K → Ticker → PoolStruct → K
  SetSwapRecord : K → SwapRecord → K × Option Error
  IsRune : Ticker → Bool
  RuneTicker : Ticker
  Empty : Ticker → Bool
  PoolEnabled : String

/-- The library function `unicode.IsSpace`. -/
def isSpace (c : Char) : Bool :=
  [9, 10, 11, 12, 13, 32, 133, 160, 5760, 8232, 8233, 8239, 8287, 12288].contains c.toNat ||
    (8192 ≤ c.toNat && c.toNat ≤ 8202)

/-- The function `isEmptyString`: `strings.TrimSpace(input) == ""` holds when
every character of the text is a space. -/
def isEmptyString (input : String) : Bool := input.toList.all isSpace

/-- The function `validateMessage`. -/
def validateMessage {F K : Type} (env : Env F K) (keeper : K) (source target : Ticker)
    (amount requester destination requestTxHash tradeSlipLimit : String) : Option Error :=
  if isEmptyString requestTxHash then some (Error.New "request tx hash is empty")
  else if env.Empty source then some (Error.New "source is empty")
  else if env.Empty target then some (Error.New "target is empty")
  else if isEmptyString amount then some (Error.New "amount is empty")
  else if isEmptyString requester then some (Error.New "requester is empty")
  else if isEmptyString destination then some (Error.New "destination is empty")
  else if isEmptyString tradeSlipLimit then some (Error.New "trade slip limit is empty")
  else if !env.IsRune source && !env.PoolExist keeper source then
    some (Error.New (source ++ " doesn't exist"))
  else if !env.IsRune target && !env.PoolExist keeper target then
    some (Error.New (target ++ " doesn't exist"))
  else none

/-- The function `calculateUserPrice`. -/
def calculateUserPrice {F K : Type} (env : Env F K) (source : Ticker)
    (balanceRune balanceToken amt : F) : F :=
  if env.IsRune source then
    env.fl.div (env.fl.Pow (env.fl.add balanceRune amt) env.fl.two)
      (env.fl.mul balanceRune balanceToken)
  else
    env.fl.div (env.fl.Pow (env.fl.add balanceToken amt) env.fl.two)
      (env.fl.mul balanceRune balanceToken)

/-- The function `calculatePoolSlip`. -/
def calculatePoolSlip {F K : Type} (env : Env F K) (source : Ticker)
    (balanceRune balanceToken amt : F) : F :=
  if env.IsRune source then
    env.fl.div (env.fl.mul amt (env.fl.add (env.fl.mul env.fl.two balanceRune) amt))
      (env.fl.Pow balanceRune env.fl.two)
  else
    env.fl.div (env.fl.mul amt (env.fl.add (env.fl.mul env.fl.two balanceToken) amt))
      (env.fl.Pow balanceToken env.fl.two)

/-- The function `calculateSwap`: the new rune balance, the new token
balance, the amount to emit, and the error. -/
def calculateSwap {F K : Type} (env : Env F K) (source : Ticker)
    (balanceRune balanceToken amt : F) : F × F × F × Option Error :=
  if env.fl.le amt env.fl.zero then
    (balanceRune, balanceToken, env.fl.zero, some (Error.New "amount is invalid"))
  else if env.fl.le balanceRune env.fl.zero || env.fl.le balanceToken env.fl.zero then
    (balanceRune, balanceToken, amt, some (Error.New "invalid balance"))
  else if env.IsRune source then
    let balanceRune1 := env.fl.add balanceRune amt
    let tokenAmount := env.fl.div (env.fl.mul amt balanceToken) balanceRune1
    let liquidityFee := env.fl.div (env.fl.mul (env.fl.Pow amt env.fl.two) balanceToken)
      (env.fl.Pow balanceRune1 env.fl.two)
    let tokenAmount1 := env.fl.sub tokenAmount liquidityFee
    (balanceRune1, env.fl.sub balanceToken tokenAmount1, tokenAmount1, none)
  else
    let balanceToken1 := env.fl.add balanceToken amt
    let runeAmt := env.fl.div (env.fl.mul balanceRune amt) balanceToken1
    let liquidityFee := env.fl.div (env.fl.mul (env.fl.Pow amt env.fl.two) balanceRune)
      (env.fl.Pow balanceToken1 env.fl.two)
    let runeAmt1 := env.fl.sub runeAmt liquidityFee
    (env.fl.sub balanceRune runeAmt1, balanceToken1, runeAmt1, none)

/-- The part of `swapOne` after the balances of the pool are parsed. -/
def swapOnePool {F K : Type} (env : Env F K) (settings : Settings F) (keeper : K)
    (source ticker : Ticker) (pool : PoolStruct) (amt fslipLimit balanceRune balanceToken : F) :
    K × (String × Option Error) :=
  let poolSlip := calculatePoolSlip env source balanceRune balanceToken amt
  if env.fl.gt poolSlip settings.GlobalPoolSlip then
    (keeper, ("0", some (Error.New ("pool slip:" ++ env.fl.formatF poolSlip ++
      " is over global pool slip limit :" ++ env.fl.formatF settings.GlobalPoolSlip))))
  else
    let userPrice := calculateUserPrice env source balanceRune balanceToken amt
    if env.fl.gt (env.fl.div (env.fl.Abs (env.fl.sub userPrice fslipLimit)) fslipLimit)
        settings.GlobalTradeSlipLimit then
      (keeper, ("0", some (Error.New ("user price " ++ env.fl.formatF userPrice ++
        " is more than " ++
        env.fl.formatF2 (env.fl.mul settings.GlobalTradeSlipLimit env.fl.hundred) ++
        " percent different than " ++ env.fl.formatF fslipLimit))))
    else if env.IsRune source && env.fl.eq balanceToken env.fl.zero then
      (keeper, ("0", some (Error.New "token :%s balance is 0, can't do swap")))
    else if !env.IsRune source && env.fl.eq balanceRune env.fl.zero then
      (keeper, ("0", some (Error.New (env.RuneTicker ++ " balance is 0, can't swap "))))
    else
      match calculateSwap env source balanceRune balanceToken amt with
      | (_, _, _, some err) => (keeper, ("0", some (Error.Wrap err "fail to swap")))
      | (newBalanceRune, newBalanceToken, returnAmt, none) =>
        let pool1 :=
          { pool with
            BalanceRune := env.fl.FormatFloat newBalanceRune
            BalanceToken := env.fl.FormatFloat newBalanceToken }
        (env.SetPoolStruct keeper ticker pool1, (env.fl.FormatFloat returnAmt, none))

set_option linter.unusedVariables false in
/-- The function `swapOne`: the store it leaves and the pair it returns.  The
requester and the destination are written to the log only. -/
def swapOne {F K : Type} (env : Env F K) (settings : Settings F) (keeper : K)
    (source target : Ticker) (amount requester destination tradeSlipLimit : String) :
    K × (String × Option Error) :=
  let ticker := if env.IsRune source then target else source
  if !env.PoolExist keeper ticker then
    (keeper, ("0", some (Error.New ("pool " ++ ticker ++ " doesn't exist"))))
  else
    match env.fl.ParseFloat amount with
    | Except.error err =>
      (keeper, ("0", some (Error.Wrap err ("amount:" ++ amount ++ " is not valid"))))
    | Except.ok amt =>
      match env.fl.ParseFloat tradeSlipLimit with
      | Except.error err =>
        (keeper,
          ("0", some (Error.Wrap err ("trade slip limit " ++ tradeSlipLimit ++ " is not valid"))))
      | Except.ok fslipLimit =>
        let pool := env.GetPoolStruct keeper ticker
        if pool.Status ≠ env.PoolEnabled then
          (keeper, ("0", some (Error.New
            ("pool " ++ ticker ++ " is in " ++ pool.Status ++ " status, can't swap"))))
        else
          match env.fl.ParseFloat pool.BalanceRune with
          | Except.error err =>
            (keeper, ("0", some (Error.Wrap err
              ("pool rune balance " ++ pool.BalanceRune ++ " is invalid"))))
          | Except.ok balanceRune =>
            match env.fl.ParseFloat pool.BalanceToken with
            | Except.error err =>
              (keeper, ("0", some (Error.Wrap err
                ("pool token balance " ++ pool.BalanceToken ++ " is invalid"))))
            | Except.ok balanceToken =>
              swapOnePool env settings keeper source ticker pool amt fslipLimit balanceRune
                balanceToken

/-- The function `swap`: the store it leaves and the pair it returns.  A
failure of `SetSwapRecord` is logged and has no other effect. -/
def swap {F K : Type} (env : Env F K) (settings : Settings F) (keeper : K)
    (source target : Ticker)
    (amount requester destination requestTxHash tradeSlipLimit : String) :
    K × (String × Option Error) :=
  match validateMessage env keeper source target amount requester destination requestTxHash
      tradeSlipLimit with
  | some err => (keeper, ("0", some err))
  | none =>
    let isDoubleSwap := !env.IsRune source && !env.IsRune target
    let swapRecord : SwapRecord :=
      { RequestTxHash := requestTxHash
        SourceTicker := source
        TargetTicker := target
        Requester := requester
        Destination := destination
        AmountRequested := amount
        AmountPaidBack := "" }
    if isDoubleSwap then
      let first := swapOne env settings keeper source env.RuneTicker amount requester destination
        tradeSlipLimit
      match first.2.2 with
      | some err =>
        (first.1, ("0", some (Error.Wrap err
          ("fail to swap from " ++ source ++ " to " ++ env.RuneTicker))))
      | none =>
        let second := swapOne env settings first.1 env.RuneTicker target first.2.1 requester
          destination tradeSlipLimit
        let saved := env.SetSwapRecord second.1 { swapRecord with AmountPaidBack := second.2.1 }
        (saved.1, second.2)
    else
      let one := swapOne env settings keeper source target amount requester destination
        tradeSlipLimit
      let saved := env.SetSwapRecord one.1 { swapRecord with AmountPaidBack := one.2.1 }
      (saved.1, one.2)

/-- A store for the examples: the pools by ticker, and the swap records. -/
structure MapKeeper where
  pools : List (Ticker × PoolStruct)
  records : List SwapRecord
  deriving DecidableEq, Repr

/-- The pool of a ticker in a store for the examples. -/
def MapKeeper.pool (k : MapKeeper) (ticker : Ticker) : Option PoolStruct :=
  (k.pools.find? (fun e => e.1 = ticker)).map Prod.snd

/-- The text of a whole number with eight decimals, as
`strconv.FormatFloat(_, 'f', 8, 64)` writes it. -/
def wholeFormat (n : Int) : String := toString n ++ ".00000000"

/-- The whole number that a text of digits stands for, with or without eight
decimals that are zero. -/
def wholeParse (s : String) : Except Error Int :=
  let digits :=
    if ".00000000".toList.isSuffixOf s.toList then s.toList.take (s.toList.length - 9)
    else s.toList
  match Thorclient.ParseUint (String.mk digits) with
  | (_, some err) => Except.error err
  | (n, none) => Except.ok (n : Int)

/-- Whole numbers in place of `float64`, for the examples: on whole numbers
whose sums, products and powers are small and whose quotients are whole, every
operation gives what `float64` gives. -/
def wholeFloat : Float64 Int :=
  { ParseFloat := wholeParse
    FormatFloat := wholeFormat
    formatF := fun n => toString n ++ ".000000"
    formatF2 := fun n => toString n ++ ".00"
    zero := 0
    two := 2
    hundred := 100
    add := fun a b => a + b
    sub := fun a b => a - b
    mul := fun a b => a * b
    div := fun a b => a / b
    Pow := fun a b => a ^ b.toNat
    Abs := fun a => (a.natAbs : Int)
    gt := fun a b => decide (a > b)
    le := fun a b => decide (a ≤ b)
    eq := fun a b => decide (a = b) }

/-- The environment of the examples: the store is a `MapKeeper`, the rune
ticker is `RUNE`, and a pool is enabled when its status is `Enabled`. -/
def sampleEnv : Env Int MapKeeper :=
  { fl := wholeFloat
    PoolExist := fun k t => (k.pool t).isSome
    GetPoolStruct := fun k t => (k.pool t).getD ⟨"", "0", "0", "", "", "0", "", ""⟩
    SetPoolStruct := fun k t p =>
      { k with pools := (t, p) :: k.pools.filter (fun e => decide (e.1 ≠ t)) }
    SetSwapRecord := fun k r => ({ k with records := k.records ++ [r] }, none)
    IsRune := fun t => t == "RUNE"
    RuneTicker := "RUNE"
    Empty := fun t => isEmptyString t
    PoolEnabled := "Enabled" }

/-- The settings of the examples: a pool slip of at most 5 and a trade slip
of at most 1. -/
def sampleSettings : Settings Int :=
  { GlobalPoolSlip := 5
    GlobalTradeSlipLimit := 1 }

/-- A pool of the examples with 100 rune, 100 tokens and the given status. -/
def samplePoolStruct (ticker status : String) : PoolStruct :=
  { PoolID := "pool-" ++ ticker
    BalanceRune := "100"
    BalanceToken := "100"
    Ticker := ticker
    TokenName := ticker
    PoolUnits := "100"
    PoolAddress := "bnb1pool"
    Status := status }

/-- A store with an enabled pool `BNB` and a suspended pool `TCAN`. -/
def sampleKeeper : MapKeeper :=
  { pools := [("BNB", samplePoolStruct "BNB" "Enabled"),
      ("TCAN", samplePoolStruct "TCAN" "Suspended")]
    records := [] }

end Swapservice
namespace Blockscanner

/-! ## The heights of full rounds -/

theorem mem_heightsFrom (k : Nat) : ∀ (p h : Int), h ∈ heightsFrom p k ↔ p < h ∧ h ≤ p + k := by
  induction k with
  | zero =>
    intro p h
    simp only [heightsFrom, List.not_mem_nil, false_iff]
    push_cast
    omega
  | succ k ih =>
    intro p h
    simp only [heightsFrom, List.mem_cons, ih]
    push_cast
    constructor
    · rintro (rfl | ⟨h1, h2⟩) <;> omega
    · intro ⟨h1, h2⟩
      by_cases hh : h = p + 1
      · exact Or.inl hh
      · right; omega

theorem sorted_heightsFrom (k : Nat) : ∀ p : Int, List.Sorted (· < ·) (heightsFrom p k) := by
  induction k with
  | zero => intro p; simp [heightsFrom]
  | succ k ih =>
    intro p
    simp only [heightsFrom, List.sorted_cons]
    refine ⟨?_, ih (p + 1)⟩
    intro x hx
    have := (mem_heightsFrom k (p + 1) x).1 hx
    omega

theorem heightsFrom_append (k : Nat) : ∀ (p : Int) (m : Nat),
    heightsFrom p k ++ heightsFrom (p + k) m = heightsFrom p (k + m) := by
  induction k with
  | zero => intro p m; simp [heightsFrom]
  | succ k ih =>
    intro p m
    have h := ih (p + 1) m
    have e : p + 1 + (k : Int) = p + ((k + 1 : Nat) : Int) := by push_cast; ring
    rw [e] at h
    have e2 : k + 1 + m = (k + m) + 1 := by omega
    rw [e2]
    simp only [heightsFrom, List.cons_append, h]

theorem sends_append (s t : List Event) : sends (s ++ t) = sends s ++ sends t := by
  induction s with
  | nil => rfl
  | cons e s ih => cases e <;> simp [sends, ih]

theorem sends_rounds (k : Nat) : ∀ p : Int, sends (rounds p k) = heightsFrom p k := by
  induction k with
  | zero => intro p; rfl
  | succ k ih => intro p; simp [rounds, sends, heightsFrom, ih]

/-! ## The actions of the scan loop -/

theorem scanFor_trace (env : Env) (c : Int) (n : Nat) :
    ∀ (idx : Int) (b : CommonBlockScanner) (p : Int), b.previousBlock = p →
      ScanTrace p (scanFor env c n idx b).events := by
  induction n with
  | zero => intro idx b p _; exact ScanTrace.nil _
  | succ n ih =>
    intro idx b p hp
    subst hp
    simp only [scanFor]
    split
    · split
      · exact ScanTrace.status _ true
      · split
        · exact ScanTrace.status _ false
        · split
          · exact ScanTrace.posFailed _
          · exact ScanTrace.round _ _ (ih _ _ _ rfl)
    · exact ScanTrace.nil _

theorem scanFor_running (env : Env) (c : Int) (n : Nat) :
    ∀ (idx : Int) (b : CommonBlockScanner) (p : Int), b.previousBlock = p →
      (scanFor env c n idx b).returned = false →
      ∃ k : Nat, (scanFor env c n idx b).events = rounds p k ∧
        (scanFor env c n idx b).b.previousBlock = p + k := by
  induction n with
  | zero => intro idx b p hp _; exact ⟨0, rfl, by simp [scanFor, hp]⟩
  | succ n ih =>
    intro idx b p hp
    subst hp
    simp only [scanFor]
    split
    · split
      · intro h; simp at h
      · split
        · intro h; simp at h
        · split
          · intro h; simp at h
          · intro h
            obtain ⟨k, h1, h2⟩ := ih _ _ (b.previousBlock + 1) rfl h
            refine ⟨k + 1, ?_, ?_⟩
            · simp only [rounds, h1]
              rfl
            · rw [h2]
              push_cast
              ring
    · intro _; exact ⟨0, rfl, by simp⟩

theorem scanFor_ok (env : Env) (hw : env.scannerStorage.NoWriteFails) (hs : env.NoStop)
    (c : Int) (n : Nat) :
    ∀ (idx : Int) (b : CommonBlockScanner) (p : Int), b.previousBlock = p → idx + n ≤ c →
      (scanFor env c n idx b).returned = false ∧
      (scanFor env c n idx b).events = rounds p n ∧
      (scanFor env c n idx b).b.previousBlock = p + n := by
  induction n with
  | zero => intro idx b p hp _; exact ⟨rfl, rfl, by simp [scanFor, hp]⟩
  | succ n ih =>
    intro idx b p hp hle
    subst hp
    have hlt : idx < c := by push_cast at hle; omega
    have hle2 : idx + 1 + (n : Int) ≤ c := by push_cast at hle; omega
    simp only [scanFor, if_pos hlt, hw.1, hw.2, hs _, Bool.false_eq_true, if_false]
    obtain ⟨h1, h2, h3⟩ := ih (idx + 1)
      (((b.setPrevious (b.previousBlock + 1)).incBlockScanned.next.next.addPosition 1).next)
      (b.previousBlock + 1) rfl hle2
    refine ⟨h1, ?_, ?_⟩
    · simp only [rounds, h2]
      rfl
    · rw [h3]
      push_cast
      ring

theorem rounds_trace (k : Nat) : ∀ (p : Int) (t : List Event),
    ScanTrace (p + k) t → ScanTrace p (rounds p k ++ t) := by
  induction k with
  | zero => intro p t h; simpa [rounds] using h
  | succ k ih =>
    intro p t h
    have e : p + ((k + 1 : Nat) : Int) = p + 1 + k := by push_cast; ring
    rw [e] at h
    exact ScanTrace.round _ _ (ih (p + 1) t h)

theorem not_failed_rounds (k : Nat) : ∀ (p : Int) (e : Event),
    e ∈ rounds p k → e.isFailedWrite = false := by
  induction k with
  | zero => intro p e h; simp [rounds] at h
  | succ k ih =>
    intro p e h
    simp only [rounds, List.mem_cons] at h
    rcases h with rfl | rfl | rfl | h
    · rfl
    · rfl
    · rfl
    · exact ih _ _ h

theorem afterGetRPCBlock_previousBlock (err : Option Error) (b : CommonBlockScanner) :
    (afterGetRPCBlock err b).previousBlock = b.previousBlock := by
  cases err <;> rfl

theorem scanLoop_trace (env : Env) (readings : List (Int × Option Error)) :
    ∀ (b : CommonBlockScanner) (p : Int), b.previousBlock = p →
      ScanTrace p (scanLoop env readings b).events := by
  induction readings with
  | nil => intro b p _; exact ScanTrace.nil _
  | cons r rest ih =>
    intro b p hp
    obtain ⟨c, err⟩ := r
    have hb1 : (afterGetRPCBlock err b).previousBlock = p := by
      rw [afterGetRPCBlock_previousBlock, hp]
    simp only [scanLoop]
    split
    · exact ScanTrace.nil _
    · split
      · exact ScanTrace.fetch _ _ _ _ (ScanTrace.sleep _ _ _ (ih _ _ hb1))
      · split
        · split
          · exact ScanTrace.fetch _ _ _ _ (scanFor_trace _ _ _ _ _ _ hb1)
          · rename_i hr
            obtain ⟨k, h1, h2⟩ := scanFor_running env c _ _ _ p hb1 (by simpa using hr)
            rw [h1]
            exact ScanTrace.fetch _ _ _ _ (rounds_trace k _ _ (ih _ _ h2))
        · exact ScanTrace.fetch _ _ _ _ (ih _ _ hb1)

theorem scanLoop_running (env : Env) (readings : List (Int × Option Error)) :
    ∀ b : CommonBlockScanner, (scanLoop env readings b).returned = false →
      ∀ e ∈ (scanLoop env readings b).events, e.isFailedWrite = false := by
  induction readings with
  | nil => intro b _ e he; simp [scanLoop] at he
  | cons r rest ih =>
    intro b
    obtain ⟨c, err⟩ := r
    simp only [scanLoop]
    split
    · intro h; simp at h
    · split
      · intro h e he
        simp only [List.mem_cons] at he
        rcases he with rfl | rfl | he
        · rfl
        · rfl
        · exact ih _ h e he
      · split
        · split
          · intro h; simp at h
          · rename_i hr
            obtain ⟨k, h1, _⟩ := scanFor_running env c _ _ _ _ rfl (by simpa using hr)
            intro h e he
            simp only [List.mem_cons, List.mem_append] at he
            rcases he with rfl | he | he
            · rfl
            · rw [h1] at he
              exact not_failed_rounds _ _ _ he
            · exact ih _ h e he
        · intro h e he
          simp only [List.mem_cons] at he
          rcases he with rfl | he
          · rfl
          · exact ih _ h e he

/-! ## A scan without failures -/

theorem sorted_last_max (l : List Int) (hk : Int) (hsorted : List.Sorted (· < ·) l)
    (hlast : l.getLast? = some hk) : ∀ x ∈ l, x ≤ hk := by
  obtain ⟨ys, rfl⟩ := List.getLast?_eq_some_iff.1 hlast
  intro x hx
  rcases List.mem_append.1 hx with h | h
  · have := (List.pairwise_append.1 hsorted).2.2 x h hk (by simp)
    omega
  · simp at h
    omega

theorem scanLoop_ok (env : Env) (hw : env.scannerStorage.NoWriteFails) (hs : env.NoStop)
    (readings : List (Int × Option Error)) :
    ∀ (b : CommonBlockScanner) (p : Int), b.previousBlock = p →
      (scanLoop env readings b).returned = false ∧
      ∃ k : Nat, sends (scanLoop env readings b).events = heightsFrom p k ∧
        (scanLoop env readings b).b.previousBlock = p + k ∧
        (∀ r ∈ readings, r.1 ≤ p + k) ∧ (k = 0 ∨ ∃ r ∈ readings, r.1 = p + k) := by
  induction readings with
  | nil =>
    intro b p hp
    exact ⟨rfl, 0, rfl, by simp [scanLoop, hp], by simp, Or.inl rfl⟩
  | cons r rest ih =>
    intro b p hp
    obtain ⟨c, err⟩ := r
    have hb1 : (afterGetRPCBlock err b).previousBlock = p := by
      rw [afterGetRPCBlock_previousBlock, hp]
    by_cases hge : p ≥ c
    · obtain ⟨h1, k, h2, h3, h4, h5⟩ := ih (afterGetRPCBlock err b) p hb1
      have hc : (afterGetRPCBlock err b).previousBlock ≥ c := by rw [hb1]; exact hge
      simp only [scanLoop, hs _, Bool.false_eq_true, if_false, if_pos hc]
      refine ⟨h1, k, ?_, h3, ?_, ?_⟩
      · simpa [sends] using h2
      · intro r hr
        rcases List.mem_cons.1 hr with rfl | hr
        · show c ≤ p + k
          omega
        · exact h4 r hr
      · rcases h5 with h5 | ⟨r, hr, h5⟩
        · exact Or.inl h5
        · exact Or.inr ⟨r, List.mem_cons_of_mem _ hr, h5⟩
    · have hlt : p < c := by omega
      have hn : p + ((c - p).toNat : Int) ≤ c := by omega
      obtain ⟨g1, g2, g3⟩ := scanFor_ok env hw hs c (c - p).toNat p (afterGetRPCBlock err b) p
        hb1 hn
      have g3c : (scanFor env c (c - p).toNat p (afterGetRPCBlock err b)).b.previousBlock = c := by
        rw [g3]; omega
      obtain ⟨h1, k, h2, h3, h4, h5⟩ := ih _ c g3c
      simp only [scanLoop, hs _, Bool.false_eq_true, if_false, hb1, if_neg hge,
        if_pos (show c > p from hlt), g1]
      refine ⟨h1, (c - p).toNat + k, ?_, ?_, ?_, ?_⟩
      · have e : c = p + ((c - p).toNat : Int) := by omega
        have h2b : sends (scanLoop env rest
            (scanFor env c (c - p).toNat p (afterGetRPCBlock err b)).b).events
            = heightsFrom (p + ((c - p).toNat : Int)) k := by rw [← e]; exact h2
        simp only [sends, sends_append, g2, sends_rounds, h2b, heightsFrom_append]
      · rw [h3]; push_cast; omega
      · intro r hr
        rcases List.mem_cons.1 hr with rfl | hr
        · show c ≤ p + (((c - p).toNat + k : Nat) : Int)
          push_cast; omega
        · have := h4 r hr
          push_cast; omega
      · right
        rcases h5 with h5 | ⟨r, hr, h5⟩
        · exact ⟨(c, err), List.mem_cons_self _ _, by subst h5; show c = _; push_cast; omega⟩
        · exact ⟨r, List.mem_cons_of_mem _ hr, by rw [h5]; push_cast; omega⟩

/-- C1: when no storage write fails and no stop signal arrives, one round of
the scan loop that fetches a height `c` above the cursor `p` sends exactly the
heights `p + 1, ..., c`, each once and in increasing order, and leaves the
cursor at `c`; and over any increasing sequence of fetched heights the loop
sends exactly the heights above the initial cursor up to the last reading, in
increasing order. -/
theorem C1_scan_delivers_every_height (env : Env) (hw : env.scannerStorage.NoWriteFails)
    (hs : env.NoStop) (b : CommonBlockScanner) :
    (∀ (c : Int) (err : Option Error), b.previousBlock < c →
      List.Sorted (· < ·) (sends (scanLoop env [(c, err)] b).events) ∧
      (∀ h, h ∈ sends (scanLoop env [(c, err)] b).events ↔ b.previousBlock < h ∧ h ≤ c) ∧
      (scanLoop env [(c, err)] b).b.previousBlock = c ∧
      (scanLoop env [(c, err)] b).returned = false) ∧
    (∀ (readings : List (Int × Option Error)) (hk : Int),
      List.Sorted (· < ·) (readings.map Prod.fst) →
      (readings.map Prod.fst).getLast? = some hk →
      List.Sorted (· < ·) (sends (scanLoop env readings b).events) ∧
      (∀ h, h ∈ sends (scanLoop env readings b).events ↔ b.previousBlock < h ∧ h ≤ hk) ∧
      (scanLoop env readings b).b.previousBlock = max b.previousBlock hk ∧
      (scanLoop env readings b).returned = false) := by
  have key : ∀ (readings : List (Int × Option Error)) (hk : Int),
      List.Sorted (· < ·) (readings.map Prod.fst) →
      (readings.map Prod.fst).getLast? = some hk →
      List.Sorted (· < ·) (sends (scanLoop env readings b).events) ∧
      (∀ h, h ∈ sends (scanLoop env readings b).events ↔ b.previousBlock < h ∧ h ≤ hk) ∧
      (scanLoop env readings b).b.previousBlock = max b.previousBlock hk ∧
      (scanLoop env readings b).returned = false := by
    intro readings hk hsorted hlast
    obtain ⟨h1, k, h2, h3, h4, h5⟩ := scanLoop_ok env hw hs readings b b.previousBlock rfl
    have hmax := sorted_last_max _ hk hsorted hlast
    have hmem : hk ∈ readings.map Prod.fst := List.mem_of_getLast?_eq_some hlast
    obtain ⟨r0, hr0, hr0k⟩ := List.mem_map.1 hmem
    have hle : hk ≤ b.previousBlock + k := by rw [← hr0k]; exact h4 r0 hr0
    have hq : b.previousBlock + (k : Int) = max b.previousBlock hk := by
      rcases h5 with h5 | ⟨r, hr, h5⟩
      · subst h5
        rw [max_eq_left (by simpa using hle)]
        simp
      · have : r.1 ≤ hk := hmax _ (List.mem_map_of_mem _ hr)
        rw [max_eq_right (by omega)]
        omega
    refine ⟨h2 ▸ sorted_heightsFrom k _, ?_, by rw [h3, hq], h1⟩
    intro h
    rw [h2, mem_heightsFrom, hq]
    constructor
    · rintro ⟨a1, a2⟩
      refine ⟨a1, ?_⟩
      rcases le_max_iff.1 a2 with a3 | a3
      · omega
      · exact a3
    · rintro ⟨a1, a2⟩
      exact ⟨a1, le_max_of_le_right a2⟩
  refine ⟨?_, key⟩
  intro c err hlt
  have h := key [(c, err)] c (by simp) (by simp)
  rw [max_eq_right (le_of_lt hlt)] at h
  exact h

/-! ## Properties of the action sequences of the scan loop -/

theorem ScanTrace.initial {p : Int} {t : List Event} (H : ScanTrace p t) :
    ∀ pre post : List Event, t = pre ++ post → ScanTrace p pre := by
  induction H with
  | nil p =>
    intro pre post h
    have : pre = [] := by
      cases pre with
      | nil => rfl
      | cons a l => simp at h
    subst this
    exact ScanTrace.nil _
  | fetch p c f t _ ih =>
    intro pre post h
    rcases pre with _ | ⟨a, pre⟩
    · exact ScanTrace.nil _
    · simp only [List.cons_append, List.cons.injEq] at h
      obtain ⟨rfl, h⟩ := h
      exact ScanTrace.fetch _ _ _ _ (ih _ _ h)
  | sleep p d t _ ih =>
    intro pre post h
    rcases pre with _ | ⟨a, pre⟩
    · exact ScanTrace.nil _
    · simp only [List.cons_append, List.cons.injEq] at h
      obtain ⟨rfl, h⟩ := h
      exact ScanTrace.sleep _ _ _ (ih _ _ h)
  | status p f =>
    intro pre post h
    rcases pre with _ | ⟨a, _ | ⟨a2, pre⟩⟩
    · exact ScanTrace.nil _
    · simp only [List.cons_append, List.cons.injEq, List.nil_append] at h
      obtain ⟨rfl, _⟩ := h
      exact ScanTrace.status _ _
    · simp at h
  | sent p =>
    intro pre post h
    rcases pre with _ | ⟨a, _ | ⟨a2, _ | ⟨a3, pre⟩⟩⟩
    · exact ScanTrace.nil _
    · simp only [List.cons_append, List.cons.injEq, List.nil_append] at h
      obtain ⟨rfl, _⟩ := h
      exact ScanTrace.status _ _
    · simp only [List.cons_append, List.cons.injEq, List.nil_append] at h
      obtain ⟨rfl, rfl, _⟩ := h
      exact ScanTrace.sent _
    · simp at h
  | posFailed p =>
    intro pre post h
    rcases pre with _ | ⟨a, _ | ⟨a2, _ | ⟨a3, _ | ⟨a4, pre⟩⟩⟩⟩
    · exact ScanTrace.nil _
    · simp only [List.cons_append, List.cons.injEq, List.nil_append] at h
      obtain ⟨rfl, _⟩ := h
      exact ScanTrace.status _ _
    · simp only [List.cons_append, List.cons.injEq, List.nil_append] at h
      obtain ⟨rfl, rfl, _⟩ := h
      exact ScanTrace.sent _
    · simp only [List.cons_append, List.cons.injEq, List.nil_append] at h
      obtain ⟨rfl, rfl, rfl, _⟩ := h
      exact ScanTrace.posFailed _
    · simp at h
  | round p t _ ih =>
    intro pre post h
    rcases pre with _ | ⟨a, _ | ⟨a2, _ | ⟨a3, pre⟩⟩⟩
    · exact ScanTrace.nil _
    · simp only [List.cons_append, List.cons.injEq, List.nil_append] at h
      obtain ⟨rfl, _⟩ := h
      exact ScanTrace.status _ _
    · simp only [List.cons_append, List.cons.injEq, List.nil_append] at h
      obtain ⟨rfl, rfl, _⟩ := h
      exact ScanTrace.sent _
    · simp only [List.cons_append, List.cons.injEq] at h
      obtain ⟨rfl, rfl, rfl, h⟩ := h
      exact ScanTrace.round _ _ (ih _ _ h)

theorem ScanTrace.failed_last {p : Int} {t : List Event} (H : ScanTrace p t) :
    ∀ (pre : List Event) (e : Event) (post : List Event), t = pre ++ e :: post →
      e.isFailedWrite = true → post = [] := by
  induction H with
  | nil p => intro pre e post h; simp at h
  | fetch p c f t _ ih =>
    intro pre e post h hf
    rcases pre with _ | ⟨a, pre⟩
    · simp only [List.nil_append, List.cons.injEq] at h
      obtain ⟨rfl, _⟩ := h
      simp [Event.isFailedWrite] at hf
    · simp only [List.cons_append, List.cons.injEq] at h
      exact ih _ _ _ h.2 hf
  | sleep p d t _ ih =>
    intro pre e post h hf
    rcases pre with _ | ⟨a, pre⟩
    · simp only [List.nil_append, List.cons.injEq] at h
      obtain ⟨rfl, _⟩ := h
      simp [Event.isFailedWrite] at hf
    · simp only [List.cons_append, List.cons.injEq] at h
      exact ih _ _ _ h.2 hf
  | status p f =>
    intro pre e post h hf
    rcases pre with _ | ⟨a, pre⟩
    · simp only [List.nil_append, List.cons.injEq] at h
      exact h.2.symm
    · simp at h
  | sent p =>
    intro pre e post h hf
    rcases pre with _ | ⟨a, _ | ⟨a2, pre⟩⟩
    · simp only [List.nil_append, List.cons.injEq] at h
      obtain ⟨rfl, _⟩ := h
      simp [Event.isFailedWrite] at hf
    · simp only [List.cons_append, List.nil_append, List.cons.injEq] at h
      obtain ⟨_, rfl, _⟩ := h
      simp [Event.isFailedWrite] at hf
    · simp at h
  | posFailed p =>
    intro pre e post h hf
    rcases pre with _ | ⟨a, _ | ⟨a2, _ | ⟨a3, pre⟩⟩⟩
    · simp only [List.nil_append, List.cons.injEq] at h
      obtain ⟨rfl, _⟩ := h
      simp [Event.isFailedWrite] at hf
    · simp only [List.cons_append, List.nil_append, List.cons.injEq] at h
      obtain ⟨_, rfl, _⟩ := h
      simp [Event.isFailedWrite] at hf
    · simp only [List.cons_append, List.nil_append, List.cons.injEq] at h
      exact h.2.2.2.symm
    · simp at h
  | round p t _ ih =>
    intro pre e post h hf
    rcases pre with _ | ⟨a, _ | ⟨a2, _ | ⟨a3, pre⟩⟩⟩
    · simp only [List.nil_append, List.cons.injEq] at h
      obtain ⟨rfl, _⟩ := h
      simp [Event.isFailedWrite] at hf
    · simp only [List.cons_append, List.nil_append, List.cons.injEq] at h
      obtain ⟨_, rfl, _⟩ := h
      simp [Event.isFailedWrite] at hf
    · simp only [List.cons_append, List.nil_append, List.cons.injEq] at h
      obtain ⟨_, _, rfl, _⟩ := h
      simp [Event.isFailedWrite] at hf
    · simp only [List.cons_append, List.cons.injEq] at h
      exact ih _ _ _ h.2.2.2 hf

theorem ScanTrace.counts {p : Int} {t : List Event} (H : ScanTrace p t) (o : Bool) :
    ∃ k m : Nat, sends t = heightsFrom p k ∧ cursorWrites o t = heightsFrom p m ∧
      m ≤ k ∧ k ≤ m + 1 := by
  induction H with
  | nil p => exact ⟨0, 0, rfl, rfl, le_refl _, by omega⟩
  | fetch p c f t _ ih =>
    obtain ⟨k, m, h1, h2, h3, h4⟩ := ih
    exact ⟨k, m, by simpa [sends] using h1, by simpa [cursorWrites] using h2, h3, h4⟩
  | sleep p d t _ ih =>
    obtain ⟨k, m, h1, h2, h3, h4⟩ := ih
    exact ⟨k, m, by simpa [sends] using h1, by simpa [cursorWrites] using h2, h3, h4⟩
  | status p f => exact ⟨0, 0, rfl, rfl, le_refl _, by omega⟩
  | sent p => exact ⟨1, 0, rfl, rfl, by omega, by omega⟩
  | posFailed p =>
    cases o
    · exact ⟨1, 1, rfl, rfl, by omega, by omega⟩
    · exact ⟨1, 0, rfl, rfl, by omega, by omega⟩
  | round p t _ ih =>
    obtain ⟨k, m, h1, h2, h3, h4⟩ := ih
    refine ⟨k + 1, m + 1, ?_, ?_, by omega, by omega⟩
    · simp [sends, heightsFrom, h1]
    · simp [cursorWrites, heightsFrom, h2]

theorem ScanTrace.before_write {p : Int} {t : List Event} (H : ScanTrace p t) :
    ∀ (pre : List Event) (e : Event) (post : List Event), t = pre ++ e :: post →
      (∀ h f, e = Event.SetScanPos h f → p < h ∧ ∀ x ∈ sends pre, x ≤ h) ∧
      (∀ h st f, e = Event.SetBlockScannerStatus h st f → p < h ∧ ∀ x ∈ sends pre, x < h) := by
  induction H with
  | nil p => intro pre e post h; simp at h
  | fetch p c f t _ ih =>
    intro pre e post h
    rcases pre with _ | ⟨a, pre⟩
    · simp only [List.nil_append, List.cons.injEq] at h
      obtain ⟨rfl, _⟩ := h
      exact ⟨fun _ _ h => (by cases h), fun _ _ _ h => (by cases h)⟩
    · simp only [List.cons_append, List.cons.injEq] at h
      obtain ⟨rfl, h⟩ := h
      simpa [sends] using ih _ _ _ h
  | sleep p d t _ ih =>
    intro pre e post h
    rcases pre with _ | ⟨a, pre⟩
    · simp only [List.nil_append, List.cons.injEq] at h
      obtain ⟨rfl, _⟩ := h
      exact ⟨fun _ _ h => (by cases h), fun _ _ _ h => (by cases h)⟩
    · simp only [List.cons_append, List.cons.injEq] at h
      obtain ⟨rfl, h⟩ := h
      simpa [sends] using ih _ _ _ h
  | status p f =>
    intro pre e post h
    rcases pre with _ | ⟨a, pre⟩
    · simp only [List.nil_append, List.cons.injEq] at h
      obtain ⟨rfl, _⟩ := h
      refine ⟨fun _ _ h => (by cases h), fun h st f he => ?_⟩
      cases he
      exact ⟨by omega, by simp [sends]⟩
    · simp at h
  | sent p =>
    intro pre e post h
    rcases pre with _ | ⟨a, _ | ⟨a2, pre⟩⟩
    · simp only [List.nil_append, List.cons.injEq] at h
      obtain ⟨rfl, _⟩ := h
      refine ⟨fun _ _ h => (by cases h), fun h st f he => ?_⟩
      cases he
      exact ⟨by omega, by simp [sends]⟩
    · simp only [List.cons_append, List.nil_append, List.cons.injEq] at h
      obtain ⟨_, rfl, _⟩ := h
      exact ⟨fun _ _ h => (by cases h), fun _ _ _ h => (by cases h)⟩
    · simp at h
  | posFailed p =>
    intro pre e post h
    rcases pre with _ | ⟨a, _ | ⟨a2, _ | ⟨a3, pre⟩⟩⟩
    · simp only [List.nil_append, List.cons.injEq] at h
      obtain ⟨rfl, _⟩ := h
      refine ⟨fun _ _ h => (by cases h), fun h st f he => ?_⟩
      cases he
      exact ⟨by omega, by simp [sends]⟩
    · simp only [List.cons_append, List.nil_append, List.cons.injEq] at h
      obtain ⟨_, rfl, _⟩ := h
      exact ⟨fun _ _ h => (by cases h), fun _ _ _ h => (by cases h)⟩
    · simp only [List.cons_append, List.nil_append, List.cons.injEq] at h
      obtain ⟨rfl, rfl, rfl, _⟩ := h
      refine ⟨fun h f he => ?_, fun _ _ _ h => (by cases h)⟩
      cases he
      exact ⟨by omega, by simp [sends]⟩
    · simp at h
  | round p t _ ih =>
    intro pre e post h
    rcases pre with _ | ⟨a, _ | ⟨a2, _ | ⟨a3, pre⟩⟩⟩
    · simp only [List.nil_append, List.cons.injEq] at h
      obtain ⟨rfl, _⟩ := h
      refine ⟨fun _ _ h => (by cases h), fun h st f he => ?_⟩
      cases he
      exact ⟨by omega, by simp [sends]⟩
    · simp only [List.cons_append, List.nil_append, List.cons.injEq] at h
      obtain ⟨_, rfl, _⟩ := h
      exact ⟨fun _ _ h => (by cases h), fun _ _ _ h => (by cases h)⟩
    · simp only [List.cons_append, List.nil_append, List.cons.injEq] at h
      obtain ⟨rfl, rfl, rfl, _⟩ := h
      refine ⟨fun h f he => ?_, fun _ _ _ h => (by cases h)⟩
      cases he
      exact ⟨by omega, by simp [sends]⟩
    · simp only [List.cons_append, List.cons.injEq] at h
      obtain ⟨rfl, rfl, rfl, h⟩ := h
      obtain ⟨i1, i2⟩ := ih _ _ _ h
      constructor
      · intro h f he
        obtain ⟨j1, j2⟩ := i1 h f he
        refine ⟨by omega, ?_⟩
        intro x hx
        simp only [sends, List.mem_cons] at hx
        rcases hx with rfl | hx
        · omega
        · exact j2 x hx
      · intro h st f he
        obtain ⟨j1, j2⟩ := i2 h st f he
        refine ⟨by omega, ?_⟩
        intro x hx
        simp only [sends, List.mem_cons] at hx
        rcases hx with rfl | hx
        · exact j1
        · exact j2 x hx

/-! ## The claims on the scan loop -/

theorem quietEnv_noWriteFails (c : Int) (R : List Int) :
    (quietEnv c R).scannerStorage.NoWriteFails :=
  ⟨fun _ _ _ => rfl, fun _ _ => rfl⟩

theorem quietEnv_noStop (c : Int) (R : List Int) : (quietEnv c R).NoStop := fun _ => rfl

/-- Witness of C1: from cursor 4 a reading of 6 sends 5 and 6. -/
theorem C1_witness :
    (quietEnv 0 []).scannerStorage.NoWriteFails ∧ (quietEnv 0 []).NoStop ∧
    (sampleScanner 4 10).previousBlock < 6 ∧
    (List.Sorted (· < ·) (sends (scanLoop (quietEnv 0 []) [(6, none)] (sampleScanner 4 10)).events) ∧
      (∀ h, h ∈ sends (scanLoop (quietEnv 0 []) [(6, none)] (sampleScanner 4 10)).events ↔
        (sampleScanner 4 10).previousBlock < h ∧ h ≤ 6) ∧
      (scanLoop (quietEnv 0 []) [(6, none)] (sampleScanner 4 10)).b.previousBlock = 6 ∧
      (scanLoop (quietEnv 0 []) [(6, none)] (sampleScanner 4 10)).returned = false) :=
  ⟨quietEnv_noWriteFails 0 [], quietEnv_noStop 0 [], by decide,
    (C1_scan_delivers_every_height (quietEnv 0 []) (quietEnv_noWriteFails 0 [])
      (quietEnv_noStop 0 []) (sampleScanner 4 10)).1 6 none (by decide)⟩

theorem getLast_heightsFrom (p : Int) (m : Nat) (h : Int)
    (hl : (heightsFrom p m).getLast? = some h) : 0 < m ∧ h = p + m := by
  cases m with
  | zero => simp [heightsFrom] at hl
  | succ m =>
    have e : heightsFrom p (m + 1) = heightsFrom p m ++ [p + m + 1] := by
      rw [← heightsFrom_append]
      rfl
    rw [e, List.getLast?_concat] at hl
    refine ⟨Nat.succ_pos _, ?_⟩
    have := Option.some.inj hl
    push_cast
    omega

/-- C2: at every point of the scan loop (after every initial part `pre` of its
actions), the height `h` of the last `SetScanPos` call, counting all calls or
only those that succeeded, has already been sent, no height above `h + 1` has
been sent, and every height above the start cursor up to `h` has been sent. -/
theorem C2_cursor_write_follows_send (env : Env) (readings : List (Int × Option Error))
    (b : CommonBlockScanner) (onlyOk : Bool) (pre post : List Event) (h : Int)
    (hpre : (scanLoop env readings b).events = pre ++ post)
    (hlast : (cursorWrites onlyOk pre).getLast? = some h) :
    h ∈ sends pre ∧ (∀ x ∈ sends pre, x ≤ h + 1) ∧
      (∀ x, b.previousBlock < x → x ≤ h → x ∈ sends pre) := by
  have ht := (scanLoop_trace env readings b b.previousBlock rfl).initial pre post hpre
  obtain ⟨k, m, h1, h2, h3, h4⟩ := ht.counts onlyOk
  rw [h2] at hlast
  obtain ⟨hm, hh⟩ := getLast_heightsFrom _ _ _ hlast
  rw [h1]
  refine ⟨?_, ?_, ?_⟩
  · rw [mem_heightsFrom]; omega
  · intro x hx
    rw [mem_heightsFrom] at hx
    omega
  · intro x hx1 hx2
    rw [mem_heightsFrom]
    omega

/-- Witness of C2: from cursor 0 with a reading of 2, at the point after the
send of height 2 the last cursor write is that of height 1. -/
theorem C2_witness :
    (scanLoop (quietEnv 0 []) [(2, none)] (sampleScanner 0 10)).events =
      sampleActions ++ [Event.SetScanPos 2 false] ∧
    (cursorWrites true sampleActions).getLast? = some 1 ∧
    (1 ∈ sends sampleActions ∧ (∀ x ∈ sends sampleActions, x ≤ 1 + 1) ∧
      (∀ x, (sampleScanner 0 10).previousBlock < x → x ≤ 1 → x ∈ sends sampleActions)) :=
  ⟨by decide, by decide,
    C2_cursor_write_follows_send (quietEnv 0 []) [(2, none)] (sampleScanner 0 10) true
      sampleActions [Event.SetScanPos 2 false] 1 (by decide) (by decide)⟩

/-- C3: a failed write of the scan loop is the last action of the loop, after
which the function has returned: nothing is sent and nothing is written
afterwards.  When the status write for `h` fails, every height sent is
below `h`; when the cursor write for `h` fails, no height sent is above `h`. -/
theorem C3_failed_write_ends_scan (env : Env) (readings : List (Int × Option Error))
    (b : CommonBlockScanner) (pre post : List Event) (e : Event)
    (hev : (scanLoop env readings b).events = pre ++ e :: post)
    (hf : e.isFailedWrite = true) :
    post = [] ∧ (scanLoop env readings b).returned = true ∧
      (∀ h st, e = Event.SetBlockScannerStatus h st true →
        ∀ x ∈ sends (scanLoop env readings b).events, x < h) ∧
      (∀ h, e = Event.SetScanPos h true →
        ∀ x ∈ sends (scanLoop env readings b).events, x ≤ h) := by
  have ht := scanLoop_trace env readings b b.previousBlock rfl
  have hpost : post = [] := ht.failed_last pre e post hev hf
  subst hpost
  have hret : (scanLoop env readings b).returned = true := by
    by_contra hne
    have hfalse : (scanLoop env readings b).returned = false := by simpa using hne
    have := scanLoop_running env readings b hfalse e (by rw [hev]; simp)
    rw [this] at hf
    exact Bool.noConfusion hf
  obtain ⟨w1, w2⟩ := ht.before_write pre e [] hev
  refine ⟨rfl, hret, ?_, ?_⟩
  · intro h st he x hx
    rw [hev, sends_append] at hx
    subst he
    simp only [sends, List.append_nil] at hx
    exact (w2 h st true rfl).2 x hx
  · intro h he x hx
    rw [hev, sends_append] at hx
    subst he
    simp only [sends, List.append_nil] at hx
    exact (w1 h true rfl).2 x hx


/-- Witness of C3: the cursor write for height 2 fails. -/
theorem C3_witness :
    (scanLoop (faultyEnv (fun _ => false) (fun h => h == 2)) [(2, none)]
        (sampleScanner 0 10)).events = sampleActions ++ Event.SetScanPos 2 true :: [] ∧
    (Event.SetScanPos 2 true).isFailedWrite = true ∧
    (([] : List Event) = [] ∧
      (scanLoop (faultyEnv (fun _ => false) (fun h => h == 2)) [(2, none)]
        (sampleScanner 0 10)).returned = true ∧
      (∀ h st, Event.SetScanPos 2 true = Event.SetBlockScannerStatus h st true →
        ∀ x ∈ sends (scanLoop (faultyEnv (fun _ => false) (fun h => h == 2)) [(2, none)]
          (sampleScanner 0 10)).events, x < h) ∧
      (∀ h, Event.SetScanPos 2 true = Event.SetScanPos h true →
        ∀ x ∈ sends (scanLoop (faultyEnv (fun _ => false) (fun h => h == 2)) [(2, none)]
          (sampleScanner 0 10)).events, x ≤ h)) :=
  ⟨by decide, by decide,
    C3_failed_write_ends_scan (faultyEnv (fun _ => false) (fun h => h == 2)) [(2, none)]
      (sampleScanner 0 10) sampleActions [] (Event.SetScanPos 2 true) (by decide) (by decide)⟩

/-! ## The retry pass -/

theorem afterGetBlocksForRetry_previousBlock (err : Option Error) (b : CommonBlockScanner) :
    (afterGetBlocksForRetry err b).previousBlock = b.previousBlock := by
  cases err <;> rfl

theorem afterGetBlocksForRetry_retried (err : Option Error) (b : CommonBlockScanner) :
    (afterGetBlocksForRetry err b).metrics.TotalRetryBlocks = b.metrics.TotalRetryBlocks := by
  cases err <;> rfl

theorem retryItems_frame (env : Env) (l : List Int) :
    ∀ b : CommonBlockScanner, (retryItems env l b).b.previousBlock = b.previousBlock ∧
      ∀ e ∈ (retryItems env l b).events, ∃ h, e = Event.send h := by
  induction l with
  | nil => intro b; exact ⟨rfl, by simp [retryItems]⟩
  | cons item rest ih =>
    intro b
    simp only [retryItems]
    split
    · exact ⟨rfl, by simp⟩
    · obtain ⟨h1, h2⟩ := ih b.next.incRetryBlocks
      refine ⟨h1, ?_⟩
      intro e he
      rcases List.mem_cons.1 he with rfl | he
      · exact ⟨item, rfl⟩
      · exact h2 e he

theorem retryItems_noStop (env : Env) (hs : env.NoStop) (l : List Int) :
    ∀ b : CommonBlockScanner, (retryItems env l b).events = l.map Event.send ∧
      (retryItems env l b).returned = false ∧
      (retryItems env l b).b.metrics.TotalRetryBlocks = b.metrics.TotalRetryBlocks + l.length := by
  induction l with
  | nil => intro b; exact ⟨rfl, rfl, rfl⟩
  | cons item rest ih =>
    intro b
    obtain ⟨h1, h2, h3⟩ := ih b.next.incRetryBlocks
    simp only [retryItems, hs _, Bool.false_eq_true, if_false, h1, h2, h3, List.map_cons,
      List.length_cons, true_and]
    show b.metrics.TotalRetryBlocks + 1 + rest.length = _
    omega

theorem sends_map_send (l : List Int) : sends (l.map Event.send) = l := by
  induction l with
  | nil => rfl
  | cons a l ih => simp [sends, ih]

theorem retryBlocks_frame (env : Env) (failedonly : Bool) (b : CommonBlockScanner) :
    (retryBlocks env failedonly b).b.previousBlock = b.previousBlock ∧
      ∀ e ∈ (retryBlocks env failedonly b).events, e.isWrite = false := by
  obtain ⟨h1, h2⟩ := retryItems_frame env (env.scannerStorage.GetBlocksForRetry b.tick failedonly).1
    (afterGetBlocksForRetry (env.scannerStorage.GetBlocksForRetry b.tick failedonly).2 b)
  simp only [retryBlocks]
  refine ⟨by rw [h1, afterGetBlocksForRetry_previousBlock], ?_⟩
  intro e he
  rcases List.mem_cons.1 he with rfl | he
  · rfl
  · obtain ⟨h, rfl⟩ := h2 e he
    rfl

theorem retryFailedBlocks_frame (env : Env) (n : Nat) :
    ∀ b : CommonBlockScanner, (retryFailedBlocks env n b).b.previousBlock = b.previousBlock ∧
      (∀ e ∈ (retryFailedBlocks env n b).events, e.isWrite = false) ∧
      ∀ f, Event.GetBlocksForRetry f ∈ (retryFailedBlocks env n b).events → f = true := by
  induction n with
  | zero => intro b; exact ⟨rfl, by simp [retryFailedBlocks], by simp [retryFailedBlocks]⟩
  | succ n ih =>
    intro b
    simp only [retryFailedBlocks]
    split
    · exact ⟨rfl, by simp, by simp⟩
    · obtain ⟨h1, h2⟩ := retryBlocks_frame env true b.next
      obtain ⟨g1, g2, g3⟩ := ih (retryBlocks env true b.next).b
      refine ⟨by rw [g1, h1]; rfl, ?_, ?_⟩
      · intro e he
        rcases List.mem_append.1 he with he | he
        · exact h2 e he
        · exact g2 e he
      · intro f hf
        rcases List.mem_append.1 hf with hf | hf
        · simp only [retryBlocks] at hf
          rcases List.mem_cons.1 hf with hf | hf
          · cases hf; rfl
          · obtain ⟨h, hh⟩ := (retryItems_frame env _ _).2 _ hf
            cases hh
        · exact g3 f hf

theorem replay_of_no_write (evs : List Event) : ∀ st : StorageState,
    (∀ e ∈ evs, e.isWrite = false) → st.replay evs = st := by
  induction evs with
  | nil => intro st _; rfl
  | cons e evs ih =>
    intro st h
    have he : st.apply e = st := by
      have := h e (List.mem_cons_self _ _)
      cases e <;> first | rfl | simp [Event.isWrite] at this
    show (st.apply e).replay evs = st
    rw [he]
    exact ih st (fun e he => h e (List.mem_cons_of_mem _ he))


/-- C7: `retryBlocks`, and the retry loop over any number of rounds, leave the
in-memory cursor as it was and make no call of `SetScanPos` or
`SetBlockScannerStatus`, whatever the storage answers; so the durable cursor
and statuses after them are those before. -/
theorem C7_retry_leaves_cursor_and_statuses (env : Env) (failedonly : Bool)
    (b : CommonBlockScanner) (st : StorageState) (n : Nat) :
    (retryBlocks env failedonly b).b.previousBlock = b.previousBlock ∧
    (∀ e ∈ (retryBlocks env failedonly b).events, e.isWrite = false) ∧
    st.replay (retryBlocks env failedonly b).events = st ∧
    (retryFailedBlocks env n b).b.previousBlock = b.previousBlock ∧
    (∀ e ∈ (retryFailedBlocks env n b).events, e.isWrite = false) ∧
    st.replay (retryFailedBlocks env n b).events = st := by
  obtain ⟨h1, h2⟩ := retryBlocks_frame env failedonly b
  obtain ⟨g1, g2, _⟩ := retryFailedBlocks_frame env n b
  exact ⟨h1, h2, replay_of_no_write _ st h2, g1, g2, replay_of_no_write _ st g2⟩

theorem retryBlocks_noStop (env : Env) (hs : env.NoStop) (failedonly : Bool)
    (b : CommonBlockScanner) :
    (retryBlocks env failedonly b).events =
      Event.GetBlocksForRetry failedonly ::
        (env.scannerStorage.GetBlocksForRetry b.tick failedonly).1.map Event.send ∧
    (retryBlocks env failedonly b).b.metrics.TotalRetryBlocks =
      b.metrics.TotalRetryBlocks +
        (env.scannerStorage.GetBlocksForRetry b.tick failedonly).1.length := by
  obtain ⟨h1, _, h3⟩ := retryItems_noStop env hs
    (env.scannerStorage.GetBlocksForRetry b.tick failedonly).1
    (afterGetBlocksForRetry (env.scannerStorage.GetBlocksForRetry b.tick failedonly).2 b)
  constructor
  · simp only [retryBlocks, h1]
  · simp only [retryBlocks, h3, afterGetBlocksForRetry_retried]

theorem retryQueries_append (l1 l2 : List Event) :
    retryQueries (l1 ++ l2) = retryQueries l1 ++ retryQueries l2 := by
  induction l1 with
  | nil => rfl
  | cons e l1 ih => cases e <;> simp [retryQueries, ih]

theorem retryQueries_map_send (l : List Int) : retryQueries (l.map Event.send) = [] := by
  induction l with
  | nil => rfl
  | cons a l ih => simp [retryQueries, ih]

theorem retryFailedBlocks_round (env : Env) (hs : env.NoStop) (n : Nat)
    (b : CommonBlockScanner) :
    (retryFailedBlocks env (n + 1) b).events =
      Event.GetBlocksForRetry true ::
        ((env.scannerStorage.GetBlocksForRetry (b.tick + 1) true).1.map Event.send ++
          (retryFailedBlocks env n (retryBlocks env true b.next).b).events) := by
  have h := (retryBlocks_noStop env hs true b.next).1
  simp only [retryFailedBlocks, hs _, Bool.false_eq_true, if_false, h]
  rfl

theorem retryFailedBlocks_queries (env : Env) (hs : env.NoStop) (n : Nat) :
    ∀ b : CommonBlockScanner,
      retryQueries (retryFailedBlocks env n b).events = List.replicate n true := by
  induction n with
  | zero => intro b; rfl
  | succ n ih =>
    intro b
    rw [retryFailedBlocks_round env hs n b]
    simp only [retryQueries, retryQueries_append, retryQueries_map_send, List.nil_append, ih,
      List.replicate_succ]

/-- C8: absent a stop signal `retryBlocks` sends exactly the list returned by
`GetBlocksForRetry`, in list order and once each, and adds the length of the
list to the total-retried-blocks counter.  The retry loop calls
`GetBlocksForRetry` once in each of its rounds and always with
`failedonly = true`: over `n` rounds its queries are `n` times `true`, and a
round consists of that query and the sends of the list it returned. -/
theorem C8_retry_offers_the_list (env : Env) (hs : env.NoStop) (failedonly : Bool)
    (b : CommonBlockScanner) (n : Nat) :
    (retryBlocks env failedonly b).events =
      Event.GetBlocksForRetry failedonly ::
        (env.scannerStorage.GetBlocksForRetry b.tick failedonly).1.map Event.send ∧
    sends (retryBlocks env failedonly b).events =
      (env.scannerStorage.GetBlocksForRetry b.tick failedonly).1 ∧
    (retryBlocks env failedonly b).b.metrics.TotalRetryBlocks =
      b.metrics.TotalRetryBlocks +
        (env.scannerStorage.GetBlocksForRetry b.tick failedonly).1.length ∧
    (∀ f, Event.GetBlocksForRetry f ∈ (retryFailedBlocks env n b).events → f = true) ∧
    retryQueries (retryFailedBlocks env n b).events = List.replicate n true ∧
    (retryFailedBlocks env (n + 1) b).events =
      Event.GetBlocksForRetry true ::
        ((env.scannerStorage.GetBlocksForRetry (b.tick + 1) true).1.map Event.send ++
          (retryFailedBlocks env n (retryBlocks env true b.next).b).events) := by
  obtain ⟨h1, h2⟩ := retryBlocks_noStop env hs failedonly b
  refine ⟨h1, ?_, h2, (retryFailedBlocks_frame env n b).2.2,
    retryFailedBlocks_queries env hs n b, retryFailedBlocks_round env hs n b⟩
  rw [h1]
  simp only [sends, sends_map_send]

/-- Witness of C8: a retry set of 7, 3 and 7 again is sent as it is, and two
rounds of the retry loop ask twice for the failed blocks only and send the set
twice. -/
theorem C8_witness :
    (quietEnv 0 [7, 3, 7]).NoStop ∧
    sends (retryBlocks (quietEnv 0 [7, 3, 7]) false (sampleScanner 0 10)).events = [7, 3, 7] ∧
    (retryBlocks (quietEnv 0 [7, 3, 7]) false (sampleScanner 0 10)).b.metrics.TotalRetryBlocks
      = 3 ∧
    (retryFailedBlocks (quietEnv 0 [7, 3, 7]) 2 (sampleScanner 0 10)).events =
      [Event.GetBlocksForRetry true, Event.send 7, Event.send 3, Event.send 7,
        Event.GetBlocksForRetry true, Event.send 7, Event.send 3, Event.send 7] ∧
    retryQueries (retryFailedBlocks (quietEnv 0 [7, 3, 7]) 2 (sampleScanner 0 10)).events =
      List.replicate 2 true :=
  ⟨quietEnv_noStop 0 [7, 3, 7],
    (C8_retry_offers_the_list (quietEnv 0 [7, 3, 7]) (quietEnv_noStop 0 [7, 3, 7]) false
      (sampleScanner 0 10) 2).2.1,
    (C8_retry_offers_the_list (quietEnv 0 [7, 3, 7]) (quietEnv_noStop 0 [7, 3, 7]) false
      (sampleScanner 0 10) 2).2.2.1,
    by decide,
    (C8_retry_offers_the_list (quietEnv 0 [7, 3, 7]) (quietEnv_noStop 0 [7, 3, 7]) false
      (sampleScanner 0 10) 2).2.2.2.2.1⟩

/-! ## The entry of the scan loop -/

theorem head_heightsFrom (p : Int) (k : Nat) (x : Int)
    (h : (heightsFrom p k).head? = some x) : x = p + 1 := by
  cases k with
  | zero => simp [heightsFrom] at h
  | succ k =>
    simp only [heightsFrom, List.head?_cons, Option.some.injEq] at h
    exact h.symm

/-- C5: when the cursor read at the entry of `scanBlocks` answers `c` and no
stop signal arrives, the function first reads the retry set with
`failedonly = false` and sends every height of it, in list order, and only
then runs the scan loop, whose first sent height, if it sends any, is
`c + 1`. -/
theorem C5_retry_set_before_scan (env : Env) (hs : env.NoStop)
    (readings : List (Int × Option Error)) (b : CommonBlockScanner) (c : Int)
    (hpos : env.scannerStorage.GetScanPos b.tick = (c, none)) :
    ∃ loopEvents : List Event,
      (scanBlocks env readings b).events =
        Event.GetScanPos :: Event.GetBlocksForRetry false ::
          ((env.scannerStorage.GetBlocksForRetry (b.tick + 1) false).1.map Event.send
            ++ loopEvents) ∧
      sends (scanBlocks env readings b).events =
        (env.scannerStorage.GetBlocksForRetry (b.tick + 1) false).1 ++ sends loopEvents ∧
      (∀ x, (sends loopEvents).head? = some x → x = c + 1) := by
  have htick : (scanBlocksEntry env b).tick = b.tick + 1 := by
    simp only [scanBlocksEntry, hpos]
    rfl
  have hprev : (scanBlocksEntry env b).previousBlock = c := by
    simp only [scanBlocksEntry, hpos]
    rfl
  obtain ⟨r1, _⟩ := retryBlocks_noStop env hs false (scanBlocksEntry env b)
  rw [htick] at r1
  have rprev : (retryBlocks env false (scanBlocksEntry env b)).b.previousBlock = c := by
    rw [(retryBlocks_frame env false _).1, hprev]
  have ht := scanLoop_trace env readings _ c rprev
  obtain ⟨k, _, hk, _⟩ := ht.counts true
  have hev : (scanBlocks env readings b).events =
      Event.GetScanPos :: Event.GetBlocksForRetry false ::
        ((env.scannerStorage.GetBlocksForRetry (b.tick + 1) false).1.map Event.send ++
          (scanLoop env readings (retryBlocks env false (scanBlocksEntry env b)).b).events) := by
    simp only [scanBlocks, r1, List.cons_append]
  refine ⟨(scanLoop env readings (retryBlocks env false (scanBlocksEntry env b)).b).events,
    hev, ?_, ?_⟩
  · rw [hev]
    simp only [sends, sends_append, sends_map_send]
  · intro x hx
    rw [hk] at hx
    exact head_heightsFrom _ _ _ hx


/-- Witness of C5: persisted cursor 10, retry set 7 and 3, one reading of 12. -/
theorem C5_witness :
    (quietEnv 10 [7, 3]).NoStop ∧
    (quietEnv 10 [7, 3]).scannerStorage.GetScanPos (sampleScanner 0 10).tick = (10, none) ∧
    sends (scanBlocks (quietEnv 10 [7, 3]) [(12, none)] (sampleScanner 0 10)).events =
      [7, 3, 11, 12] ∧
    ∃ loopEvents : List Event,
      (scanBlocks (quietEnv 10 [7, 3]) [(12, none)] (sampleScanner 0 10)).events =
        Event.GetScanPos :: Event.GetBlocksForRetry false ::
          (((quietEnv 10 [7, 3]).scannerStorage.GetBlocksForRetry
            ((sampleScanner 0 10).tick + 1) false).1.map Event.send ++ loopEvents) ∧
      sends (scanBlocks (quietEnv 10 [7, 3]) [(12, none)] (sampleScanner 0 10)).events =
        ((quietEnv 10 [7, 3]).scannerStorage.GetBlocksForRetry
          ((sampleScanner 0 10).tick + 1) false).1 ++ sends loopEvents ∧
      (∀ x, (sends loopEvents).head? = some x → x = 10 + 1) :=
  ⟨quietEnv_noStop 10 [7, 3], rfl, by decide,
    C5_retry_set_before_scan (quietEnv 10 [7, 3]) (quietEnv_noStop 10 [7, 3]) [(12, none)]
      (sampleScanner 0 10) 10 rfl⟩

theorem NewCommonBlockScanner_previousBlock (urlParse : String → Option Error)
    (cfg : BlockScannerConfiguration) (storage : Option ScannerStorage) (m : Option Metrics)
    (b : CommonBlockScanner) (hnew : NewCommonBlockScanner urlParse cfg storage m = Except.ok b) :
    b.previousBlock = cfg.StartBlockHeight := by
  unfold NewCommonBlockScanner at hnew
  split at hnew
  · cases hnew
  · simp only at hnew
    split at hnew
    · cases hnew
    · split at hnew
      · cases hnew
      · split at hnew
        · cases hnew
        · cases hnew
          rfl

theorem scanLoop_fetches (env : Env) (hs : env.NoStop) (r : Int × Option Error)
    (rest : List (Int × Option Error)) (b : CommonBlockScanner) :
    Event.getRPCBlock r.1 r.2.isSome ∈ (scanLoop env (r :: rest) b).events := by
  obtain ⟨c, err⟩ := r
  simp only [scanLoop, hs _, Bool.false_eq_true, if_false]
  split
  · exact List.mem_cons_self _ _
  · split
    · split
      · exact List.mem_cons_self _ _
      · exact List.mem_cons_self _ _
    · exact List.mem_cons_self _ _

/-- C6: for a scanner made by `NewCommonBlockScanner`, the entry of
`scanBlocks` sets the in-memory cursor to the persisted cursor when
`GetScanPos` succeeds and leaves it at `cfg.StartBlockHeight` when
`GetScanPos` fails; in both cases, absent a stop signal, the function goes on:
it has not returned after the retry pass, and it performs the first fetch of
the scan loop. -/
theorem C6_entry_cursor (urlParse : String → Option Error) (cfg : BlockScannerConfiguration)
    (storage : Option ScannerStorage) (m : Option Metrics) (b : CommonBlockScanner)
    (hnew : NewCommonBlockScanner urlParse cfg storage m = Except.ok b)
    (env : Env) (hs : env.NoStop) :
    (∀ v, env.scannerStorage.GetScanPos b.tick = (v, none) →
      (scanBlocksEntry env b).previousBlock = v) ∧
    (∀ v e, env.scannerStorage.GetScanPos b.tick = (v, some e) →
      (scanBlocksEntry env b).previousBlock = cfg.StartBlockHeight) ∧
    (scanBlocks env [] b).returned = false ∧
    (scanBlocks env [] b).b.previousBlock = (scanBlocksEntry env b).previousBlock ∧
    (∀ r rest, Event.getRPCBlock r.1 r.2.isSome ∈ (scanBlocks env (r :: rest) b).events) := by
  refine ⟨?_, ?_, rfl, ?_, ?_⟩
  · intro v hv
    simp only [scanBlocksEntry, hv]
    rfl
  · intro v e hv
    simp only [scanBlocksEntry, hv]
    exact NewCommonBlockScanner_previousBlock urlParse cfg storage m b hnew
  · exact (retryBlocks_frame env false _).1
  · intro r rest
    simp only [scanBlocks]
    exact List.mem_cons_of_mem _ (List.mem_append_right _ (scanLoop_fetches env hs r rest _))

/-- Witness of C6: a scanner with start height 5 on a storage that holds no
cursor yet. -/
theorem C6_witness :
    NewCommonBlockScanner (fun _ => none) (sampleCfg 5 10) (some freshStorage)
      (some freshMetrics) = Except.ok (sampleScanner 5 10) ∧
    freshEnv.NoStop ∧
    ((∀ v, freshEnv.scannerStorage.GetScanPos (sampleScanner 5 10).tick = (v, none) →
      (scanBlocksEntry freshEnv (sampleScanner 5 10)).previousBlock = v) ∧
    (∀ v e, freshEnv.scannerStorage.GetScanPos (sampleScanner 5 10).tick = (v, some e) →
      (scanBlocksEntry freshEnv (sampleScanner 5 10)).previousBlock
        = (sampleCfg 5 10).StartBlockHeight) ∧
    (scanBlocks freshEnv [] (sampleScanner 5 10)).returned = false ∧
    (scanBlocks freshEnv [] (sampleScanner 5 10)).b.previousBlock
      = (scanBlocksEntry freshEnv (sampleScanner 5 10)).previousBlock ∧
    (∀ r rest, Event.getRPCBlock r.1 r.2.isSome ∈
      (scanBlocks freshEnv (r :: rest) (sampleScanner 5 10)).events)) :=
  ⟨rfl, fun _ => rfl,
    C6_entry_cursor (fun _ => none) (sampleCfg 5 10) (some freshStorage) (some freshMetrics)
      (sampleScanner 5 10) rfl freshEnv (fun _ => rfl)⟩

/-! ## The retried `GET` -/

theorem GetFromHttpWithRetryLoop_allFail (net : HttpEnv) (url : String) (maxRetry : Int)
    (hfail : net.AllFail url) (hback : ∀ k, net.NextBackOff k ≠ backoffStop)
    (hstop : ∀ k, net.stop k = false) (n : Nat) :
    ∀ (retry : Int) (k : Nat) (b : CommonBlockScanner), (maxRetry - retry).toNat = n →
      (GetFromHttpWithRetryLoop net url maxRetry retry k b).attempts
        = k + max 1 (maxRetry - retry).toNat ∧
      (GetFromHttpWithRetryLoop net url maxRetry retry k b).result
        = (none, some (Error.New
            ("fail to get from " ++ url ++ " after maximum retry(" ++ toString maxRetry ++ ")"))) := by
  induction n with
  | zero =>
    intro retry k b hn
    obtain ⟨e, he⟩ := hfail k b
    have hge : retry + 1 ≥ maxRetry := by omega
    rw [GetFromHttpWithRetryLoop]
    simp only [he, hback k, if_false, if_pos hge, hn]
    exact ⟨by simp, trivial⟩
  | succ n ih =>
    intro retry k b hn
    obtain ⟨e, he⟩ := hfail k b
    rw [GetFromHttpWithRetryLoop]
    by_cases hge : retry + 1 ≥ maxRetry
    · simp only [he, hback k, if_false, if_pos hge]
      have : (maxRetry - retry).toNat = 1 := by omega
      exact ⟨by rw [this]; rfl, trivial⟩
    · simp only [he, hback k, if_false, if_neg hge, hstop k, Bool.false_eq_true]
      have hn2 : (maxRetry - (retry + 1)).toNat = n := by omega
      obtain ⟨h1, h2⟩ := ih (retry + 1) (k + 1) (getFromHttp url (net.exchange k) b).1 hn2
      refine ⟨?_, h2⟩
      rw [h1, hn, hn2]
      have : 1 ≤ n := by omega
      rw [max_eq_right this, max_eq_right (by omega)]
      omega

theorem GetFromHttpWithRetry_allFail (net : HttpEnv) (url : String) (b : CommonBlockScanner)
    (hfail : net.AllFail url) (hback : ∀ k, net.NextBackOff k ≠ backoffStop)
    (hstop : ∀ k, net.stop k = false) :
    (GetFromHttpWithRetry net url b).attempts = max 1 (b.cfg.MaxHttpRequestRetry - 1).toNat ∧
    (GetFromHttpWithRetry net url b).result
      = (none, some (Error.New ("fail to get from " ++ url ++ " after maximum retry(" ++
          toString b.cfg.MaxHttpRequestRetry ++ ")"))) := by
  have h := GetFromHttpWithRetryLoop_allFail net url b.cfg.MaxHttpRequestRetry hfail hback hstop
    _ 1 0 b rfl
  simpa [GetFromHttpWithRetry] using h

theorem downNet_allFail (url : String) : downNet.AllFail url := fun _ _ => ⟨_, rfl⟩

theorem downNet_noBackoffStop : ∀ k, downNet.NextBackOff k ≠ backoffStop := by
  intro k
  show (500000000 : Int) ≠ -1
  decide


/-- C9, evaluated where it fails: with `MaxHttpRequestRetry = 3`, every `GET`
failing, a backoff that never answers `backoff.Stop` and no stop signal,
`GetFromHttpWithRetry` gives up after two attempts, and with the loader's
default of 10 after nine: the attempt whose number is `MaxHttpRequestRetry`
is not made. -/
theorem C9_gives_up_one_attempt_early :
    downNet.AllFail "http://localhost:26657/block" ∧
    (∀ k, downNet.NextBackOff k ≠ backoffStop) ∧ (∀ k, downNet.stop k = false) ∧
    (sampleScanner 0 3).cfg.MaxHttpRequestRetry = 3 ∧
    (GetFromHttpWithRetry downNet "http://localhost:26657/block" (sampleScanner 0 3)).attempts
      = 2 ∧
    (sampleScanner 0 10).cfg.MaxHttpRequestRetry = 10 ∧
    (GetFromHttpWithRetry downNet "http://localhost:26657/block" (sampleScanner 0 10)).attempts
      = 9 := by
  refine ⟨downNet_allFail _, downNet_noBackoffStop, fun _ => rfl, rfl, ?_, rfl, ?_⟩
  · rw [(GetFromHttpWithRetry_allFail downNet _ (sampleScanner 0 3) (downNet_allFail _)
      downNet_noBackoffStop (fun _ => rfl)).1]
    rfl
  · rw [(GetFromHttpWithRetry_allFail downNet _ (sampleScanner 0 10) (downNet_allFail _)
      downNet_noBackoffStop (fun _ => rfl)).1]
    rfl

/-- The sibling path of C10: when the backoff answers `backoff.Stop` after a
failed attempt, the error returned wraps the error of that attempt. -/
theorem GetFromHttpWithRetryLoop_backoff_stop (net : HttpEnv) (url : String) (maxRetry retry : Int)
    (k : Nat) (b : CommonBlockScanner) (e : Error)
    (he : (getFromHttp url (net.exchange k) b).2.2 = some e)
    (hback : net.NextBackOff k = backoffStop) :
    (GetFromHttpWithRetryLoop net url maxRetry retry k b).result
      = (none, some (Error.Wrap e ("fail to get from " ++ url ++ " after maximum retry"))) := by
  rw [GetFromHttpWithRetryLoop]
  simp only [he, hback, if_true]

/-- C10, evaluated where it fails: when `GetFromHttpWithRetry` gives up because
the attempt count is reached, the error it returns is a new error without a
cause: it does not wrap the error of the last failed attempt, and its cause is
not the cause of that error. -/
theorem C10_attempt_count_error_has_no_cause :
    (getFromHttp "http://localhost:26657/block" (downNet.exchange 1) (sampleScanner 0 3)).2.2
      = some (Error.fundamental "unexpected status code:500 from http://localhost:26657/block") ∧
    (GetFromHttpWithRetry downNet "http://localhost:26657/block" (sampleScanner 0 3)).attempts
      = 2 ∧
    (GetFromHttpWithRetry downNet "http://localhost:26657/block" (sampleScanner 0 3)).result.2
      = some (Error.fundamental
          "fail to get from http://localhost:26657/block after maximum retry(3)") ∧
    (∀ msg, Error.fundamental
        "fail to get from http://localhost:26657/block after maximum retry(3)" ≠
      Error.Wrap
        (Error.fundamental "unexpected status code:500 from http://localhost:26657/block") msg) ∧
    (Error.fundamental
        "fail to get from http://localhost:26657/block after maximum retry(3)").Cause ≠
      (Error.fundamental "unexpected status code:500 from http://localhost:26657/block").Cause := by
  have h := GetFromHttpWithRetry_allFail downNet "http://localhost:26657/block"
    (sampleScanner 0 3) (downNet_allFail _) downNet_noBackoffStop (fun _ => rfl)
  refine ⟨by decide, ?_, ?_, ?_, by decide⟩
  · rw [h.1]; rfl
  · rw [h.2]; decide
  · intro msg hm
    cases hm

/-! ## A failed fetch -/

theorem getRPCBlock_failed_zero (dec : Decoder) (net : HttpEnv) (requestUrl : String)
    (b : CommonBlockScanner) (e : Error)
    (herr : (getRPCBlock dec net requestUrl b).2.2 = some e) :
    (getRPCBlock dec net requestUrl b).2.1 = 0 := by
  unfold getRPCBlock at herr ⊢
  simp only at herr ⊢
  split
  · rfl
  · split
    · rfl
    · split
      · rfl
      · rename_i h1 _ _ h2 _ _ h3
        simp only [h1, h2, h3] at herr
        cases herr

/-- At a cursor that is not negative, a round of the scan loop whose fetch
fails consists of the failed fetch and the sleep, and the loop goes on from
the unchanged cursor. -/
theorem failed_fetch_at_nonnegative_cursor (env : Env) (hs : env.NoStop) (dec : Decoder)
    (net : HttpEnv) (requestUrl : String) (b0 : CommonBlockScanner) (e : Error)
    (herr : (getRPCBlock dec net requestUrl b0).2.2 = some e)
    (b : CommonBlockScanner) (hb : 0 ≤ b.previousBlock) (rest : List (Int × Option Error)) :
    (afterGetRPCBlock (some e) b).previousBlock = b.previousBlock ∧
    (scanLoop env ((getRPCBlock dec net requestUrl b0).2 :: rest) b).events =
      Event.getRPCBlock 0 true :: Event.Sleep b.cfg.BlockHeightDiscoverBackoff ::
        (scanLoop env rest (afterGetRPCBlock (some e) b)).events ∧
    (scanLoop env ((getRPCBlock dec net requestUrl b0).2 :: rest) b).b =
      (scanLoop env rest (afterGetRPCBlock (some e) b)).b ∧
    (scanLoop env ((getRPCBlock dec net requestUrl b0).2 :: rest) b).returned =
      (scanLoop env rest (afterGetRPCBlock (some e) b)).returned := by
  have hz := getRPCBlock_failed_zero dec net requestUrl b0 e herr
  have hr : (getRPCBlock dec net requestUrl b0).2 = (0, some e) := Prod.ext hz herr
  have hge : (afterGetRPCBlock (some e) b).previousBlock ≥ 0 := hb
  rw [hr]
  refine ⟨rfl, ?_, ?_, ?_⟩
  · simp only [scanLoop, hs _, Bool.false_eq_true, if_false, if_pos hge]
    rfl
  · simp only [scanLoop, hs _, Bool.false_eq_true, if_false, if_pos hge]
  · simp only [scanLoop, hs _, Bool.false_eq_true, if_false, if_pos hge]

/-- C4, as stated, fails at a negative cursor: a scanner made with start
height -2 on a storage that holds no cursor yet, whose first fetch fails.  The
fetch returns height 0 with its error, and the round of the failed fetch sets
the status of the heights -1 and 0, sends them and writes the cursor, which
ends at 0. -/
theorem C4_failed_fetch_scans_up_to_zero :
    NewCommonBlockScanner (fun _ => none) (sampleCfg (-2) 3) (some freshStorage)
      (some freshMetrics) = Except.ok (sampleScanner (-2) 3) ∧
    (getRPCBlock emptyDecoder downNet "http://localhost:26657/block" (sampleScanner (-2) 3)).2
      = (0, some (Error.Wrap (Error.fundamental
          "fail to get from http://localhost:26657/block after maximum retry(3)")
          "fail to get blocks")) ∧
    (scanBlocks freshEnv
      [(getRPCBlock emptyDecoder downNet "http://localhost:26657/block" (sampleScanner (-2) 3)).2]
      (sampleScanner (-2) 3)).events =
      [Event.GetScanPos, Event.GetBlocksForRetry false, Event.getRPCBlock 0 true,
        Event.SetBlockScannerStatus (-1) BlockStatus.NotStarted false, Event.send (-1),
        Event.SetScanPos (-1) false,
        Event.SetBlockScannerStatus 0 BlockStatus.NotStarted false, Event.send 0,
        Event.SetScanPos 0 false] ∧
    (scanBlocks freshEnv
      [(getRPCBlock emptyDecoder downNet "http://localhost:26657/block" (sampleScanner (-2) 3)).2]
      (sampleScanner (-2) 3)).b.previousBlock = 0 := by
  have h := GetFromHttpWithRetry_allFail downNet "http://localhost:26657/block"
    (sampleScanner (-2) 3) (downNet_allFail _) downNet_noBackoffStop (fun _ => rfl)
  have hr : (getRPCBlock emptyDecoder downNet "http://localhost:26657/block"
      (sampleScanner (-2) 3)).2
      = (0, some (Error.Wrap (Error.fundamental
          "fail to get from http://localhost:26657/block after maximum retry(3)")
          "fail to get blocks")) := by
    simp only [getRPCBlock, h.2]
    decide
  refine ⟨rfl, hr, ?_, ?_⟩
  · rw [hr]; decide
  · rw [hr]; decide

theorem scanLoop_fetches_first (env : Env) (hs : env.NoStop) (r : Int × Option Error)
    (rest : List (Int × Option Error)) (b : CommonBlockScanner) :
    ∃ tail, (scanLoop env (r :: rest) b).events = Event.getRPCBlock r.1 r.2.isSome :: tail := by
  obtain ⟨currentBlock, err⟩ := r
  simp only [scanLoop, hs _, Bool.false_eq_true, if_false]
  split
  · exact ⟨_, rfl⟩
  · split
    · split
      · exact ⟨_, rfl⟩
      · exact ⟨_, rfl⟩
    · exact ⟨_, rfl⟩

/-- C4, amended: at a cursor that is not negative, a round of the scan loop
whose fetch fails leaves the cursor as it is and consists of the failed fetch
and the sleep alone, so it sends no height and writes nothing to the storage;
the loop does not return in that round but goes on as it would from the
unchanged cursor, and when it goes on its next action is the next fetch. -/
theorem C4_failed_fetch_keeps_nonnegative_cursor (env : Env) (hs : env.NoStop) (dec : Decoder)
    (net : HttpEnv) (requestUrl : String) (b0 : CommonBlockScanner) (e : Error)
    (herr : (getRPCBlock dec net requestUrl b0).2.2 = some e)
    (b : CommonBlockScanner) (hb : 0 ≤ b.previousBlock) (rest : List (Int × Option Error)) :
    (afterGetRPCBlock (some e) b).previousBlock = b.previousBlock ∧
    (scanLoop env ((getRPCBlock dec net requestUrl b0).2 :: rest) b).events =
      Event.getRPCBlock 0 true :: Event.Sleep b.cfg.BlockHeightDiscoverBackoff ::
        (scanLoop env rest (afterGetRPCBlock (some e) b)).events ∧
    sends [Event.getRPCBlock 0 true, Event.Sleep b.cfg.BlockHeightDiscoverBackoff] = [] ∧
    (∀ ev ∈ [Event.getRPCBlock 0 true, Event.Sleep b.cfg.BlockHeightDiscoverBackoff],
      ev.isWrite = false) ∧
    (scanLoop env ((getRPCBlock dec net requestUrl b0).2 :: rest) b).b =
      (scanLoop env rest (afterGetRPCBlock (some e) b)).b ∧
    (scanLoop env ((getRPCBlock dec net requestUrl b0).2 :: rest) b).returned =
      (scanLoop env rest (afterGetRPCBlock (some e) b)).returned ∧
    (scanLoop env [(getRPCBlock dec net requestUrl b0).2] b).returned = false ∧
    (scanLoop env [(getRPCBlock dec net requestUrl b0).2] b).b.previousBlock =
      b.previousBlock ∧
    (∀ r rest1, rest = r :: rest1 →
      ∃ tail, (scanLoop env rest (afterGetRPCBlock (some e) b)).events =
        Event.getRPCBlock r.1 r.2.isSome :: tail) := by
  obtain ⟨h1, h2, h3, h4⟩ :=
    failed_fetch_at_nonnegative_cursor env hs dec net requestUrl b0 e herr b hb rest
  obtain ⟨_, _, g3, g4⟩ :=
    failed_fetch_at_nonnegative_cursor env hs dec net requestUrl b0 e herr b hb []
  refine ⟨h1, h2, rfl, ?_, h3, h4, ?_, ?_, ?_⟩
  · intro ev hev
    rcases List.mem_cons.1 hev with rfl | hev
    · rfl
    · rcases List.mem_cons.1 hev with rfl | hev
      · rfl
      · cases hev
  · rw [g4]
    rfl
  · rw [g3]
    exact h1
  · intro r rest1 hrest
    rw [hrest]
    exact scanLoop_fetches_first env hs r rest1 _

/-- Witness of C4: a scanner at cursor 0 whose first fetch fails and whose
second fetch finds height 1 sleeps after the failed fetch and then scans
height 1. -/
theorem C4_witness :
    (quietEnv 0 []).NoStop ∧
    (0 : Int) ≤ (sampleScanner 0 3).previousBlock ∧
    (getRPCBlock emptyDecoder downNet "http://localhost:26657/block" (sampleScanner 0 3)).2.2 =
      some (Error.Wrap (Error.fundamental
        "fail to get from http://localhost:26657/block after maximum retry(3)")
        "fail to get blocks") ∧
    (scanLoop (quietEnv 0 [])
      [(getRPCBlock emptyDecoder downNet "http://localhost:26657/block" (sampleScanner 0 3)).2,
        (1, none)] (sampleScanner 0 3)).events =
      Event.getRPCBlock 0 true :: Event.Sleep (sampleScanner 0 3).cfg.BlockHeightDiscoverBackoff ::
        (scanLoop (quietEnv 0 []) [(1, none)]
          (afterGetRPCBlock (some (Error.Wrap (Error.fundamental
            "fail to get from http://localhost:26657/block after maximum retry(3)")
            "fail to get blocks")) (sampleScanner 0 3))).events ∧
    sends (scanLoop (quietEnv 0 []) [(1, none)]
      (afterGetRPCBlock (some (Error.Wrap (Error.fundamental
        "fail to get from http://localhost:26657/block after maximum retry(3)")
        "fail to get blocks")) (sampleScanner 0 3))).events = [1] := by
  have h := GetFromHttpWithRetry_allFail downNet "http://localhost:26657/block"
    (sampleScanner 0 3) (downNet_allFail _) downNet_noBackoffStop (fun _ => rfl)
  have hr : (getRPCBlock emptyDecoder downNet "http://localhost:26657/block"
      (sampleScanner 0 3)).2.2
      = some (Error.Wrap (Error.fundamental
          "fail to get from http://localhost:26657/block after maximum retry(3)")
          "fail to get blocks") := by
    simp only [getRPCBlock, h.2]
    decide
  exact ⟨quietEnv_noStop 0 [], by decide, hr,
    (C4_failed_fetch_keeps_nonnegative_cursor (quietEnv 0 []) (quietEnv_noStop 0 [])
      emptyDecoder downNet "http://localhost:26657/block" (sampleScanner 0 3) _ hr
      (sampleScanner 0 3) (by decide) [(1, none)]).2.1, by decide⟩

end Blockscanner

/-! ## Blame -/

namespace Common

/-- C19, as stated, fails: a blame with a reason and no nodes is empty for
`IsEmpty`, although not both of its fields are empty. -/
theorem C19_reason_without_nodes_is_empty :
    ¬ ((Blame.mk "keysign timeout" []).IsEmpty = true ↔
      ((Blame.mk "keysign timeout" []).FailReason = "" ∧
        (Blame.mk "keysign timeout" []).BlameNodes = [])) := by
  decide

/-- C19, amended: `IsEmpty` is true if and only if `BlameNodes` has no
elements or `FailReason` is the empty string. -/
theorem C19_empty_iff_either_field_empty (b : Blame) :
    b.IsEmpty = true ↔ (b.BlameNodes = [] ∨ b.FailReason = "") := by
  obtain ⟨reason, nodes⟩ := b
  obtain ⟨cs⟩ := reason
  simp only [Blame.IsEmpty, Bool.or_eq_true, beq_iff_eq, List.length_eq_zero, String.length]
  constructor
  · rintro (h | h)
    · exact Or.inl h
    · right; subst h; rfl
  · rintro (h | h)
    · exact Or.inl h
    · right
      exact congrArg String.data h

end Common

/-! ## Decimal numbers -/

namespace Thorclient

open Blockscanner (Error)

theorem digitChar_digit (d : Nat) (hd : d < 10) :
    '0' ≤ Nat.digitChar d ∧ Nat.digitChar d ≤ '9' ∧
      (Nat.digitChar d).toNat - '0'.toNat = d := by
  interval_cases d <;> decide

theorem le_decVal (cs : List Char) : ∀ acc : Nat, acc ≤ decVal cs acc := by
  induction cs with
  | nil => intro acc; exact le_refl _
  | cons c cs ih =>
    intro acc
    have h := ih (acc * 10 + (c.toNat - '0'.toNat))
    simp only [decVal, List.foldl_cons] at h ⊢
    omega

theorem ParseUintLoop_digits (s0 : String) (cs : List Char) :
    ∀ acc : Nat, (∀ c ∈ cs, '0' ≤ c ∧ c ≤ '9') → decVal cs acc < 2 ^ 64 →
      ParseUintLoop s0 cs acc = (decVal cs acc, none) := by
  induction cs with
  | nil => intro acc _ _; rfl
  | cons c cs ih =>
    intro acc hd hlt
    have hc := hd c (List.mem_cons_self _ _)
    have hrest : ∀ x ∈ cs, '0' ≤ x ∧ x ≤ '9' := fun x hx => hd x (List.mem_cons_of_mem _ hx)
    have hstep : decVal (c :: cs) acc = decVal cs (acc * 10 + (c.toNat - '0'.toNat)) := rfl
    rw [hstep] at hlt ⊢
    have hle := le_decVal cs (acc * 10 + (c.toNat - '0'.toNat))
    have hn1 : acc * 10 + (c.toNat - '0'.toNat) < 2 ^ 64 := lt_of_le_of_lt hle hlt
    have hmod : (acc * 10 + (c.toNat - '0'.toNat)) % 2 ^ 64 = acc * 10 + (c.toNat - '0'.toNat) :=
      Nat.mod_eq_of_lt hn1
    have hcut : ¬ acc ≥ maxUint64 / 10 + 1 := by
      simp only [maxUint64]
      omega
    have hover : ¬ (acc * 10 + (c.toNat - '0'.toNat) < acc * 10 ∨
        acc * 10 + (c.toNat - '0'.toNat) > maxUint64) := by
      simp only [maxUint64]
      omega
    simp only [ParseUintLoop, hc, and_self, if_true, hcut, if_false, hmod, hover]
    exact ih _ hrest hlt

theorem toDigitsCore_digits (fuel : Nat) : ∀ (n : Nat) (ds : List Char), n < fuel →
    (∀ c ∈ ds, '0' ≤ c ∧ c ≤ '9') →
    (∀ c ∈ Nat.toDigitsCore 10 fuel n ds, '0' ≤ c ∧ c ≤ '9') ∧
      decVal (Nat.toDigitsCore 10 fuel n ds) 0 = decVal ds n ∧
      Nat.toDigitsCore 10 fuel n ds ≠ [] := by
  induction fuel with
  | zero => intro n ds h; omega
  | succ fuel ih =>
    intro n ds hn hds
    obtain ⟨d1, d2, d3⟩ := digitChar_digit (n % 10) (Nat.mod_lt _ (by decide))
    have hds2 : ∀ c ∈ Nat.digitChar (n % 10) :: ds, '0' ≤ c ∧ c ≤ '9' := by
      intro c hc
      rcases List.mem_cons.1 hc with rfl | hc
      · exact ⟨d1, d2⟩
      · exact hds c hc
    have hval : decVal (Nat.digitChar (n % 10) :: ds) (n / 10) = decVal ds n := by
      simp only [decVal, List.foldl_cons, d3]
      congr 1
      omega
    simp only [Nat.toDigitsCore]
    split
    · rename_i h0
      refine ⟨hds2, ?_, by simp⟩
      have : decVal (Nat.digitChar (n % 10) :: ds) 0 = decVal (Nat.digitChar (n % 10) :: ds) (n / 10) := by
        rw [h0]
      rw [this, hval]
    · rename_i h0
      have hlt : n / 10 < fuel := by omega
      obtain ⟨i1, i2, i3⟩ := ih (n / 10) _ hlt hds2
      exact ⟨i1, by rw [i2, hval], i3⟩

/-- Reading the decimal text of a number below `2 ^ 64` gives the number. -/
theorem ParseUint_toString (a : Nat) (ha : a < 2 ^ 64) : ParseUint (toString a) = (a, none) := by
  obtain ⟨h1, h2, h3⟩ := toDigitsCore_digits (a + 1) a [] (Nat.lt_succ_self a) (by simp)
  have hs : toString a = String.mk (Nat.toDigitsCore 10 (a + 1) a []) := rfl
  have hne : ¬ String.mk (Nat.toDigitsCore 10 (a + 1) a []) = "" := by
    intro h
    exact h3 (congrArg String.data h)
  have hv : decVal (Nat.toDigitsCore 10 (a + 1) a []) 0 = a := h2
  rw [hs]
  simp only [ParseUint, hne, if_false]
  have := ParseUintLoop_digits (String.mk (Nat.toDigitsCore 10 (a + 1) a []))
    (Nat.toDigitsCore 10 (a + 1) a []) 0 h1 (by rw [hv]; exact ha)
  rw [hv] at this
  exact this

/-! ## The low level calls of the bridge -/


/-- C11: a response whose status code is not 200 makes the scanner's
`getFromHttp` and the bridge's `get` and `post` return an error and no body,
whatever the body of the response; and whenever one of the three returns a
body, the status code of the response is 200. -/
theorem C11_only_status_200_yields_body (url : String) (x : Blockscanner.HttpExchange)
    (sb : Blockscanner.CommonBlockScanner) (b : ThorchainBridge) (client : HttpClient)
    (path bodyType body : String) :
    (x.StatusCode ≠ 200 →
      (Blockscanner.getFromHttp url x sb).2.1 = none ∧
        (Blockscanner.getFromHttp url x sb).2.2 ≠ none) ∧
    ((client.Get (b.getThorChainURL path)).StatusCode ≠ 200 →
      (b.get client path).2.body = none ∧ (b.get client path).2.err ≠ none) ∧
    ((client.Post (b.getThorChainURL path) bodyType body).StatusCode ≠ 200 →
      (b.post client path bodyType body).2.1 = none ∧
        (b.post client path bodyType body).2.2 ≠ none) ∧
    ((Blockscanner.getFromHttp url x sb).2.1 ≠ none → x.StatusCode = 200) ∧
    ((b.get client path).2.body ≠ none →
      (client.Get (b.getThorChainURL path)).StatusCode = 200) ∧
    ((b.post client path bodyType body).2.1 ≠ none →
      (client.Post (b.getThorChainURL path) bodyType body).StatusCode = 200) := by
  refine ⟨?_, ?_, ?_, ?_, ?_, ?_⟩
  · intro h
    unfold Blockscanner.getFromHttp
    split
    · exact ⟨rfl, by simp⟩
    · split
      · exact ⟨rfl, by simp⟩
      · rw [if_pos h]
        exact ⟨rfl, by simp⟩
  · intro h
    unfold ThorchainBridge.get
    simp only
    split
    · exact ⟨rfl, by simp⟩
    · rw [if_pos (show _ ≠ StatusOK from h)]
      exact ⟨rfl, by simp⟩
  · intro h
    unfold ThorchainBridge.post
    simp only
    split
    · exact ⟨rfl, by simp⟩
    · rw [if_pos (show _ ≠ StatusOK from h)]
      exact ⟨rfl, by simp⟩
  · unfold Blockscanner.getFromHttp
    split
    · intro h; exact absurd rfl h
    · split
      · intro h; exact absurd rfl h
      · split
        · intro h; exact absurd rfl h
        · rename_i h200
          intro _
          exact not_not.1 h200
  · unfold ThorchainBridge.get
    simp only
    split
    · intro h; exact absurd rfl h
    · split
      · intro h; exact absurd rfl h
      · rename_i h200
        intro _
        exact not_not.1 h200
  · unfold ThorchainBridge.post
    simp only
    split
    · intro h; exact absurd rfl h
    · split
      · intro h; exact absurd rfl h
      · rename_i h200
        intro _
        exact not_not.1 h200

/-- Witness of C11: a response with status 202 and the body of a valid account
resource gives no body. -/
theorem C11_witness :
    (respond 202 (accountBody "5" "6")).StatusCode ≠ 200 ∧
    (sampleBridge.get (fixedClient (respond 202 (accountBody "5" "6"))) "/x").2.body = none ∧
    (sampleBridge.get (fixedClient (respond 202 (accountBody "5" "6"))) "/x").2.err ≠ none :=
  ⟨by decide,
    (C11_only_status_200_yields_body "" Blockscanner.serverError
      (Blockscanner.sampleScanner 0 3) sampleBridge
      (fixedClient (respond 202 (accountBody "5" "6"))) "/x" "" "").2.1 (by decide)⟩

/-! ## Account number and sequence number -/


theorem get_frame (b : ThorchainBridge) (client : HttpClient) (path : String) :
    (b.get client path).1.accountNumber = b.accountNumber ∧
      (b.get client path).1.seqNumber = b.seqNumber := by
  unfold ThorchainBridge.get
  simp only
  split
  · exact ⟨rfl, rfl⟩
  · split
    · exact ⟨rfl, rfl⟩
    · split
      · exact ⟨rfl, rfl⟩
      · exact ⟨rfl, rfl⟩

theorem get_ok (b : ThorchainBridge) (client : HttpClient) (path : String)
    (h1 : (client.Get (b.getThorChainURL path)).err = none)
    (h2 : (client.Get (b.getThorChainURL path)).StatusCode = 200)
    (h3 : (client.Get (b.getThorChainURL path)).readErr = none) :
    (b.get client path).2 = ⟨some (client.Get (b.getThorChainURL path)).body, 200, none⟩ := by
  unfold ThorchainBridge.get
  simp only [h1, h2, h3, StatusOK, ne_eq, not_true_eq_false, if_false]

theorem get_failed (b : ThorchainBridge) (client : HttpClient) (path : String)
    (h : (client.Get (b.getThorChainURL path)).err ≠ none ∨
      (client.Get (b.getThorChainURL path)).StatusCode ≠ 200 ∨
      (client.Get (b.getThorChainURL path)).readErr ≠ none) :
    (b.get client path).2.err ≠ none := by
  unfold ThorchainBridge.get
  simp only
  split
  · simp
  · split
    · simp
    · split
      · simp
      · rename_i h1 h2 _ h3
        rcases h with h | h | h
        · exact absurd h1 h
        · exact absurd (not_not.1 h2) h
        · exact absurd h3 h

theorem account_of_get_error (b : ThorchainBridge) (client : HttpClient) (dec : AccountDecoder)
    (e : Error)
    (h : (b.get client (AuthAccountEndpoint ++ "/" ++ b.signerAddress)).2.err = some e) :
    (b.getAccountNumberAndSequenceNumber client dec).2 =
      ⟨0, 0, some (Error.Wrap e "failed to get auth accounts")⟩ := by
  simp only [ThorchainBridge.getAccountNumberAndSequenceNumber, h]

theorem account_of_unmarshal_error (b : ThorchainBridge) (client : HttpClient)
    (dec : AccountDecoder) (e : Error)
    (h : (b.get client (AuthAccountEndpoint ++ "/" ++ b.signerAddress)).2.err = none)
    (hd : dec.unmarshal
      ((b.get client (AuthAccountEndpoint ++ "/" ++ b.signerAddress)).2.body.getD "")
        = Except.error e) :
    (b.getAccountNumberAndSequenceNumber client dec).2 =
      ⟨0, 0, some (Error.Wrap e "failed to unmarshal account resp")⟩ := by
  simp only [ThorchainBridge.getAccountNumberAndSequenceNumber, h, hd]

theorem account_of_number_error (b : ThorchainBridge) (client : HttpClient)
    (dec : AccountDecoder) (acc seq : String) (v : Nat) (e : Error)
    (h : (b.get client (AuthAccountEndpoint ++ "/" ++ b.signerAddress)).2.err = none)
    (hd : dec.unmarshal
      ((b.get client (AuthAccountEndpoint ++ "/" ++ b.signerAddress)).2.body.getD "")
        = Except.ok (acc, seq))
    (hp : ParseUint acc = (v, some e)) :
    (b.getAccountNumberAndSequenceNumber client dec).2 =
      ⟨0, 0, some (Error.Wrap e ("failed to parse account number (" ++ acc ++ ")"))⟩ := by
  simp only [ThorchainBridge.getAccountNumberAndSequenceNumber, h, hd, hp]

theorem account_of_sequence_error (b : ThorchainBridge) (client : HttpClient)
    (dec : AccountDecoder) (acc seq : String) (a v : Nat) (e : Error)
    (h : (b.get client (AuthAccountEndpoint ++ "/" ++ b.signerAddress)).2.err = none)
    (hd : dec.unmarshal
      ((b.get client (AuthAccountEndpoint ++ "/" ++ b.signerAddress)).2.body.getD "")
        = Except.ok (acc, seq))
    (hp : ParseUint acc = (a, none)) (hq : ParseUint seq = (v, some e)) :
    (b.getAccountNumberAndSequenceNumber client dec).2 =
      ⟨0, 0, some (Error.Wrap e ("failed to parse sequence number (" ++ seq ++ ")"))⟩ := by
  simp only [ThorchainBridge.getAccountNumberAndSequenceNumber, h, hd, hp, hq]

theorem account_of_numbers (b : ThorchainBridge) (client : HttpClient)
    (dec : AccountDecoder) (acc seq : String) (a s : Nat)
    (h : (b.get client (AuthAccountEndpoint ++ "/" ++ b.signerAddress)).2.err = none)
    (hd : dec.unmarshal
      ((b.get client (AuthAccountEndpoint ++ "/" ++ b.signerAddress)).2.body.getD "")
        = Except.ok (acc, seq))
    (hp : ParseUint acc = (a, none)) (hq : ParseUint seq = (s, none)) :
    (b.getAccountNumberAndSequenceNumber client dec).2 = ⟨a, s, none⟩ := by
  simp only [ThorchainBridge.getAccountNumberAndSequenceNumber, h, hd, hp, hq]

theorem account_bridge (b : ThorchainBridge) (client : HttpClient) (dec : AccountDecoder) :
    (b.getAccountNumberAndSequenceNumber client dec).1 =
      (b.get client (AuthAccountEndpoint ++ "/" ++ b.signerAddress)).1 := by
  unfold ThorchainBridge.getAccountNumberAndSequenceNumber
  simp only
  split
  · rfl
  · split
    · rfl
    · split
      · rfl
      · split
        · rfl
        · rfl

/-- The five ways `getAccountNumberAndSequenceNumber` can end. -/
theorem account_cases (b : ThorchainBridge) (client : HttpClient) (dec : AccountDecoder) :
    (∃ e, (b.getAccountNumberAndSequenceNumber client dec).2 = ⟨0, 0, some e⟩) ∨
    (∃ acc seq a s,
      (b.get client (AuthAccountEndpoint ++ "/" ++ b.signerAddress)).2.err = none ∧
      dec.unmarshal
        ((b.get client (AuthAccountEndpoint ++ "/" ++ b.signerAddress)).2.body.getD "")
          = Except.ok (acc, seq) ∧
      ParseUint acc = (a, none) ∧ ParseUint seq = (s, none) ∧
      (b.getAccountNumberAndSequenceNumber client dec).2 = ⟨a, s, none⟩) := by
  cases h : (b.get client (AuthAccountEndpoint ++ "/" ++ b.signerAddress)).2.err with
  | some e => exact Or.inl ⟨_, account_of_get_error b client dec e h⟩
  | none =>
    cases hd : dec.unmarshal
        ((b.get client (AuthAccountEndpoint ++ "/" ++ b.signerAddress)).2.body.getD "") with
    | error e => exact Or.inl ⟨_, account_of_unmarshal_error b client dec e h hd⟩
    | ok fields =>
      obtain ⟨acc, seq⟩ := fields
      rcases hp : ParseUint acc with ⟨a, _ | e⟩
      · rcases hq : ParseUint seq with ⟨s, _ | e⟩
        · exact Or.inr ⟨acc, seq, a, s, rfl, rfl, hp, hq,
            account_of_numbers b client dec acc seq a s h hd hp hq⟩
        · exact Or.inl ⟨_, account_of_sequence_error b client dec acc seq a s e h hd hp hq⟩
      · exact Or.inl ⟨_, account_of_number_error b client dec acc seq a e h hd hp⟩

/-- C12: when the chain answers the account request with status 200 and a
body that is read and decoded to the decimal texts of two numbers `a` and `s`
below `2 ^ 64` as account number and sequence,
`getAccountNumberAndSequenceNumber` returns `(a, s)` and no error. -/
theorem C12_account_and_sequence_returned (b : ThorchainBridge) (client : HttpClient)
    (dec : AccountDecoder) (a s : Nat) (ha : a < 2 ^ 64) (hs : s < 2 ^ 64)
    (herr : (accountResponse b client).err = none)
    (hstatus : (accountResponse b client).StatusCode = 200)
    (hread : (accountResponse b client).readErr = none)
    (hdec : dec.unmarshal (accountResponse b client).body = Except.ok (toString a, toString s)) :
    (b.getAccountNumberAndSequenceNumber client dec).2 = ⟨a, s, none⟩ := by
  have hg := get_ok b client (AuthAccountEndpoint ++ "/" ++ b.signerAddress) herr hstatus hread
  have h1 : (b.get client (AuthAccountEndpoint ++ "/" ++ b.signerAddress)).2.err = none := by
    rw [hg]
  have h2 : dec.unmarshal
      ((b.get client (AuthAccountEndpoint ++ "/" ++ b.signerAddress)).2.body.getD "")
        = Except.ok (toString a, toString s) := by
    rw [hg]
    exact hdec
  exact account_of_numbers b client dec _ _ a s h1 h2 (ParseUint_toString a ha)
    (ParseUint_toString s hs)

set_option maxRecDepth 100000 in
/-- Witness of C12: account number "5" and sequence "6" give `(5, 6)`. -/
theorem C12_witness :
    testDecoder.unmarshal
      (accountResponse sampleBridge (fixedClient (respond 200 (accountBody "5" "6")))).body
        = Except.ok ("5", "6") ∧
    (sampleBridge.getAccountNumberAndSequenceNumber
      (fixedClient (respond 200 (accountBody "5" "6"))) testDecoder).2 = ⟨5, 6, none⟩ :=
  ⟨rfl,
    C12_account_and_sequence_returned sampleBridge
      (fixedClient (respond 200 (accountBody "5" "6"))) testDecoder 5 6 (by decide) (by decide)
      rfl rfl rfl rfl⟩

/-- C13: whenever `getAccountNumberAndSequenceNumber` returns an error, both
numbers it returns are 0; it returns an error when the request fails, when the
status is not 200, when the body cannot be read or decoded, and when the
account number or the sequence is not a decimal `uint64`, also when the
account number is one; and it never changes the bridge's `accountNumber` and
`seqNumber`. -/
theorem C13_error_returns_zeros (b : ThorchainBridge) (client : HttpClient)
    (dec : AccountDecoder) :
    (∀ e, (b.getAccountNumberAndSequenceNumber client dec).2.err = some e →
      (b.getAccountNumberAndSequenceNumber client dec).2.accNum = 0 ∧
        (b.getAccountNumberAndSequenceNumber client dec).2.seq = 0) ∧
    (b.getAccountNumberAndSequenceNumber client dec).1.accountNumber = b.accountNumber ∧
    (b.getAccountNumberAndSequenceNumber client dec).1.seqNumber = b.seqNumber ∧
    (((accountResponse b client).err ≠ none ∨ (accountResponse b client).StatusCode ≠ 200 ∨
        (accountResponse b client).readErr ≠ none) →
      (b.getAccountNumberAndSequenceNumber client dec).2.err ≠ none) ∧
    (∀ e, (b.get client (AuthAccountEndpoint ++ "/" ++ b.signerAddress)).2.err = none →
      dec.unmarshal
        ((b.get client (AuthAccountEndpoint ++ "/" ++ b.signerAddress)).2.body.getD "")
          = Except.error e →
      (b.getAccountNumberAndSequenceNumber client dec).2.err ≠ none) ∧
    (∀ acc seq, (b.get client (AuthAccountEndpoint ++ "/" ++ b.signerAddress)).2.err = none →
      dec.unmarshal
        ((b.get client (AuthAccountEndpoint ++ "/" ++ b.signerAddress)).2.body.getD "")
          = Except.ok (acc, seq) →
      ((ParseUint acc).2 ≠ none ∨ (ParseUint seq).2 ≠ none) →
      (b.getAccountNumberAndSequenceNumber client dec).2.err ≠ none) := by
  refine ⟨?_, ?_, ?_, ?_, ?_, ?_⟩
  · intro e he
    rcases account_cases b client dec with ⟨e1, h⟩ | ⟨_, _, _, _, _, _, _, _, h⟩
    · rw [h]
      exact ⟨rfl, rfl⟩
    · rw [h] at he
      cases he
  · rw [account_bridge]
    exact (get_frame b client _).1
  · rw [account_bridge]
    exact (get_frame b client _).2
  · intro h
    have hg := get_failed b client (AuthAccountEndpoint ++ "/" ++ b.signerAddress) h
    cases hge : (b.get client (AuthAccountEndpoint ++ "/" ++ b.signerAddress)).2.err with
    | none => exact absurd hge hg
    | some e =>
      rw [account_of_get_error b client dec e hge]
      simp
  · intro e h hd
    rw [account_of_unmarshal_error b client dec e h hd]
    simp
  · intro acc seq h hd hp
    rcases hpa : ParseUint acc with ⟨a, _ | e⟩
    · rcases hps : ParseUint seq with ⟨v, _ | e⟩
      · rw [hpa, hps] at hp
        simp at hp
      · rw [account_of_sequence_error b client dec acc seq a v e h hd hpa hps]
        simp
    · rw [account_of_number_error b client dec acc seq a e h hd hpa]
      simp

set_option maxRecDepth 100000 in
/-- Witness of C13: account number "5" and sequence "whatever" give `(0, 0)`
and an error. -/
theorem C13_witness :
    ParseUint "5" = (5, none) ∧
    (sampleBridge.getAccountNumberAndSequenceNumber
      (fixedClient (respond 200 (accountBody "5" "whatever"))) testDecoder).2.err =
      some (Error.Wrap (syntaxError "whatever") "failed to parse sequence number (whatever)") ∧
    (sampleBridge.getAccountNumberAndSequenceNumber
      (fixedClient (respond 200 (accountBody "5" "whatever"))) testDecoder).2.accNum = 0 ∧
    (sampleBridge.getAccountNumberAndSequenceNumber
      (fixedClient (respond 200 (accountBody "5" "whatever"))) testDecoder).2.seq = 0 :=
  ⟨by decide, by decide,
    (C13_error_returns_zeros sampleBridge
      (fixedClient (respond 200 (accountBody "5" "whatever"))) testDecoder).1
      (Error.Wrap (syntaxError "whatever") "failed to parse sequence number (whatever)")
      (by decide)⟩


theorem mentions_wrapped (e : Error) (pre raw post : String) :
    Mentions (errorMessage (Error.Wrap e (pre ++ raw ++ post))) raw := by
  show raw.toList <:+: (errorMessage (Error.Wrap e (pre ++ raw ++ post))).toList
  refine ⟨pre.toList, post.toList ++ ": ".toList ++ (errorMessage e).toList, ?_⟩
  simp only [Error.Wrap, errorMessage, String.toList, String.data_append, List.append_assoc]

set_option maxRecDepth 100000 in
/-- C14, as stated, fails: the body `whatever` is read with status 200 and
cannot be decoded; the error returned is the decoder's error wrapped with
"failed to unmarshal account resp", and its message does not contain the
body. -/
theorem C14_unmarshal_error_lacks_body :
    (sampleBridge.get (fixedClient (respond 200 "whatever"))
      (AuthAccountEndpoint ++ "/" ++ sampleBridge.signerAddress)).2
        = ⟨some "whatever", 200, none⟩ ∧
    testDecoder.unmarshal "whatever" = Except.error
      (Error.fundamental "invalid character 'w' looking for beginning of value") ∧
    (sampleBridge.getAccountNumberAndSequenceNumber
      (fixedClient (respond 200 "whatever")) testDecoder).2.err =
      some (Error.Wrap
        (Error.fundamental "invalid character 'w' looking for beginning of value")
        "failed to unmarshal account resp") ∧
    errorMessage (Error.Wrap
        (Error.fundamental "invalid character 'w' looking for beginning of value")
        "failed to unmarshal account resp") =
      "failed to unmarshal account resp: invalid character 'w' looking for beginning of value" ∧
    ¬ Mentions (errorMessage (Error.Wrap
        (Error.fundamental "invalid character 'w' looking for beginning of value")
        "failed to unmarshal account resp")) "whatever" := by
  refine ⟨by decide, rfl, by decide, by decide, by decide⟩

/-- C14, amended: when the account number fails to parse, the message of the
error returned contains the raw account number; when the account number
parses and the sequence fails to parse, it contains the raw sequence; when the
body cannot be decoded, the error returned is the decoder's error wrapped with
"failed to unmarshal account resp", its message being that text, a colon and
the decoder's message. -/
theorem C14_parse_errors_carry_raw_text (b : ThorchainBridge) (client : HttpClient)
    (dec : AccountDecoder)
    (hget : (b.get client (AuthAccountEndpoint ++ "/" ++ b.signerAddress)).2.err = none) :
    (∀ acc seq v e,
      dec.unmarshal
        ((b.get client (AuthAccountEndpoint ++ "/" ++ b.signerAddress)).2.body.getD "")
          = Except.ok (acc, seq) →
      ParseUint acc = (v, some e) →
      ∃ e1, (b.getAccountNumberAndSequenceNumber client dec).2.err = some e1 ∧
        Mentions (errorMessage e1) acc) ∧
    (∀ acc seq a v e,
      dec.unmarshal
        ((b.get client (AuthAccountEndpoint ++ "/" ++ b.signerAddress)).2.body.getD "")
          = Except.ok (acc, seq) →
      ParseUint acc = (a, none) → ParseUint seq = (v, some e) →
      ∃ e1, (b.getAccountNumberAndSequenceNumber client dec).2.err = some e1 ∧
        Mentions (errorMessage e1) seq) ∧
    (∀ e,
      dec.unmarshal
        ((b.get client (AuthAccountEndpoint ++ "/" ++ b.signerAddress)).2.body.getD "")
          = Except.error e →
      (b.getAccountNumberAndSequenceNumber client dec).2.err =
        some (Error.Wrap e "failed to unmarshal account resp") ∧
      errorMessage (Error.Wrap e "failed to unmarshal account resp") =
        "failed to unmarshal account resp" ++ ": " ++ errorMessage e) := by
  refine ⟨?_, ?_, ?_⟩
  · intro acc seq v e hd hp
    refine ⟨_, by rw [account_of_number_error b client dec acc seq v e hget hd hp], ?_⟩
    exact mentions_wrapped e "failed to parse account number (" acc ")"
  · intro acc seq a v e hd hp hq
    refine ⟨_, by rw [account_of_sequence_error b client dec acc seq a v e hget hd hp hq], ?_⟩
    exact mentions_wrapped e "failed to parse sequence number (" seq ")"
  · intro e hd
    exact ⟨by rw [account_of_unmarshal_error b client dec e hget hd], rfl⟩

set_option maxRecDepth 100000 in
/-- Witness of C14: the account number "asdf" is in the message of the error
returned for it. -/
theorem C14_witness :
    (sampleBridge.get (fixedClient (respond 200 (accountBody "asdf" "0")))
      (AuthAccountEndpoint ++ "/" ++ sampleBridge.signerAddress)).2.err = none ∧
    ParseUint "asdf" = (0, some (syntaxError "asdf")) ∧
    ∃ e1, (sampleBridge.getAccountNumberAndSequenceNumber
        (fixedClient (respond 200 (accountBody "asdf" "0"))) testDecoder).2.err = some e1 ∧
      Mentions (errorMessage e1) "asdf" :=
  ⟨by decide, by decide,
    (C14_parse_errors_carry_raw_text sampleBridge
      (fixedClient (respond 200 (accountBody "asdf" "0"))) testDecoder (by decide)).1
      "asdf" "0" 0 (syntaxError "asdf") rfl (by decide)⟩

/-! ## Observations -/


theorem splitObservations_ok (book : AddressBook) (txs : List ObservedTx) :
    ∀ (inbound outbound : List ObservedTx) (r : List ObservedTx × List ObservedTx),
      splitObservations book txs inbound outbound = Except.ok r →
      r.1 = inbound ++ txs.filter (isInbound book) ∧
      r.2 = outbound ++ txs.filter (fun t => !isInbound book t) ∧
      ∀ t ∈ txs, isInbound book t = false → isOutbound book t = true := by
  induction txs with
  | nil =>
    intro inbound outbound r h
    simp only [splitObservations, Except.ok.injEq] at h
    subst h
    simp
  | cons tx rest ih =>
    intro inbound outbound r h
    simp only [splitObservations] at h
    cases hg : book.GetAddress tx.ObservedPubKey (chainOf tx) with
    | error e =>
      rw [hg] at h
      cases h
    | ok obAddr =>
      rw [hg] at h
      simp only at h
      by_cases hto : book.Equals tx.Tx.ToAddress obAddr = true
      · have hin : isInbound book tx = true := by simp only [isInbound, hg, hto]
        rw [if_pos hto] at h
        obtain ⟨h1, h2, h3⟩ := ih _ _ r h
        refine ⟨?_, ?_, ?_⟩
        · rw [h1, List.filter_cons_of_pos hin]
          simp
        · rw [h2, List.filter_cons_of_neg (by simp [hin])]
        · intro t ht hf
          rcases List.mem_cons.1 ht with rfl | ht
          · rw [hin] at hf
            cases hf
          · exact h3 t ht hf
      · have hin : isInbound book tx = false := by
          simp only [isInbound, hg]
          simpa using hto
        rw [if_neg hto] at h
        by_cases hfrom : book.Equals tx.Tx.FromAddress obAddr = true
        · have hout : isOutbound book tx = true := by simp only [isOutbound, hg, hfrom]
          rw [if_pos hfrom] at h
          obtain ⟨h1, h2, h3⟩ := ih _ _ r h
          refine ⟨?_, ?_, ?_⟩
          · rw [h1, List.filter_cons_of_neg (by simp [hin])]
          · rw [h2, List.filter_cons_of_pos (by simp [hin])]
            simp
          · intro t ht hf
            rcases List.mem_cons.1 ht with rfl | ht
            · exact hout
            · exact h3 t ht hf
        · rw [if_neg hfrom] at h
          cases h

theorem splitObservations_error (book : AddressBook) (txs : List ObservedTx) :
    ∀ (inbound outbound : List ObservedTx) (tx : ObservedTx), tx ∈ txs →
      isInbound book tx = false → isOutbound book tx = false →
      ∃ e, splitObservations book txs inbound outbound = Except.error e := by
  induction txs with
  | nil => intro _ _ tx h; cases h
  | cons t rest ih =>
    intro inbound outbound tx hmem hin hout
    simp only [splitObservations]
    cases hg : book.GetAddress t.ObservedPubKey (chainOf t) with
    | error e => exact ⟨e, rfl⟩
    | ok obAddr =>
      simp only
      rcases List.mem_cons.1 hmem with rfl | hmem
      · have hto : ¬ book.Equals tx.Tx.ToAddress obAddr = true := by
          simp only [isInbound, hg] at hin
          simp [hin]
        have hfrom : ¬ book.Equals tx.Tx.FromAddress obAddr = true := by
          simp only [isOutbound, hg] at hout
          simp [hout]
        rw [if_neg hto, if_neg hfrom]
        exact ⟨_, rfl⟩
      · split
        · exact ih _ _ tx hmem hin hout
        · split
          · exact ih _ _ tx hmem hin hout
          · exact ⟨_, rfl⟩

theorem observationMsgs_eq (signer : String) (inbound outbound : List ObservedTx) :
    observationMsgs signer inbound outbound =
      (if inbound = [] then [] else [Msg.ObservedTxIn inbound signer]) ++
        (if outbound = [] then [] else [Msg.ObservedTxOut outbound signer]) := by
  cases inbound <;> cases outbound <;> simp [observationMsgs]

theorem observations_ok (b : ThorchainBridge) (book : AddressBook) (txIns : List ObservedTx)
    (stdTx : StdTx) (h : (b.GetObservationsStdTx book txIns).2 = (some stdTx, none)) :
    txIns ≠ [] ∧
    stdTx.Msgs = observationMsgs b.signerAddress (txIns.filter (isInbound book))
      (txIns.filter (fun t => !isInbound book t)) ∧
    (∀ t ∈ txIns, isInbound book t = false → isOutbound book t = true) := by
  unfold ThorchainBridge.GetObservationsStdTx at h
  split at h
  · simp at h
  · rename_i hlen
    have hne : txIns ≠ [] := fun hnil => hlen (by rw [hnil]; rfl)
    split at h
    · simp at h
    · rename_i inbound outbound hsplit
      obtain ⟨h1, h2, h3⟩ := splitObservations_ok book txIns [] [] _ hsplit
      simp only [Prod.mk.injEq, Option.some.injEq, and_true] at h
      subst h
      simp only [List.nil_append] at h1 h2
      exact ⟨hne, by rw [h1, h2], h3⟩


theorem filter_split (p : ObservedTx → Bool) (l : List ObservedTx) :
    (∀ t, (l.filter p).count t + (l.filter (fun x => !p x)).count t = l.count t) ∧
      (l.filter p).length + (l.filter (fun x => !p x)).length = l.length := by
  induction l with
  | nil => simp
  | cons a l ih =>
    obtain ⟨ih1, ih2⟩ := ih
    cases hp : p a
    · rw [List.filter_cons_of_neg (by simp [hp]), List.filter_cons_of_pos (by simp [hp])]
      refine ⟨fun t => ?_, ?_⟩
      · have := ih1 t
        simp only [List.count_cons]
        omega
      · simp only [List.length_cons]
        omega
    · rw [List.filter_cons_of_pos hp, List.filter_cons_of_neg (by simp [hp])]
      refine ⟨fun t => ?_, ?_⟩
      · have := ih1 t
        simp only [List.count_cons]
        omega
      · simp only [List.length_cons]
        omega

theorem chainOf_eq_specChain (tx : ObservedTx) : chainOf tx = specChain tx := by
  obtain ⟨⟨id, sender, receiver, coins⟩, key⟩ := tx
  cases coins <;> rfl

theorem isInbound_eq_specInbound (book : AddressBook) : isInbound book = specInbound book := by
  funext tx
  simp only [isInbound, specInbound, chainOf_eq_specChain]

theorem isOutbound_eq_specOutbound (book : AddressBook) :
    isOutbound book = specOutbound book := by
  funext tx
  simp only [isOutbound, specOutbound, chainOf_eq_specChain]

/-- C15: when `GetObservationsStdTx` succeeds, the batch is not empty; the
transactions whose to-address equals the address of the vault on their chain,
which is the chain of the first coin and BNB for a transaction without coins,
form the inbound message in their input order; the remaining ones form the
outbound message in their input order, and the from-address of each of them
equals the address of the vault on its chain; every input transaction is in
exactly one of the two lists. -/
theorem C15_batch_split_by_direction (b : ThorchainBridge) (book : AddressBook)
    (txIns : List ObservedTx) (stdTx : StdTx)
    (h : (b.GetObservationsStdTx book txIns).2 = (some stdTx, none)) :
    txIns ≠ [] ∧
    stdTx.Msgs =
      (if txIns.filter (specInbound book) = [] then []
        else [Msg.ObservedTxIn (txIns.filter (specInbound book)) b.signerAddress]) ++
      (if txIns.filter (fun t => !specInbound book t) = [] then []
        else [Msg.ObservedTxOut (txIns.filter (fun t => !specInbound book t))
          b.signerAddress]) ∧
    (∀ t ∈ txIns.filter (fun t => !specInbound book t), specOutbound book t = true) ∧
    (∀ t, (txIns.filter (specInbound book)).count t +
      (txIns.filter (fun t => !specInbound book t)).count t = txIns.count t) ∧
    (txIns.filter (specInbound book)).length +
      (txIns.filter (fun t => !specInbound book t)).length = txIns.length := by
  obtain ⟨h1, h2, h3⟩ := observations_ok b book txIns stdTx h
  rw [isInbound_eq_specInbound, isOutbound_eq_specOutbound] at h3
  simp only [isInbound_eq_specInbound] at h2
  refine ⟨h1, by rw [h2, observationMsgs_eq], ?_, ?_, ?_⟩
  · intro t ht
    obtain ⟨hm, hf⟩ := List.mem_filter.1 ht
    exact h3 t hm (by simpa using hf)
  · exact (filter_split (specInbound book) txIns).1
  · exact (filter_split (specInbound book) txIns).2

/-- Witness of C15: in a batch over two chains the transactions to the vault,
one with a first coin on ETH and one without coins, form the inbound message
and the two transactions from the vault the outbound message. -/
theorem C15_witness :
    (sampleBridge.GetObservationsStdTx sampleBook sampleBatch).2 =
      (some
        { Msgs :=
            [Msg.ObservedTxIn
              [sampleTxWith "A" "ETH:user" "ETH:vault" ethFirstCoins,
                sampleTxWith "C" "BNB:other" "BNB:vault" []]
              sampleBridge.signerAddress,
            Msg.ObservedTxOut
              [sampleTx "B" "BNB:vault" "BNB:user",
                sampleTxWith "D" "ETH:vault" "ETH:user" ethFirstCoins]
              sampleBridge.signerAddress]
          Gas := 100000000
          Signatures := []
          Memo := "" }, none) ∧
    sampleBatch.filter (specInbound sampleBook) =
      [sampleTxWith "A" "ETH:user" "ETH:vault" ethFirstCoins,
        sampleTxWith "C" "BNB:other" "BNB:vault" []] ∧
    (∀ t ∈ sampleBatch.filter (fun t => !specInbound sampleBook t),
      specOutbound sampleBook t = true) :=
  ⟨by decide, by decide,
    (C15_batch_split_by_direction sampleBridge sampleBook sampleBatch
      { Msgs :=
          [Msg.ObservedTxIn
            [sampleTxWith "A" "ETH:user" "ETH:vault" ethFirstCoins,
              sampleTxWith "C" "BNB:other" "BNB:vault" []]
            sampleBridge.signerAddress,
          Msg.ObservedTxOut
            [sampleTx "B" "BNB:vault" "BNB:user",
              sampleTxWith "D" "ETH:vault" "ETH:user" ethFirstCoins]
            sampleBridge.signerAddress]
        Gas := 100000000
        Signatures := []
        Memo := "" } (by decide)).2.2.1⟩

/-- C16: if a transaction of the batch goes neither to the vault nor comes from
it (its to-address and its from-address both differ from the address of the
observed key on its chain, or that address cannot be derived),
`GetObservationsStdTx` returns an error and no transaction, wherever the
transaction stands in the batch and whatever the other transactions are. -/
theorem C16_unplaced_transaction_is_an_error (b : ThorchainBridge) (book : AddressBook)
    (txIns : List ObservedTx) (tx : ObservedTx) (hmem : tx ∈ txIns)
    (hto : isInbound book tx = false) (hfrom : isOutbound book tx = false) :
    ∃ e, (b.GetObservationsStdTx book txIns).2 = (none, some e) := by
  obtain ⟨e, he⟩ := splitObservations_error book txIns [] [] tx hmem hto hfrom
  have hlen : ¬ txIns.length = 0 := by
    intro h0
    rw [List.length_eq_zero.1 h0] at hmem
    cases hmem
  refine ⟨e, ?_⟩
  simp only [ThorchainBridge.GetObservationsStdTx, if_neg hlen, he]

/-- Witness of C16: a transaction between two strangers, last in a batch whose
other transactions can be placed. -/
theorem C16_witness :
    sampleTx "X" "BNB:user" "BNB:other" ∈
      [sampleTx "A" "BNB:user" "BNB:vault", sampleTx "B" "BNB:vault" "BNB:user",
        sampleTx "X" "BNB:user" "BNB:other"] ∧
    isInbound sampleBook (sampleTx "X" "BNB:user" "BNB:other") = false ∧
    isOutbound sampleBook (sampleTx "X" "BNB:user" "BNB:other") = false ∧
    ∃ e, (sampleBridge.GetObservationsStdTx sampleBook
      [sampleTx "A" "BNB:user" "BNB:vault", sampleTx "B" "BNB:vault" "BNB:user",
        sampleTx "X" "BNB:user" "BNB:other"]).2 = (none, some e) :=
  ⟨by decide, by decide, by decide,
    C16_unplaced_transaction_is_an_error sampleBridge sampleBook
      [sampleTx "A" "BNB:user" "BNB:vault", sampleTx "B" "BNB:vault" "BNB:user",
        sampleTx "X" "BNB:user" "BNB:other"] (sampleTx "X" "BNB:user" "BNB:other")
      (by decide) (by decide) (by decide)⟩

/-- C17: for the empty batch `GetObservationsStdTx` returns no transaction and
the error "nothing to be signed", and adds one increment, that of
`nothing_to_sign`, to the error counter. -/
theorem C17_empty_batch_is_rejected (b : ThorchainBridge) (book : AddressBook) :
    (b.GetObservationsStdTx book []).2 = (none, some (Error.fundamental "nothing to be signed")) ∧
    (b.GetObservationsStdTx book []).1.errCounter = b.errCounter ++ [("nothing_to_sign", "")] ∧
    (b.GetObservationsStdTx book []).1.errCounter.count ("nothing_to_sign", "") =
      b.errCounter.count ("nothing_to_sign", "") + 1 := by
  refine ⟨rfl, rfl, ?_⟩
  show (b.errCounter ++ [("nothing_to_sign", "")]).count ("nothing_to_sign", "") = _
  simp

/-- C18: a transaction returned by `GetObservationsStdTx` has at least one and
at most two messages: the inbound message alone when every transaction of the
batch goes to the vault, the outbound message alone when none does, and the
inbound message followed by the outbound message when both kinds occur. -/
theorem C18_one_message_per_direction (b : ThorchainBridge) (book : AddressBook)
    (txIns : List ObservedTx) (stdTx : StdTx)
    (h : (b.GetObservationsStdTx book txIns).2 = (some stdTx, none)) :
    stdTx.Msgs ≠ [] ∧ 1 ≤ stdTx.Msgs.length ∧ stdTx.Msgs.length ≤ 2 ∧
    ((∀ t ∈ txIns, isInbound book t = true) →
      stdTx.Msgs = [Msg.ObservedTxIn txIns b.signerAddress]) ∧
    ((∀ t ∈ txIns, isInbound book t = false) →
      stdTx.Msgs = [Msg.ObservedTxOut txIns b.signerAddress]) ∧
    ((∃ t ∈ txIns, isInbound book t = true) → (∃ t ∈ txIns, isInbound book t = false) →
      stdTx.Msgs =
        [Msg.ObservedTxIn (txIns.filter (isInbound book)) b.signerAddress,
          Msg.ObservedTxOut (txIns.filter (fun t => !isInbound book t)) b.signerAddress]) := by
  obtain ⟨hne, hm, _⟩ := observations_ok b book txIns stdTx h
  rw [observationMsgs_eq] at hm
  have hall : (∀ t ∈ txIns, isInbound book t = true) →
      stdTx.Msgs = [Msg.ObservedTxIn txIns b.signerAddress] := by
    intro hin
    have h1 : txIns.filter (isInbound book) = txIns := List.filter_eq_self.2 hin
    have h2 : txIns.filter (fun t => !isInbound book t) = [] :=
      List.filter_eq_nil_iff.2 (fun t ht => by simp [hin t ht])
    rw [hm, h1, h2, if_neg hne]
    rfl
  have hnone : (∀ t ∈ txIns, isInbound book t = false) →
      stdTx.Msgs = [Msg.ObservedTxOut txIns b.signerAddress] := by
    intro hout
    have h1 : txIns.filter (isInbound book) = [] :=
      List.filter_eq_nil_iff.2 (fun t ht => by simp [hout t ht])
    have h2 : txIns.filter (fun t => !isInbound book t) = txIns :=
      List.filter_eq_self.2 (fun t ht => by simp [hout t ht])
    rw [hm, h1, h2, if_neg hne]
    rfl
  have hboth : (∃ t ∈ txIns, isInbound book t = true) → (∃ t ∈ txIns, isInbound book t = false) →
      stdTx.Msgs =
        [Msg.ObservedTxIn (txIns.filter (isInbound book)) b.signerAddress,
          Msg.ObservedTxOut (txIns.filter (fun t => !isInbound book t)) b.signerAddress] := by
    rintro ⟨t1, ht1, hi1⟩ ⟨t2, ht2, hi2⟩
    have h1 : txIns.filter (isInbound book) ≠ [] := by
      intro hnil
      have := List.mem_filter.2 ⟨ht1, hi1⟩
      rw [hnil] at this
      cases this
    have h2 : txIns.filter (fun t => !isInbound book t) ≠ [] := by
      intro hnil
      have : t2 ∈ txIns.filter (fun t => !isInbound book t) :=
        List.mem_filter.2 ⟨ht2, by simp [hi2]⟩
      rw [hnil] at this
      cases this
    rw [hm, if_neg h1, if_neg h2]
    rfl
  have hlen : 1 ≤ stdTx.Msgs.length ∧ stdTx.Msgs.length ≤ 2 := by
    by_cases hin : ∀ t ∈ txIns, isInbound book t = true
    · rw [hall hin]; simp
    · by_cases hout : ∀ t ∈ txIns, isInbound book t = false
      · rw [hnone hout]; simp
      · have e1 : ∃ t ∈ txIns, isInbound book t = true := by
          by_contra hc
          exact hout (fun t ht => by
            cases hv : isInbound book t
            · rfl
            · exact absurd ⟨t, ht, hv⟩ hc)
        have e2 : ∃ t ∈ txIns, isInbound book t = false := by
          by_contra hc
          exact hin (fun t ht => by
            cases hv : isInbound book t
            · exact absurd ⟨t, ht, hv⟩ hc
            · rfl)
        rw [hboth e1 e2]; simp
  refine ⟨?_, hlen.1, hlen.2, hall, hnone, hboth⟩
  intro hnil
  rw [hnil] at hlen
  simp at hlen

/-- Witness of C18: a batch with one outbound and one inbound transaction
gives two messages, the inbound one first. -/
theorem C18_witness :
    (sampleBridge.GetObservationsStdTx sampleBook
      [sampleTx "B" "BNB:vault" "BNB:user", sampleTx "A" "BNB:user" "BNB:vault"]).2 =
      (some sampleEnvelope, none) ∧
    sampleEnvelope.Msgs ≠ [] ∧ 1 ≤ sampleEnvelope.Msgs.length ∧
    sampleEnvelope.Msgs.length ≤ 2 :=
  ⟨by decide,
    (C18_one_message_per_direction sampleBridge sampleBook
      [sampleTx "B" "BNB:vault" "BNB:user", sampleTx "A" "BNB:user" "BNB:vault"]
      sampleEnvelope (by decide)).1,
    (C18_one_message_per_direction sampleBridge sampleBook
      [sampleTx "B" "BNB:vault" "BNB:user", sampleTx "A" "BNB:user" "BNB:vault"]
      sampleEnvelope (by decide)).2.1,
    (C18_one_message_per_direction sampleBridge sampleBook
      [sampleTx "B" "BNB:vault" "BNB:user", sampleTx "A" "BNB:user" "BNB:vault"]
      sampleEnvelope (by decide)).2.2.1⟩

/-! ## The wait for the whitelist -/


theorem whitelist_loop_never_returns (b : ThorchainBridge) (env : WhitelistEnv)
    (hfail : ∀ k, b.EnsureNodeWhitelisted (env.GetNodeAccount k) ≠ none)
    (hpoll : ∀ k, env.pollDelay k < Hour) (n : Nat) :
    ∀ k sleeps now : Nat,
      (b.EnsureNodeWhitelistedWithTimeoutLoop env n k sleeps now).result = none ∧
      (b.EnsureNodeWhitelistedWithTimeoutLoop env n k sleeps now).checks = k + n ∧
      (b.EnsureNodeWhitelistedWithTimeoutLoop env n k sleeps now).sleeps = sleeps + n ∧
      now + n * ThirtySeconds ≤ (b.EnsureNodeWhitelistedWithTimeoutLoop env n k sleeps now).elapsed := by
  induction n with
  | zero =>
    intro k sleeps now
    simp [ThorchainBridge.EnsureNodeWhitelistedWithTimeoutLoop]
  | succ n ih =>
    intro k sleeps now
    have hp : ¬ now + env.pollDelay k ≥ now + Hour := by
      have := hpoll k
      omega
    cases hc : b.EnsureNodeWhitelisted (env.GetNodeAccount k) with
    | none => exact absurd hc (hfail k)
    | some e =>
      simp only [ThorchainBridge.EnsureNodeWhitelistedWithTimeoutLoop, if_neg hp, hc]
      obtain ⟨h1, h2, h3, h4⟩ := ih (k + 1) (sleeps + 1)
        (now + env.pollDelay k + env.checkTime k + ThirtySeconds)
      refine ⟨h1, by rw [h2]; omega, by rw [h3]; omega, ?_⟩
      have e1 : (n + 1) * ThirtySeconds = n * ThirtySeconds + ThirtySeconds := by ring
      omega

theorem neverWhitelisted_fails (k : Nat) :
    sampleBridge.EnsureNodeWhitelisted (neverWhitelisted.GetNodeAccount k) ≠ none := by
  show sampleBridge.EnsureNodeWhitelisted
    (fun _ => Except.ok { Status := NodeStatus.Unknown }) ≠ none
  decide

theorem neverWhitelisted_polls (k : Nat) : neverWhitelisted.pollDelay k < Hour := by
  show (1000 : Nat) < 3600000000000
  decide

/-- C20, evaluated where it fails: on a chain where the node account of the
signer stays `Unknown`, every check fails, and after any number of rounds
`EnsureNodeWhitelistedWithTimeout` has made that many checks and sleeps and
has not returned: after 121 rounds more than an hour has passed, and the loop
still runs, as it does after a million rounds.  The timer of
`time.After(time.Hour)` is made anew on every entry of the `select`, so its
case is never ready. -/
theorem C20_wait_for_whitelist_never_gives_up :
    (∀ k, sampleBridge.EnsureNodeWhitelisted (neverWhitelisted.GetNodeAccount k) =
      some (Error.fundamental
        "node account status Unknown , will not be able to forward transaction to thorchain")) ∧
    (∀ n, (sampleBridge.EnsureNodeWhitelistedWithTimeout neverWhitelisted n).result = none ∧
      (sampleBridge.EnsureNodeWhitelistedWithTimeout neverWhitelisted n).checks = n ∧
      n * ThirtySeconds ≤ (sampleBridge.EnsureNodeWhitelistedWithTimeout neverWhitelisted n).elapsed) ∧
    Hour < (sampleBridge.EnsureNodeWhitelistedWithTimeout neverWhitelisted 121).elapsed ∧
    (sampleBridge.EnsureNodeWhitelistedWithTimeout neverWhitelisted 121).result = none ∧
    (sampleBridge.EnsureNodeWhitelistedWithTimeout neverWhitelisted 121).checks = 121 ∧
    (sampleBridge.EnsureNodeWhitelistedWithTimeout neverWhitelisted 1000000).result = none := by
  have key : ∀ n, (sampleBridge.EnsureNodeWhitelistedWithTimeout neverWhitelisted n).result = none ∧
      (sampleBridge.EnsureNodeWhitelistedWithTimeout neverWhitelisted n).checks = n ∧
      n * ThirtySeconds ≤
        (sampleBridge.EnsureNodeWhitelistedWithTimeout neverWhitelisted n).elapsed := by
    intro n
    obtain ⟨h1, h2, _, h4⟩ := whitelist_loop_never_returns sampleBridge neverWhitelisted
      neverWhitelisted_fails neverWhitelisted_polls n 0 0 0
    refine ⟨h1, by simpa using h2, by simpa using h4⟩
  refine ⟨fun _ => rfl, key, ?_, (key 121).1, (key 121).2.1, (key 1000000).1⟩
  have := (key 121).2.2
  simp only [ThirtySeconds] at this
  simp only [Hour]
  omega

end Thorclient

/-! ## The first successful check -/

namespace Thorclient

open Blockscanner (Error)

/-- The loop entered at round `k`, when the checks of the rounds `k` to
`k + m - 1` fail and the check of round `k + m` succeeds. -/
theorem whitelist_loop_first_success (b : ThorchainBridge) (env : WhitelistEnv)
    (hpoll : ∀ j, env.pollDelay j < Hour) (m : Nat) :
    ∀ n k sleeps now : Nat, m < n →
      (∀ j, j < m → b.EnsureNodeWhitelisted (env.GetNodeAccount (k + j)) ≠ none) →
      b.EnsureNodeWhitelisted (env.GetNodeAccount (k + m)) = none →
      (b.EnsureNodeWhitelistedWithTimeoutLoop env n k sleeps now).result = some none ∧
      (b.EnsureNodeWhitelistedWithTimeoutLoop env n k sleeps now).checks = k + m + 1 ∧
      (b.EnsureNodeWhitelistedWithTimeoutLoop env n k sleeps now).sleeps = sleeps + m ∧
      (b.EnsureNodeWhitelistedWithTimeoutLoop env n k sleeps now).elapsed =
        now + m * ThirtySeconds +
          (Finset.range (m + 1)).sum (fun j => env.pollDelay (k + j) + env.checkTime (k + j)) := by
  induction m with
  | zero =>
    intro n k sleeps now hn _ hok
    obtain ⟨n, rfl⟩ : ∃ n1, n = n1 + 1 := ⟨n - 1, by omega⟩
    have hp : ¬ now + env.pollDelay k ≥ now + Hour := by
      have := hpoll k
      omega
    have hok1 : b.EnsureNodeWhitelisted (env.GetNodeAccount k) = none := by simpa using hok
    have hloop : b.EnsureNodeWhitelistedWithTimeoutLoop env (n + 1) k sleeps now =
        ⟨k + 1, sleeps, now + env.pollDelay k + env.checkTime k, some none⟩ := by
      simp only [ThorchainBridge.EnsureNodeWhitelistedWithTimeoutLoop, if_neg hp, hok1]
    rw [hloop]
    refine ⟨rfl, rfl, rfl, ?_⟩
    show now + env.pollDelay k + env.checkTime k = now + 0 * ThirtySeconds +
      (Finset.range 1).sum (fun j => env.pollDelay (k + j) + env.checkTime (k + j))
    rw [Finset.sum_range_one]
    simp only [Nat.add_zero]
    omega
  | succ m ih =>
    intro n k sleeps now hn hfail hok
    obtain ⟨n, rfl⟩ : ∃ n1, n = n1 + 1 := ⟨n - 1, by omega⟩
    have hp : ¬ now + env.pollDelay k ≥ now + Hour := by
      have := hpoll k
      omega
    have hf0 : b.EnsureNodeWhitelisted (env.GetNodeAccount k) ≠ none := by
      simpa using hfail 0 (Nat.succ_pos m)
    cases hc : b.EnsureNodeWhitelisted (env.GetNodeAccount k) with
    | none => exact absurd hc hf0
    | some e =>
      simp only [ThorchainBridge.EnsureNodeWhitelistedWithTimeoutLoop, if_neg hp, hc]
      have hfail1 : ∀ j, j < m →
          b.EnsureNodeWhitelisted (env.GetNodeAccount (k + 1 + j)) ≠ none := by
        intro j hj
        have := hfail (j + 1) (by omega)
        rwa [show k + (j + 1) = k + 1 + j by omega] at this
      have hok1 : b.EnsureNodeWhitelisted (env.GetNodeAccount (k + 1 + m)) = none := by
        rwa [show k + (m + 1) = k + 1 + m by omega] at hok
      obtain ⟨h1, h2, h3, h4⟩ := ih n (k + 1) (sleeps + 1)
        (now + env.pollDelay k + env.checkTime k + ThirtySeconds) (by omega) hfail1 hok1
      refine ⟨h1, by rw [h2]; omega, by rw [h3]; omega, ?_⟩
      rw [h4, Finset.sum_range_succ' _ (m + 1)]
      have e1 : (m + 1) * ThirtySeconds = m * ThirtySeconds + ThirtySeconds := by ring
      have e2 : (Finset.range (m + 1)).sum
          (fun j => env.pollDelay (k + 1 + j) + env.checkTime (k + 1 + j)) =
          (Finset.range (m + 1)).sum
            (fun j => env.pollDelay (k + (j + 1)) + env.checkTime (k + (j + 1))) := by
        refine Finset.sum_congr rfl (fun j _ => ?_)
        rw [show k + 1 + j = k + (j + 1) by omega]
      rw [e2, e1]
      simp only [Nat.add_zero]
      omega

/-- C21: when the checks of `EnsureNodeWhitelisted` fail `m` times and then
succeed, so that check number `m + 1` is the first to succeed, and each
`select` polls its fresh one-hour timer within the hour,
`EnsureNodeWhitelistedWithTimeout`, given at least `m + 1` rounds, returns
success after exactly `m + 1` checks and `m` sleeps of 30 seconds, one after
each failed check: the time that has passed is these sleeps plus the time of
the polls and checks. -/
theorem C21_first_success_ends_the_wait (b : ThorchainBridge) (env : WhitelistEnv)
    (m rounds : Nat)
    (hfail : ∀ j, j < m → b.EnsureNodeWhitelisted (env.GetNodeAccount j) ≠ none)
    (hok : b.EnsureNodeWhitelisted (env.GetNodeAccount m) = none)
    (hpoll : ∀ j, env.pollDelay j < Hour) (hrounds : m < rounds) :
    (b.EnsureNodeWhitelistedWithTimeout env rounds).result = some none ∧
    (b.EnsureNodeWhitelistedWithTimeout env rounds).checks = m + 1 ∧
    (b.EnsureNodeWhitelistedWithTimeout env rounds).sleeps = m ∧
    (b.EnsureNodeWhitelistedWithTimeout env rounds).elapsed =
      m * ThirtySeconds +
        (Finset.range (m + 1)).sum (fun j => env.pollDelay j + env.checkTime j) := by
  have hfail0 : ∀ j, j < m → b.EnsureNodeWhitelisted (env.GetNodeAccount (0 + j)) ≠ none := by
    intro j hj
    rw [Nat.zero_add]
    exact hfail j hj
  have hok0 : b.EnsureNodeWhitelisted (env.GetNodeAccount (0 + m)) = none := by
    rw [Nat.zero_add]
    exact hok
  obtain ⟨h1, h2, h3, h4⟩ :=
    whitelist_loop_first_success b env hpoll m rounds 0 0 0 hrounds hfail0 hok0
  refine ⟨h1, by simpa using h2, by simpa using h3, ?_⟩
  simpa using h4

theorem lateWhitelisted_fails (j : Nat) (hj : j < 2) :
    sampleBridge.EnsureNodeWhitelisted (lateWhitelisted.GetNodeAccount j) ≠ none := by
  interval_cases j <;> decide

/-- On a chain that whitelists the node at the third check, the wait makes
three checks and two sleeps and returns success, also when it is given a
thousand rounds. -/
theorem C21_witness :
    (sampleBridge.EnsureNodeWhitelistedWithTimeout lateWhitelisted 1000).result = some none ∧
    (sampleBridge.EnsureNodeWhitelistedWithTimeout lateWhitelisted 1000).checks = 2 + 1 ∧
    (sampleBridge.EnsureNodeWhitelistedWithTimeout lateWhitelisted 1000).sleeps = 2 ∧
    (sampleBridge.EnsureNodeWhitelistedWithTimeout lateWhitelisted 1000).elapsed =
      2 * ThirtySeconds + (Finset.range (2 + 1)).sum
        (fun j => lateWhitelisted.pollDelay j + lateWhitelisted.checkTime j) :=
  C21_first_success_ends_the_wait sampleBridge lateWhitelisted 2 1000 lateWhitelisted_fails
    (by decide) (fun _ => by show (1000 : Nat) < 3600000000000; decide) (by decide)

/-! ## The whitelist check -/

theorem length_eq_zero_iff (s : String) : s.length = 0 ↔ s = "" := by
  constructor
  · intro h
    cases s with
    | mk data =>
      have : data = [] := List.length_eq_zero.1 h
      rw [this]
  · intro h
    rw [h]
    rfl

/-- C22: `EnsureNodeWhitelisted` returns an error when the signer address is
empty and when the lookup of the node account fails; when the address is not
empty and the lookup succeeds, it returns an error if and only if the status
of the node account is `Disabled` or `Unknown`. -/
theorem C22_error_iff_disabled_or_unknown (b : ThorchainBridge)
    (GetNodeAccount : String → Except Error NodeAccount) :
    (b.signerAddress = "" →
      b.EnsureNodeWhitelisted GetNodeAccount = some (Error.New "bep address is empty")) ∧
    (b.signerAddress ≠ "" → ∀ err, GetNodeAccount b.signerAddress = Except.error err →
      b.EnsureNodeWhitelisted GetNodeAccount =
        some (Error.Wrap err "failed to get node account")) ∧
    (b.signerAddress ≠ "" → ∀ na, GetNodeAccount b.signerAddress = Except.ok na →
      ((∃ e, b.EnsureNodeWhitelisted GetNodeAccount = some e) ↔
        (na.Status = NodeStatus.Disabled ∨ na.Status = NodeStatus.Unknown))) := by
  refine ⟨?_, ?_, ?_⟩
  · intro h
    have h0 : b.signerAddress.length = 0 := (length_eq_zero_iff _).2 h
    simp only [ThorchainBridge.EnsureNodeWhitelisted, if_pos h0]
  · intro h err hg
    have h0 : ¬ b.signerAddress.length = 0 := fun h1 => h ((length_eq_zero_iff _).1 h1)
    simp only [ThorchainBridge.EnsureNodeWhitelisted, if_neg h0, hg]
  · intro h na hg
    have h0 : ¬ b.signerAddress.length = 0 := fun h1 => h ((length_eq_zero_iff _).1 h1)
    simp only [ThorchainBridge.EnsureNodeWhitelisted, if_neg h0, hg]
    by_cases hs : na.Status = NodeStatus.Disabled ∨ na.Status = NodeStatus.Unknown
    · rw [if_pos hs]
      exact ⟨fun _ => hs, fun _ => ⟨_, rfl⟩⟩
    · rw [if_neg hs]
      exact ⟨fun ⟨e, he⟩ => (by cases he), fun h1 => absurd h1 hs⟩

/-- For the signer of the tests: an `Unknown` node account is an error, an
`Active` one is not. -/
theorem C22_witness :
    ((∃ e, sampleBridge.EnsureNodeWhitelisted
        (fun _ => Except.ok { Status := NodeStatus.Unknown }) = some e) ↔
      ((NodeAccount.mk NodeStatus.Unknown).Status = NodeStatus.Disabled ∨
        (NodeAccount.mk NodeStatus.Unknown).Status = NodeStatus.Unknown)) ∧
    ((∃ e, sampleBridge.EnsureNodeWhitelisted
        (fun _ => Except.ok { Status := NodeStatus.other "Active" }) = some e) ↔
      ((NodeAccount.mk (NodeStatus.other "Active")).Status = NodeStatus.Disabled ∨
        (NodeAccount.mk (NodeStatus.other "Active")).Status = NodeStatus.Unknown)) :=
  ⟨(C22_error_iff_disabled_or_unknown sampleBridge
      (fun _ => Except.ok { Status := NodeStatus.Unknown })).2.2 (by decide) _ rfl,
    (C22_error_iff_disabled_or_unknown sampleBridge
      (fun _ => Except.ok { Status := NodeStatus.other "Active" })).2.2 (by decide) _ rfl⟩

/-! ## The error counter of the low level calls -/

/-- C23, evaluated where it fails: when the chain answers with status 404,
a status that the retrying client of the bridge hands on as it is, `get` and
`post` return an error and leave the error counter vector as it was, no label
having been incremented.  The other error exits of the two methods do
increment it, as the transport error and the read error show, and so does the
scanner's `getFromHttp` for a status that is not 200. -/
theorem C23_status_error_is_not_counted :
    (sampleBridge.get (fixedClient (respond 404 "")) "/thorchain/lastblock").2.err =
      some (Error.fundamental "Status code: 404 returned") ∧
    (sampleBridge.get (fixedClient (respond 404 "")) "/thorchain/lastblock").1.errCounter = [] ∧
    (sampleBridge.post (fixedClient (respond 404 "")) "/txs" "application/json" "").2.2 =
      some (Error.fundamental "Status code: 404 returned") ∧
    (sampleBridge.post (fixedClient (respond 404 "")) "/txs" "application/json" "").1.errCounter
      = [] ∧
    (sampleBridge.get (fixedClient ⟨some (Error.fundamental "connection refused"), 0, "", none⟩)
      "/thorchain/lastblock").1.errCounter = [("fail_get_from_thorchain", "")] ∧
    (sampleBridge.post (fixedClient ⟨some (Error.fundamental "connection refused"), 0, "", none⟩)
      "/txs" "application/json" "").1.errCounter = [("fail_post_to_thorchain", "")] ∧
    (sampleBridge.get (fixedClient ⟨none, 200, "", some (Error.fundamental "unexpected EOF")⟩)
      "/thorchain/lastblock").1.errCounter = [("fail_read_thorchain_resp", "")] ∧
    (Blockscanner.getFromHttp "http://localhost:26657/block" Blockscanner.serverError
      (Blockscanner.sampleScanner 0 3)).1.metrics.errorCounter =
        [("unexpected_status_code", "500 Internal Server Error")] := by
  refine ⟨rfl, rfl, rfl, rfl, rfl, rfl, rfl, rfl⟩

/-! ## The construction of the bridge -/

/-- C26: `NewThorchainBridge` returns an error, and so no bridge, whenever the
chain id, the chain host, the signer name or the signer password is empty.
When all four are non-empty it returns an error exactly when the key store
fails to load the key material of the signer: that error wraps the one of the
key store, and otherwise the bridge is made for the configuration and the
signer. -/
theorem C26_constructor_requires_four_fields
    (NewKeys : String → String → String → Except Error String)
    (cfg : ClientConfiguration) (errCounter : List (String × String)) :
    ((cfg.ChainID = "" ∨ cfg.ChainHost = "" ∨ cfg.SignerName = "" ∨ cfg.SignerPasswd = "") →
      ∃ e, NewThorchainBridge NewKeys cfg errCounter = Except.error e) ∧
    (cfg.ChainID ≠ "" → cfg.ChainHost ≠ "" → cfg.SignerName ≠ "" → cfg.SignerPasswd ≠ "" →
      (((∃ e, NewThorchainBridge NewKeys cfg errCounter = Except.error e) ↔
        ∃ err, NewKeys cfg.ChainHomeFolder cfg.SignerName cfg.SignerPasswd = Except.error err) ∧
      (∀ err, NewKeys cfg.ChainHomeFolder cfg.SignerName cfg.SignerPasswd = Except.error err →
        NewThorchainBridge NewKeys cfg errCounter =
          Except.error (wrapf "fail to get keybase,err:" err)) ∧
      (∀ k, NewKeys cfg.ChainHomeFolder cfg.SignerName cfg.SignerPasswd = Except.ok k →
        ∃ b, NewThorchainBridge NewKeys cfg errCounter = Except.ok b ∧ b.cfg = cfg ∧
          b.signerAddress = k ∧ b.errCounter = errCounter))) := by
  constructor
  · intro h
    by_cases h1 : cfg.ChainID.length = 0
    · exact ⟨Error.New "chain id is empty", by simp only [NewThorchainBridge, if_pos h1]⟩
    by_cases h2 : cfg.ChainHost.length = 0
    · exact ⟨Error.New "chain host is empty",
        by simp only [NewThorchainBridge, if_neg h1, if_pos h2]⟩
    by_cases h3 : cfg.SignerName.length = 0
    · exact ⟨Error.New "signer name is empty",
        by simp only [NewThorchainBridge, if_neg h1, if_neg h2, if_pos h3]⟩
    by_cases h4 : cfg.SignerPasswd.length = 0
    · exact ⟨Error.New "signer password is empty",
        by simp only [NewThorchainBridge, if_neg h1, if_neg h2, if_neg h3, if_pos h4]⟩
    exfalso
    rcases h with h | h | h | h
    · exact h1 ((length_eq_zero_iff _).2 h)
    · exact h2 ((length_eq_zero_iff _).2 h)
    · exact h3 ((length_eq_zero_iff _).2 h)
    · exact h4 ((length_eq_zero_iff _).2 h)
  · intro n1 n2 n3 n4
    have h1 : ¬ cfg.ChainID.length = 0 := fun h => n1 ((length_eq_zero_iff _).1 h)
    have h2 : ¬ cfg.ChainHost.length = 0 := fun h => n2 ((length_eq_zero_iff _).1 h)
    have h3 : ¬ cfg.SignerName.length = 0 := fun h => n3 ((length_eq_zero_iff _).1 h)
    have h4 : ¬ cfg.SignerPasswd.length = 0 := fun h => n4 ((length_eq_zero_iff _).1 h)
    have herr : ∀ err, NewKeys cfg.ChainHomeFolder cfg.SignerName cfg.SignerPasswd =
        Except.error err → NewThorchainBridge NewKeys cfg errCounter =
          Except.error (wrapf "fail to get keybase,err:" err) := by
      intro err hk
      simp only [NewThorchainBridge, if_neg h1, if_neg h2, if_neg h3, if_neg h4, hk]
    have hok : ∀ k, NewKeys cfg.ChainHomeFolder cfg.SignerName cfg.SignerPasswd = Except.ok k →
        ∃ b, NewThorchainBridge NewKeys cfg errCounter = Except.ok b ∧ b.cfg = cfg ∧
          b.signerAddress = k ∧ b.errCounter = errCounter := by
      intro k hk
      refine ⟨⟨cfg, k, errCounter, 0, 0, 0⟩, ?_, rfl, rfl, rfl⟩
      simp only [NewThorchainBridge, if_neg h1, if_neg h2, if_neg h3, if_neg h4, hk]
    refine ⟨⟨?_, ?_⟩, herr, hok⟩
    · rintro ⟨e, he⟩
      cases hk : NewKeys cfg.ChainHomeFolder cfg.SignerName cfg.SignerPasswd with
      | error err => exact ⟨err, rfl⟩
      | ok k =>
        obtain ⟨b, hb, _⟩ := hok k hk
        rw [hb] at he
        cases he
    · rintro ⟨err, hk⟩
      exact ⟨_, herr err hk⟩

/-- The configurations of the constructor's test: an empty chain id is
rejected, and the full configuration gives a bridge when the key store holds
the signer. -/
theorem C26_witness :
    (∃ e, NewThorchainBridge sampleKeys ⟨"", "localhost", "~/.thorcli", "signer", "signerpassword"⟩
      [] = Except.error e) ∧
    (∃ b, NewThorchainBridge sampleKeys sampleBridge.cfg [] = Except.ok b ∧
      b.cfg = sampleBridge.cfg ∧ b.signerAddress = "thor1vx80hen38j5w0jn6gqh3crqvktj9stnhw56kn0" ∧
      b.errCounter = []) :=
  ⟨(C26_constructor_requires_four_fields sampleKeys
      ⟨"", "localhost", "~/.thorcli", "signer", "signerpassword"⟩ []).1 (Or.inl rfl),
    ((C26_constructor_requires_four_fields sampleKeys sampleBridge.cfg []).2
      (by decide) (by decide) (by decide) (by decide)).2.2 _ rfl⟩

/-! ## The event of a transaction -/

theorem append_ne_of_head (c d : Char) (p q x y : String) (hp : p.toList.head? = some c)
    (hq : q.toList.head? = some d) (hcd : c ≠ d) : p ++ x ≠ q ++ y := by
  intro h
  have h1 : (p ++ x).toList.head? = (q ++ y).toList.head? := by rw [h]
  have hpx : (p ++ x).toList = p.toList ++ x.toList := rfl
  have hqy : (q ++ y).toList = q.toList ++ y.toList := rfl
  rw [hpx, hqy] at h1
  cases hpl : p.toList with
  | nil => rw [hpl] at hp; cases hp
  | cons a t =>
    cases hql : q.toList with
    | nil => rw [hql] at hq; cases hq
    | cons a2 t2 =>
      rw [hpl] at hp h1
      rw [hql] at hq h1
      simp only [List.cons_append, List.head?_cons, Option.some.injEq] at hp hq h1
      exact hcd (by rw [← hp, ← hq, h1])

/-- C28: `GetEvent` returns the first event of the decoded list and no error
when the list is not empty.  When the list is empty it returns the empty
event and the error `no events for hash id:<txID>`; on a failure of the `GET`
it returns the error `fail to get event: ...` that wraps the failure, and on
a failure of the decoder the error `fail to unmarshal result to event:...`.
The error of the empty list is neither of the other two, as a value and by its
message. -/
theorem C28_no_events_is_its_own_error {Event : Type} (b : ThorchainBridge)
    (client : HttpClient) (unmarshal : String → Except Error (List Event)) (empty : Event)
    (txID : String) :
    (∀ e es, (b.get client (EventTxViaID txID)).2.err = none →
      unmarshal ((b.get client (EventTxViaID txID)).2.body.getD "") = Except.ok (e :: es) →
      (b.GetEvent client unmarshal empty txID).2 = (e, none)) ∧
    ((b.get client (EventTxViaID txID)).2.err = none →
      unmarshal ((b.get client (EventTxViaID txID)).2.body.getD "") = Except.ok [] →
      (b.GetEvent client unmarshal empty txID).2 =
        (empty, some (Error.fundamental ("no events for hash id:" ++ txID)))) ∧
    (∀ g, (b.get client (EventTxViaID txID)).2.err = some g →
      (b.GetEvent client unmarshal empty txID).2 =
        (empty, some (wrapf "fail to get event: " g))) ∧
    (∀ d, (b.get client (EventTxViaID txID)).2.err = none →
      unmarshal ((b.get client (EventTxViaID txID)).2.body.getD "") = Except.error d →
      (b.GetEvent client unmarshal empty txID).2 =
        (empty, some (wrapf "fail to unmarshal result to event:" d))) ∧
    (∀ g : Error,
      Error.fundamental ("no events for hash id:" ++ txID) ≠ wrapf "fail to get event: " g ∧
      Error.fundamental ("no events for hash id:" ++ txID) ≠
        wrapf "fail to unmarshal result to event:" g ∧
      errorMessage (Error.fundamental ("no events for hash id:" ++ txID)) ≠
        errorMessage (wrapf "fail to get event: " g) ∧
      errorMessage (Error.fundamental ("no events for hash id:" ++ txID)) ≠
        errorMessage (wrapf "fail to unmarshal result to event:" g)) := by
  refine ⟨?_, ?_, ?_, ?_, ?_⟩
  · intro e es hg hu
    simp only [ThorchainBridge.GetEvent, hg, hu]
  · intro hg hu
    simp only [ThorchainBridge.GetEvent, hg, hu]
  · intro g hg
    simp only [ThorchainBridge.GetEvent, hg]
  · intro d hg hu
    simp only [ThorchainBridge.GetEvent, hg, hu]
  · intro g
    refine ⟨fun h => (by cases h), fun h => (by cases h), ?_, ?_⟩
    · exact append_ne_of_head 'n' 'f' _ _ _ _ rfl rfl (by decide)
    · exact append_ne_of_head 'n' 'f' _ _ _ _ rfl rfl (by decide)

/-- A chain that answers the event query with two events gives the first one;
a chain that answers with an empty list gives the error of the empty list. -/
theorem C28_witness :
    (sampleBridge.GetEvent (fixedClient (respond 200 "[1,2]")) eventDecoder "" "ABCD").2 =
      ("1", none) ∧
    (sampleBridge.GetEvent (fixedClient (respond 200 "[]")) eventDecoder "" "ABCD").2 =
      ("", some (Error.fundamental ("no events for hash id:" ++ "ABCD"))) :=
  ⟨(C28_no_events_is_its_own_error sampleBridge (fixedClient (respond 200 "[1,2]"))
      eventDecoder "" "ABCD").1 "1" ["2"] rfl rfl,
    (C28_no_events_is_its_own_error sampleBridge (fixedClient (respond 200 "[]"))
      eventDecoder "" "ABCD").2.1 rfl rfl⟩

end Thorclient

/-! ## The construction of the scanner -/

namespace Blockscanner

/-- C24: `NewCommonBlockScanner` returns an error, and so no scanner, if and
only if the host of the configuration is empty, or `url.Parse` rejects the
host with its `http` prefix, or the storage is `nil`, or the metrics are
`nil`. -/
theorem C24_constructor_error_iff (urlParse : String → Option Error)
    (cfg : BlockScannerConfiguration) (scannerStorage : Option ScannerStorage)
    (m : Option Metrics) :
    (∃ e, NewCommonBlockScanner urlParse cfg scannerStorage m = Except.error e) ↔
      (cfg.RPCHost = "" ∨
        urlParse (if "http".toList.isPrefixOf cfg.RPCHost.toList then cfg.RPCHost
          else "http://" ++ cfg.RPCHost) ≠ none ∨
        scannerStorage = none ∨ m = none) := by
  by_cases h0 : cfg.RPCHost.length = 0
  · have he : cfg.RPCHost = "" := (Thorclient.length_eq_zero_iff _).1 h0
    simp only [NewCommonBlockScanner, if_pos h0]
    exact ⟨fun _ => Or.inl he, fun _ => ⟨_, rfl⟩⟩
  · have hne : cfg.RPCHost ≠ "" := fun h => h0 ((Thorclient.length_eq_zero_iff _).2 h)
    simp only [NewCommonBlockScanner, if_neg h0]
    cases hu : urlParse (if "http".toList.isPrefixOf cfg.RPCHost.toList then cfg.RPCHost
        else "http://" ++ cfg.RPCHost) with
    | some err =>
      exact ⟨fun _ => Or.inr (Or.inl (by simp)), fun _ => ⟨_, rfl⟩⟩
    | none =>
      cases scannerStorage with
      | none => exact ⟨fun _ => Or.inr (Or.inr (Or.inl rfl)), fun _ => ⟨_, rfl⟩⟩
      | some st =>
        cases m with
        | none => exact ⟨fun _ => Or.inr (Or.inr (Or.inr rfl)), fun _ => ⟨_, rfl⟩⟩
        | some mt =>
          constructor
          · rintro ⟨e, he⟩
            cases he
          · intro h
            rcases h with h | h | h | h
            · exact absurd h hne
            · exact absurd rfl h
            · cases h
            · cases h

theorem isPrefixOf_http (h : String) : "http".toList.isPrefixOf ("http://" ++ h).toList = true := by
  have e : ("http://" ++ h).toList = 'h' :: 't' :: 't' :: 'p' :: ':' :: '/' :: '/' :: h.toList :=
    rfl
  rw [e]
  rfl

/-- C25: a scanner made by `NewCommonBlockScanner` is made for a host that is
not empty; its `rpcHost` is the host itself when the host begins with `http`,
and `http://` followed by the host otherwise, so that `rpcHost` begins with
`http` in both cases. -/
theorem C25_rpcHost_has_http_prefix (urlParse : String → Option Error)
    (cfg : BlockScannerConfiguration) (scannerStorage : Option ScannerStorage)
    (m : Option Metrics) (b : CommonBlockScanner)
    (h : NewCommonBlockScanner urlParse cfg scannerStorage m = Except.ok b) :
    cfg.RPCHost ≠ "" ∧
    ("http".toList.isPrefixOf cfg.RPCHost.toList = true → b.rpcHost = cfg.RPCHost) ∧
    ("http".toList.isPrefixOf cfg.RPCHost.toList = false →
      b.rpcHost = "http://" ++ cfg.RPCHost) ∧
    "http".toList.isPrefixOf b.rpcHost.toList = true := by
  by_cases h0 : cfg.RPCHost.length = 0
  · simp only [NewCommonBlockScanner, if_pos h0] at h
    cases h
  · have hne : cfg.RPCHost ≠ "" := fun h => h0 ((Thorclient.length_eq_zero_iff _).2 h)
    simp only [NewCommonBlockScanner, if_neg h0] at h
    cases hu : urlParse (if "http".toList.isPrefixOf cfg.RPCHost.toList then cfg.RPCHost
        else "http://" ++ cfg.RPCHost) with
    | some err =>
      rw [hu] at h
      cases h
    | none =>
      rw [hu] at h
      cases scannerStorage with
      | none => cases h
      | some st =>
        cases m with
        | none => cases h
        | some mt =>
          simp only [Except.ok.injEq] at h
          subst h
          refine ⟨hne, ?_, ?_, ?_⟩
          · intro hp
            simp only [hp, if_true]
          · intro hp
            simp only [hp, Bool.false_eq_true, if_false]
          · cases hp : "http".toList.isPrefixOf cfg.RPCHost.toList with
            | true => simp only [if_true, hp]
            | false =>
              simp only [Bool.false_eq_true, if_false]
              exact isPrefixOf_http _

/-- The scanner of the sample configuration, whose host `localhost:26657` has
no `http` prefix, is made for `http://localhost:26657`. -/
theorem C25_witness :
    (sampleCfg 0 3).RPCHost ≠ "" ∧
    ("http".toList.isPrefixOf (sampleCfg 0 3).RPCHost.toList = true →
      (sampleScanner 0 3).rpcHost = (sampleCfg 0 3).RPCHost) ∧
    ("http".toList.isPrefixOf (sampleCfg 0 3).RPCHost.toList = false →
      (sampleScanner 0 3).rpcHost = "http://" ++ (sampleCfg 0 3).RPCHost) ∧
    "http".toList.isPrefixOf (sampleScanner 0 3).rpcHost.toList = true :=
  C25_rpcHost_has_http_prefix (fun _ => none) (sampleCfg 0 3) (some (quietStorage 0 []))
    (some freshMetrics) (sampleScanner 0 3) rfl

end Blockscanner

/-! ## The height of the current block -/

namespace Blockscanner

open Thorclient (ParseUint ParseUintLoop decVal maxUint64 syntaxError rangeError)

theorem syntaxError_ne_rangeError (s : String) : syntaxError s ≠ rangeError s := by
  intro h
  simp only [syntaxError, rangeError, Error.fundamental.injEq] at h
  have h1 := congrArg String.toList h
  have e1 : ("strconv.ParseUint: parsing \"" ++ s ++ "\": invalid syntax").toList =
      ("strconv.ParseUint: parsing \"" ++ s).toList ++ "\": invalid syntax".toList := rfl
  have e2 : ("strconv.ParseUint: parsing \"" ++ s ++ "\": value out of range").toList =
      ("strconv.ParseUint: parsing \"" ++ s).toList ++ "\": value out of range".toList := rfl
  rw [e1, e2] at h1
  have h2 := List.append_cancel_left h1
  revert h2
  decide

/-- A failure of the loop of `ParseUint` is a range error with the largest
number or a syntax error with zero. -/
theorem ParseUintLoop_error (s0 : String) (cs : List Char) :
    ∀ (acc v : Nat) (e : Error), ParseUintLoop s0 cs acc = (v, some e) →
      (v = maxUint64 ∧ e = rangeError s0) ∨ (v = 0 ∧ e = syntaxError s0) := by
  induction cs with
  | nil =>
    intro acc v e h
    simp only [ParseUintLoop, Prod.mk.injEq] at h
    cases h.2
  | cons c cs ih =>
    intro acc v e h
    simp only [ParseUintLoop] at h
    split at h
    · split at h
      · simp only [Prod.mk.injEq, Option.some.injEq] at h
        exact Or.inl ⟨h.1.symm, h.2.symm⟩
      · split at h
        · simp only [Prod.mk.injEq, Option.some.injEq] at h
          exact Or.inl ⟨h.1.symm, h.2.symm⟩
        · exact ih _ _ _ h
    · simp only [Prod.mk.injEq, Option.some.injEq] at h
      exact Or.inr ⟨h.1.symm, h.2.symm⟩

/-- A success of the loop of `ParseUint` has read decimal digits only, and
returns their number, which fits in 64 bits. -/
theorem ParseUintLoop_ok (s0 : String) (cs : List Char) :
    ∀ (acc v : Nat), acc < 2 ^ 64 → ParseUintLoop s0 cs acc = (v, none) →
      (∀ c ∈ cs, '0' ≤ c ∧ c ≤ '9') ∧ v = decVal cs acc ∧ v < 2 ^ 64 := by
  induction cs with
  | nil =>
    intro acc v hacc h
    simp only [ParseUintLoop, Prod.mk.injEq, and_true] at h
    subst h
    exact ⟨fun c hc => (by cases hc), rfl, hacc⟩
  | cons c cs ih =>
    intro acc v hacc h
    simp only [ParseUintLoop] at h
    split at h
    · rename_i hdig
      split at h
      · simp only [Prod.mk.injEq] at h
        cases h.2
      · rename_i hcut
        split at h
        · simp only [Prod.mk.injEq] at h
          cases h.2
        · rename_i hover
          have hd9 : c.toNat - '0'.toNat ≤ c.toNat := Nat.sub_le _ _
          have hmod : (acc * 10 + (c.toNat - '0'.toNat)) % 2 ^ 64 < 2 ^ 64 :=
            Nat.mod_lt _ (by decide)
          obtain ⟨i1, i2, i3⟩ := ih _ v hmod h
          have hc9 : c.toNat - '0'.toNat ≤ 9 := by
            have h9 : c.toNat ≤ '9'.toNat := hdig.2
            have : '9'.toNat = 57 := rfl
            have : '0'.toNat = 48 := rfl
            omega
          have hval : (acc * 10 + (c.toNat - '0'.toNat)) % 2 ^ 64 =
              acc * 10 + (c.toNat - '0'.toNat) := by
            simp only [maxUint64] at hcut hover
            omega
          refine ⟨?_, ?_, i3⟩
          · intro x hx
            rcases List.mem_cons.1 hx with rfl | hx
            · exact hdig
            · exact i1 x hx
          · rw [i2, hval]
            rfl
    · simp only [Prod.mk.injEq] at h
      cases h.2

theorem ParseUint_digits (cs : List Char) (hne : cs ≠ [])
    (hd : ∀ c ∈ cs, '0' ≤ c ∧ c ≤ '9') (hlt : decVal cs 0 < 2 ^ 64) :
    ParseUint (String.mk cs) = (decVal cs 0, none) := by
  have hs : ¬ String.mk cs = "" := fun h => hne (congrArg String.data h)
  simp only [ParseUint, if_neg hs]
  exact Thorclient.ParseUintLoop_digits _ cs 0 hd hlt

theorem ParseUint_ok (s : String) (v : Nat) (h : ParseUint s = (v, none)) :
    s.toList ≠ [] ∧ (∀ c ∈ s.toList, '0' ≤ c ∧ c ≤ '9') ∧ v = decVal s.toList 0 ∧ v < 2 ^ 64 := by
  by_cases hs : s = ""
  · simp only [ParseUint, if_pos hs, Prod.mk.injEq] at h
    cases h.2
  · simp only [ParseUint, if_neg hs] at h
    refine ⟨fun hl => hs ?_, ParseUintLoop_ok s s.toList 0 v (by decide) h⟩
    cases s with
    | mk data =>
      have : data = [] := hl
      rw [this]

theorem ParseUint_error (s : String) (v : Nat) (e : Error) (h : ParseUint s = (v, some e)) :
    (v = maxUint64 ∧ e = rangeError s) ∨ (v = 0 ∧ e = syntaxError s) := by
  by_cases hs : s = ""
  · simp only [ParseUint, if_pos hs, Prod.mk.injEq, Option.some.injEq] at h
    exact Or.inr ⟨h.1.symm, h.2.symm⟩
  · simp only [ParseUint, if_neg hs] at h
    exact ParseUintLoop_error s s.toList 0 v e h

/-- When `ParseUint` fails, so does `ParseInt`. -/
theorem ParseIntOf_error (s0 s : String) (neg : Bool) (v : Nat) (e : Error)
    (h : ParseUint s = (v, some e)) : ∃ e1, (ParseIntOf s0 neg s).2 = some e1 := by
  rcases ParseUint_error s v e h with ⟨hv, he⟩ | ⟨hv, he⟩
  · subst hv he
    have c1 : ¬ ((some (rangeError s)).isSome = true ∧ some (rangeError s) ≠ some (rangeError s)) :=
      fun hc => hc.2 rfl
    cases neg with
    | false =>
      have c2 : false = false ∧ maxUint64 ≥ cutoff := ⟨rfl, by decide⟩
      simp only [ParseIntOf, h, if_neg c1, if_pos c2]
      exact ⟨_, rfl⟩
    | true =>
      have c2 : ¬ (true = false ∧ maxUint64 ≥ cutoff) := fun hc => by cases hc.1
      have c3 : true = true ∧ maxUint64 > cutoff := ⟨rfl, by decide⟩
      simp only [ParseIntOf, h, if_neg c1, if_neg c2, if_pos c3]
      exact ⟨_, rfl⟩
  · subst hv he
    have c1 : (some (syntaxError s)).isSome = true ∧ some (syntaxError s) ≠ some (rangeError s) :=
      ⟨rfl, fun hc => syntaxError_ne_rangeError s (Option.some.inj hc)⟩
    simp only [ParseIntOf, h, if_pos c1]
    exact ⟨_, rfl⟩

/-- When `ParseUint` reads the number `v`, `ParseInt` checks it against the
range of `int64`. -/
theorem ParseIntOf_ok (s0 s : String) (neg : Bool) (v : Nat) (h : ParseUint s = (v, none)) :
    ParseIntOf s0 neg s =
      if neg = false ∧ v ≥ cutoff then ((cutoff : Int) - 1, some (intRangeError s0))
      else if neg = true ∧ v > cutoff then (-(cutoff : Int), some (intRangeError s0))
      else (if neg then -(v : Int) else (v : Int), none) := by
  have c1 : ¬ ((none : Option Error).isSome = true ∧ (none : Option Error) ≠ some (rangeError s)) :=
    fun hc => by cases hc.1
  simp only [ParseIntOf, h, if_neg c1]

theorem digit_ne_sign (c : Char) (hc : '0' ≤ c ∧ c ≤ '9') : c ≠ '+' ∧ c ≠ '-' := by
  constructor
  · intro h
    subst h
    exact absurd hc.1 (by decide)
  · intro h
    subst h
    exact absurd hc.1 (by decide)

theorem mk_cons_ne_empty (c : Char) (t : List Char) : ¬ String.mk (c :: t) = "" :=
  fun h => List.cons_ne_nil c t (congrArg String.data h)

theorem ParseInt_cons (c : Char) (t : List Char) :
    ParseInt (String.mk (c :: t)) =
      if c = '+' then ParseIntOf (String.mk (c :: t)) false (String.mk t)
      else if c = '-' then ParseIntOf (String.mk (c :: t)) true (String.mk t)
      else ParseIntOf (String.mk (c :: t)) false (String.mk (c :: t)) := by
  have h : ParseInt (String.mk (c :: t)) =
      if String.mk (c :: t) = "" then (0, some (intSyntaxError (String.mk (c :: t))))
      else if c = '+' then ParseIntOf (String.mk (c :: t)) false (String.mk t)
      else if c = '-' then ParseIntOf (String.mk (c :: t)) true (String.mk t)
      else ParseIntOf (String.mk (c :: t)) false (String.mk (c :: t)) := rfl
  rw [h, if_neg (mk_cons_ne_empty c t)]

/-- The value of `ParseInt` on the decimal numerals of the numbers of `int64`. -/
theorem ParseInt_of_decimal (s : String) (n : Int) (hdec : IsDecimalOf s n)
    (hlo : -(cutoff : Int) ≤ n) (hhi : n < (cutoff : Int)) : ParseInt s = (n, none) := by
  obtain ⟨digits, hne, hd, hcase⟩ := hdec
  obtain ⟨c, t, rfl⟩ : ∃ c t, digits = c :: t := by
    cases digits with
    | nil => exact absurd rfl hne
    | cons c t => exact ⟨c, t, rfl⟩
  obtain ⟨hcp, hcm⟩ := digit_ne_sign c (hd c (List.mem_cons_self _ _))
  simp only [cutoff] at hlo hhi
  rcases hcase with ⟨rfl, rfl⟩ | ⟨rfl, rfl⟩ | ⟨rfl, rfl⟩
  · have hv : decVal (c :: t) 0 < 2 ^ 64 := by omega
    have hpu := ParseUint_digits (c :: t) hne hd hv
    have c1 : ¬ (false = false ∧ decVal (c :: t) 0 ≥ cutoff) := by
      simp only [cutoff]
      omega
    have c2 : ¬ (false = true ∧ decVal (c :: t) 0 > cutoff) := fun hc => by cases hc.1
    rw [ParseInt_cons, if_neg hcp, if_neg hcm, ParseIntOf_ok _ _ _ _ hpu, if_neg c1, if_neg c2]
    rfl
  · have hv : decVal (c :: t) 0 < 2 ^ 64 := by omega
    have hpu := ParseUint_digits (c :: t) hne hd hv
    have c1 : ¬ (false = false ∧ decVal (c :: t) 0 ≥ cutoff) := by
      simp only [cutoff]
      omega
    have c2 : ¬ (false = true ∧ decVal (c :: t) 0 > cutoff) := fun hc => by cases hc.1
    rw [ParseInt_cons, if_pos rfl, ParseIntOf_ok _ _ _ _ hpu, if_neg c1, if_neg c2]
    rfl
  · have hv : decVal (c :: t) 0 < 2 ^ 64 := by omega
    have hpu := ParseUint_digits (c :: t) hne hd hv
    have c1 : ¬ (true = false ∧ decVal (c :: t) 0 ≥ cutoff) := fun hc => by cases hc.1
    have c2 : ¬ (true = true ∧ decVal (c :: t) 0 > cutoff) := by
      simp only [cutoff]
      omega
    have hpm : ¬ '-' = '+' := by decide
    rw [ParseInt_cons, if_neg hpm, if_pos rfl, ParseIntOf_ok _ _ _ _ hpu, if_neg c1, if_neg c2]
    rfl

/-- What `ParseInt` accepts is a decimal numeral of a number of `int64`, and
that number is what it returns. -/
theorem ParseInt_accepts (s : String) (n : Int) (h : ParseInt s = (n, none)) :
    IsDecimalOf s n ∧ -(cutoff : Int) ≤ n ∧ n < (cutoff : Int) := by
  by_cases hs : s = ""
  · simp only [ParseInt, if_pos hs, Prod.mk.injEq] at h
    cases h.2
  · have key : ∀ (neg : Bool) (s1 : String), ParseIntOf s neg s1 = (n, none) →
        ∃ v : Nat, s1.toList ≠ [] ∧ (∀ c ∈ s1.toList, '0' ≤ c ∧ c ≤ '9') ∧
          v = decVal s1.toList 0 ∧ n = (if neg then -(v : Int) else (v : Int)) ∧
          -(cutoff : Int) ≤ n ∧ n < (cutoff : Int) := by
      intro neg s1 h1
      cases hr : ParseUint s1 with
      | mk v o =>
        cases o with
        | some e =>
          obtain ⟨e1, he1⟩ := ParseIntOf_error s s1 neg v e hr
          rw [h1] at he1
          cases he1
        | none =>
          obtain ⟨g1, g2, g3, _⟩ := ParseUint_ok s1 v hr
          rw [ParseIntOf_ok _ _ _ _ hr] at h1
          split at h1
          · simp only [Prod.mk.injEq] at h1
            cases h1.2
          · rename_i c1
            split at h1
            · simp only [Prod.mk.injEq] at h1
              cases h1.2
            · rename_i c2
              simp only [Prod.mk.injEq, and_true] at h1
              refine ⟨v, g1, g2, g3, h1.symm, ?_⟩
              simp only [cutoff] at c1 c2 ⊢
              cases neg with
              | false =>
                simp only [Bool.false_eq_true, if_false] at h1
                simp only [true_and, not_le, ge_iff_le] at c1
                omega
              | true =>
                simp only [if_true] at h1
                simp only [true_and, not_lt, gt_iff_lt] at c2
                omega
    cases hl : s.toList with
    | nil =>
      exfalso
      apply hs
      cases s with
      | mk data =>
        have : data = [] := hl
        rw [this]
    | cons c t =>
      have hmk : s = String.mk (c :: t) := by
        cases s with
        | mk data =>
          have : data = c :: t := hl
          rw [this]
      rw [hmk, ParseInt_cons, ← hmk] at h
      by_cases hp : c = '+'
      · rw [if_pos hp] at h
        obtain ⟨v, g1, g2, g3, g4, g5, g6⟩ := key false (String.mk t) h
        simp only [Bool.false_eq_true, if_false] at g4
        refine ⟨⟨t, g1, g2, Or.inr (Or.inl ⟨?_, ?_⟩)⟩, g5, g6⟩
        · rw [hmk, hp]
        · rw [g4, g3]
          rfl
      · rw [if_neg hp] at h
        by_cases hm : c = '-'
        · rw [if_pos hm] at h
          obtain ⟨v, g1, g2, g3, g4, g5, g6⟩ := key true (String.mk t) h
          simp only [if_true] at g4
          refine ⟨⟨t, g1, g2, Or.inr (Or.inr ⟨?_, ?_⟩)⟩, g5, g6⟩
          · rw [hmk, hm]
          · rw [g4, g3]
            rfl
        · rw [if_neg hm] at h
          obtain ⟨v, g1, g2, g3, g4, g5, g6⟩ := key false s h
          simp only [Bool.false_eq_true, if_false] at g4
          refine ⟨⟨s.toList, g1, g2, Or.inl ⟨?_, ?_⟩⟩, g5, g6⟩
          · rfl
          · rw [g4, g3]

/-- The text `toString n` is a decimal numeral of `n`. -/
theorem isDecimalOf_toString (n : Int) : IsDecimalOf (toString n) n := by
  cases n with
  | ofNat a =>
    obtain ⟨h1, h2, h3⟩ :=
      Thorclient.toDigitsCore_digits (a + 1) a [] (Nat.lt_succ_self a) (by simp)
    have hs : toString (Int.ofNat a) = String.mk (Nat.toDigitsCore 10 (a + 1) a []) := rfl
    have hv : decVal (Nat.toDigitsCore 10 (a + 1) a []) 0 = a := h2
    refine ⟨_, h3, h1, Or.inl ⟨hs, ?_⟩⟩
    rw [hv]
    rfl
  | negSucc a =>
    obtain ⟨h1, h2, h3⟩ :=
      Thorclient.toDigitsCore_digits (a + 1 + 1) (a + 1) [] (Nat.lt_succ_self _) (by simp)
    have hs : toString (Int.negSucc a) =
        String.mk ('-' :: Nat.toDigitsCore 10 (a + 1 + 1) (a + 1) []) := rfl
    have hv : decVal (Nat.toDigitsCore 10 (a + 1 + 1) (a + 1) []) 0 = a + 1 := h2
    refine ⟨_, h3, h1, Or.inr (Or.inr ⟨hs, ?_⟩)⟩
    rw [hv]
    rfl

theorem GetFromHttpWithRetry_first (net : HttpEnv) (url : String) (b : CommonBlockScanner)
    (h : (getFromHttp url (net.exchange 0) b).2.2 = none) :
    (GetFromHttpWithRetry net url b).result =
      ((getFromHttp url (net.exchange 0) b).2.1, none) := by
  unfold GetFromHttpWithRetry
  rw [GetFromHttpWithRetryLoop]
  simp only [h]

theorem not_isDecimalOf_empty (n : Int) : ¬ IsDecimalOf "" n := by
  rintro ⟨digits, hne, _, h | h | h⟩
  · exact hne (congrArg String.data h.1).symm
  · exact List.cons_ne_nil _ _ (congrArg String.data h.1).symm
  · exact List.cons_ne_nil _ _ (congrArg String.data h.1).symm

/-- C27: `getRPCBlock`, with the library's `strconv.ParseInt`, returns `n` and
no error when the retried `GET` gives a body whose height field is a decimal
numeral of a number `n` of `int64`, such as the text `toString n`.  It
returns 0 and an error that wraps the failure when the retried `GET` fails
(the error of `GetFromHttpWithRetry` under `fail to get blocks`), when the
body cannot be decoded (the error of the decoder under
`fail to unmarshal body to RPCBlock`), and when the height field is not a
decimal numeral of a number of `int64` (the error of `ParseInt` under
`fail to convert block height to int`); a missing height field is the empty
text, which is no numeral. -/
theorem C27_height_parsed_or_failure_wrapped (u : Bytes → Except Error String) (net : HttpEnv)
    (requestUrl : String) (b : CommonBlockScanner) :
    (∀ (s : String) (n : Int), (GetFromHttpWithRetry net requestUrl b).result.2 = none →
      u ((GetFromHttpWithRetry net requestUrl b).result.1.getD []) = Except.ok s →
      IsDecimalOf s n → -9223372036854775808 ≤ n → n ≤ 9223372036854775807 →
      (getRPCBlock (goDecoder u) net requestUrl b).2 = (n, none)) ∧
    (∀ e, (GetFromHttpWithRetry net requestUrl b).result.2 = some e →
      (getRPCBlock (goDecoder u) net requestUrl b).2 =
        (0, some (Error.Wrap e "fail to get blocks"))) ∧
    (∀ e, (GetFromHttpWithRetry net requestUrl b).result.2 = none →
      u ((GetFromHttpWithRetry net requestUrl b).result.1.getD []) = Except.error e →
      (getRPCBlock (goDecoder u) net requestUrl b).2 =
        (0, some (Error.Wrap e "fail to unmarshal body to RPCBlock"))) ∧
    (∀ s, (GetFromHttpWithRetry net requestUrl b).result.2 = none →
      u ((GetFromHttpWithRetry net requestUrl b).result.1.getD []) = Except.ok s →
      (¬ ∃ n : Int, IsDecimalOf s n ∧ -9223372036854775808 ≤ n ∧ n ≤ 9223372036854775807) →
      ∃ e, (ParseInt s).2 = some e ∧
        (getRPCBlock (goDecoder u) net requestUrl b).2 =
          (0, some (Error.Wrap e "fail to convert block height to int"))) ∧
    (∀ n : Int, ¬ IsDecimalOf "" n) ∧
    (∀ n : Int, IsDecimalOf (toString n) n) := by
  refine ⟨?_, ?_, ?_, ?_, not_isDecimalOf_empty, isDecimalOf_toString⟩
  · intro s n hres hu hdec hlo hhi
    have hp : ParseInt s = (n, none) :=
      ParseInt_of_decimal s n hdec (by simp only [cutoff]; omega) (by simp only [cutoff]; omega)
    simp only [getRPCBlock, goDecoder, hres, hu, hp]
  · intro e hres
    simp only [getRPCBlock, hres]
  · intro e hres hu
    simp only [getRPCBlock, goDecoder, hres, hu]
  · intro s hres hu hnot
    cases hr : ParseInt s with
    | mk v o =>
      cases o with
      | none =>
        exfalso
        obtain ⟨g1, g2, g3⟩ := ParseInt_accepts s v hr
        simp only [cutoff] at g2 g3
        exact hnot ⟨v, g1, by omega, by omega⟩
      | some e =>
        refine ⟨e, rfl, ?_⟩
        simp only [getRPCBlock, goDecoder, hres, hu, hr]

theorem upNet_result (body : Bytes) (url : String) (b : CommonBlockScanner) :
    (GetFromHttpWithRetry (upNet body) url b).result = (some body, none) :=
  GetFromHttpWithRetry_first (upNet body) url b rfl

set_option maxRecDepth 100000 in
/-- A chain that answers with height `42` gives 42; a chain that answers
with the height `abc` gives 0 and the wrapped syntax error; a chain that
answers every `GET` with status 500 gives 0 and the wrapped error of the
retried `GET`. -/
theorem C27_witness :
    (getRPCBlock (goDecoder blockDecoder) (upNet (blockBody "42"))
      "http://localhost:26657/block" (sampleScanner 0 3)).2 = (42, none) ∧
    (∃ e, (ParseInt "abc").2 = some e ∧
      (getRPCBlock (goDecoder blockDecoder) (upNet (blockBody "abc"))
        "http://localhost:26657/block" (sampleScanner 0 3)).2 =
          (0, some (Error.Wrap e "fail to convert block height to int"))) ∧
    (getRPCBlock (goDecoder blockDecoder) downNet "http://localhost:26657/block"
      (sampleScanner 0 3)).2 =
        (0, some (Error.Wrap (Error.New ("fail to get from " ++ "http://localhost:26657/block" ++
          " after maximum retry(" ++ toString (3 : Int) ++ ")")) "fail to get blocks")) :=
  ⟨(C27_height_parsed_or_failure_wrapped blockDecoder (upNet (blockBody "42"))
      "http://localhost:26657/block" (sampleScanner 0 3)).1 "42" 42
      (by rw [upNet_result]) (by rw [upNet_result]; rfl) (isDecimalOf_toString 42)
      (by decide) (by decide),
    (C27_height_parsed_or_failure_wrapped blockDecoder (upNet (blockBody "abc"))
      "http://localhost:26657/block" (sampleScanner 0 3)).2.2.2.1 "abc"
      (by rw [upNet_result]) (by rw [upNet_result]; rfl)
      (fun ⟨n, hd, hlo, hhi⟩ => by
        have hp := ParseInt_of_decimal "abc" n hd (by simp only [cutoff]; omega)
          (by simp only [cutoff]; omega)
        have h2 : (ParseInt "abc").2 = some (intSyntaxError "abc") := by decide
        rw [hp] at h2
        cases h2),
    (C27_height_parsed_or_failure_wrapped blockDecoder downNet
      "http://localhost:26657/block" (sampleScanner 0 3)).2.1 _
      (congrArg Prod.snd (GetFromHttpWithRetry_allFail downNet "http://localhost:26657/block"
        (sampleScanner 0 3) (downNet_allFail _) downNet_noBackoffStop (fun _ => rfl)).2)⟩

end Blockscanner

/-! ## The delivery queue -/

namespace Blockscanner

theorem setTodo_capacity (d : Delivery) (p : Producer) (l : List Int) :
    (d.setTodo p l).capacity = d.capacity := by
  cases p <;> rfl

theorem setTodo_queue (d : Delivery) (p : Producer) (l : List Int) :
    (d.setTodo p l).queue = d.queue := by
  cases p <;> rfl

theorem setTodo_stopped (d : Delivery) (p : Producer) (l : List Int) :
    (d.setTodo p l).stopped = d.stopped := by
  cases p <;> rfl

theorem step_capacity (d : Delivery) (a : Action) : (d.step a).capacity = d.capacity := by
  cases a with
  | select p c =>
    simp only [Delivery.step]
    split
    · rfl
    · split
      · split
        · exact setTodo_capacity _ _ _
        · exact setTodo_capacity _ _ _
      · split
        · exact setTodo_capacity _ _ _
        · rfl
  | handoff p =>
    simp only [Delivery.step]
    split
    · rfl
    · split
      · exact setTodo_capacity _ _ _
      · rfl
  | receive =>
    simp only [Delivery.step]
    split <;> rfl
  | stop => rfl

theorem step_queue_le (d : Delivery) (a : Action) (h : d.queue.length ≤ d.capacity) :
    (d.step a).queue.length ≤ d.capacity := by
  cases a with
  | select p c =>
    simp only [Delivery.step]
    split
    · exact h
    · split
      · rename_i hroom
        split
        · rw [setTodo_queue]
          exact h
        · simp only [List.length_append, setTodo_queue, List.length_singleton]
          omega
      · split
        · rw [setTodo_queue]
          exact h
        · exact h
  | handoff p =>
    simp only [Delivery.step]
    split
    · exact h
    · split
      · simp only [setTodo_queue]
        exact h
      · exact h
  | receive =>
    simp only [Delivery.step]
    split
    · exact h
    · rename_i hq
      rw [hq] at h
      simp only [List.length_cons] at h ⊢
      omega
  | stop => exact h

theorem run_queue_le (schedule : List Action) : ∀ d : Delivery, d.queue.length ≤ d.capacity →
    (d.run schedule).queue.length ≤ d.capacity ∧ (d.run schedule).capacity = d.capacity := by
  induction schedule with
  | nil => intro d h; exact ⟨h, rfl⟩
  | cons a rest ih =>
    intro d h
    have h1 : (d.step a).queue.length ≤ (d.step a).capacity := by
      rw [step_capacity]
      exact step_queue_le d a h
    obtain ⟨i1, i2⟩ := ih (d.step a) h1
    rw [step_capacity] at i1 i2
    exact ⟨i1, i2⟩

/-- A height sent into the buffer or handed to a consumer by one of the two
tasks keeps the heights delivered equal to the heights sent. -/
theorem perm_sent (r q a b : List Int) (h : Int) (hp : (r ++ q).Perm (a ++ b)) :
    (r ++ (q ++ [h])).Perm ((a ++ [h]) ++ b) ∧ (r ++ (q ++ [h])).Perm (a ++ (b ++ [h])) ∧
    ((r ++ [h]) ++ q).Perm ((a ++ [h]) ++ b) ∧ ((r ++ [h]) ++ q).Perm (a ++ (b ++ [h])) := by
  rw [List.perm_iff_count] at hp
  refine ⟨?_, ?_, ?_, ?_⟩ <;>
  · rw [List.perm_iff_count]
    intro x
    have := hp x
    simp only [List.count_append] at this ⊢
    omega

/-- A step that leaves `stopChan` open drops no height. -/
theorem step_nothingDropped (d : Delivery) (a : Action) (S R : List Int)
    (hinv : d.stopped = false → d.NothingDropped S R) :
    (d.step a).stopped = false → (d.step a).NothingDropped S R := by
  cases a with
  | select p c =>
    simp only [Delivery.step]
    split
    · exact hinv
    · rename_i h rest htodo
      split
      · split
        · rename_i hroom hstop
          intro hs
          rw [setTodo_stopped] at hs
          rw [hs] at hstop
          cases hstop
        · intro hs
          have hs0 : d.stopped = false := by
            cases p <;> exact hs
          obtain ⟨sS, sR, e1, e2, e3⟩ := hinv hs0
          obtain ⟨p1, p2, _, _⟩ := perm_sent d.received d.queue sS sR h e3
          cases p with
          | scanLoop =>
            have ht : d.scanTodo = h :: rest := htodo
            exact ⟨sS ++ [h], sR, by rw [e1, ht]; simp [Delivery.setTodo], e2, p1⟩
          | retryLoop =>
            have ht : d.retryTodo = h :: rest := htodo
            exact ⟨sS, sR ++ [h], e1, by rw [e2, ht]; simp [Delivery.setTodo], p2⟩
      · split
        · rename_i hstop
          intro hs
          rw [setTodo_stopped] at hs
          rw [hs] at hstop
          cases hstop
        · exact hinv
  | handoff p =>
    simp only [Delivery.step]
    split
    · exact hinv
    · rename_i h rest htodo
      split
      · intro hs
        have hs0 : d.stopped = false := by
          cases p <;> exact hs
        obtain ⟨sS, sR, e1, e2, e3⟩ := hinv hs0
        obtain ⟨_, _, p3, p4⟩ := perm_sent d.received d.queue sS sR h e3
        cases p with
        | scanLoop =>
          have ht : d.scanTodo = h :: rest := htodo
          exact ⟨sS ++ [h], sR, by rw [e1, ht]; simp [Delivery.setTodo], e2, p3⟩
        | retryLoop =>
          have ht : d.retryTodo = h :: rest := htodo
          exact ⟨sS, sR ++ [h], e1, by rw [e2, ht]; simp [Delivery.setTodo], p4⟩
      · exact hinv
  | receive =>
    simp only [Delivery.step]
    split
    · exact hinv
    · rename_i h rest hq
      intro hs
      obtain ⟨sS, sR, e1, e2, e3⟩ := hinv hs
      refine ⟨sS, sR, e1, e2, ?_⟩
      rw [hq] at e3
      simpa using e3
  | stop =>
    intro hs
    cases hs

theorem run_nothingDropped (schedule : List Action) (S R : List Int) : ∀ d : Delivery,
    (d.stopped = false → d.NothingDropped S R) →
    (d.run schedule).stopped = false → (d.run schedule).NothingDropped S R := by
  induction schedule with
  | nil => intro d h; exact h
  | cons a rest ih =>
    intro d h
    exact ih (d.step a) (step_nothingDropped d a S R h)

/-- C30: in every state the two tasks of a scanner, the consumers and `Stop`
can bring about, whatever the schedule and whatever heights the tasks have to
offer, the buffer of `scanChan` holds at most `cfg.BlockScanProcessors`
heights.  A task scheduled at its `select` while the buffer is full and
`stopChan` is open changes nothing: it waits; while the buffer has room it
sends the height it offers, whichever case the runtime prefers.  As long as
`stopChan` is open no height is dropped: the heights each task has moved past
are, with their multiplicity, the heights received and the heights in the
buffer. -/
theorem C30_queue_bounded_and_producers_wait (b : CommonBlockScanner)
    (scanTodo retryTodo : List Int) (schedule : List Action)
    (hcap : 0 ≤ b.cfg.BlockScanProcessors) :
    (((delivery b scanTodo retryTodo).run schedule).queue.length : Int) ≤
      b.cfg.BlockScanProcessors ∧
    (∀ p c, ((delivery b scanTodo retryTodo).run schedule).queue.length =
        ((delivery b scanTodo retryTodo).run schedule).capacity →
      ((delivery b scanTodo retryTodo).run schedule).stopped = false →
      ((delivery b scanTodo retryTodo).run schedule).step (Action.select p c) =
        (delivery b scanTodo retryTodo).run schedule) ∧
    (∀ p c h rest, ((delivery b scanTodo retryTodo).run schedule).queue.length <
        ((delivery b scanTodo retryTodo).run schedule).capacity →
      ((delivery b scanTodo retryTodo).run schedule).stopped = false →
      ((delivery b scanTodo retryTodo).run schedule).todo p = h :: rest →
      (((delivery b scanTodo retryTodo).run schedule).step (Action.select p c)).queue =
        ((delivery b scanTodo retryTodo).run schedule).queue ++ [h] ∧
      (((delivery b scanTodo retryTodo).run schedule).step (Action.select p c)).todo p = rest) ∧
    (((delivery b scanTodo retryTodo).run schedule).stopped = false →
      ((delivery b scanTodo retryTodo).run schedule).NothingDropped scanTodo retryTodo) := by
  refine ⟨?_, ?_, ?_, ?_⟩
  · obtain ⟨h1, _⟩ := run_queue_le schedule (delivery b scanTodo retryTodo) (Nat.zero_le _)
    have h2 : ((delivery b scanTodo retryTodo).capacity : Int) = b.cfg.BlockScanProcessors :=
      Int.toNat_of_nonneg hcap
    omega
  · intro p c hfull hs
    have hnot : ¬ ((delivery b scanTodo retryTodo).run schedule).queue.length <
        ((delivery b scanTodo retryTodo).run schedule).capacity := by omega
    simp only [Delivery.step, if_neg hnot, hs, Bool.false_eq_true, if_false]
    split <;> rfl
  · intro p c h rest hroom hs htodo
    have hstep : ((delivery b scanTodo retryTodo).run schedule).step (Action.select p c) =
        { ((delivery b scanTodo retryTodo).run schedule).setTodo p rest with
          queue := ((delivery b scanTodo retryTodo).run schedule).queue ++ [h] } := by
      simp only [Delivery.step, htodo, if_pos hroom, hs, Bool.false_and, Bool.false_eq_true,
        if_false]
    rw [hstep]
    cases p <;> exact ⟨rfl, rfl⟩
  · exact run_nothingDropped schedule scanTodo retryTodo _
      (fun _ => ⟨[], [], rfl, rfl, List.Perm.refl _⟩)

/-- A scanner with two slots whose scan loop offers the heights 1, 2, 3 and
whose retry loop offers height 7: after the sample schedule the buffer holds 3
and 7, the heights 1 and 2 have been received, and nothing is left to offer. -/
theorem C30_witness :
    ((((delivery (sampleScanner 0 3) [1, 2, 3] [7]).run sampleSchedule).queue.length : Int) ≤
      (sampleScanner 0 3).cfg.BlockScanProcessors) ∧
    ((delivery (sampleScanner 0 3) [1, 2, 3] [7]).run sampleSchedule).NothingDropped [1, 2, 3] [7] ∧
    ((delivery (sampleScanner 0 3) [1, 2, 3] [7]).run sampleSchedule).queue = [3, 7] ∧
    ((delivery (sampleScanner 0 3) [1, 2, 3] [7]).run sampleSchedule).received = [1, 2] ∧
    ((delivery (sampleScanner 0 3) [1, 2, 3] [7]).run (sampleSchedule.take 2)).step
      (Action.select Producer.scanLoop false) =
        (delivery (sampleScanner 0 3) [1, 2, 3] [7]).run (sampleSchedule.take 2) :=
  ⟨(C30_queue_bounded_and_producers_wait (sampleScanner 0 3) [1, 2, 3] [7] sampleSchedule
      (by decide)).1,
    (C30_queue_bounded_and_producers_wait (sampleScanner 0 3) [1, 2, 3] [7] sampleSchedule
      (by decide)).2.2.2 (by decide),
    by decide, by decide,
    (C30_queue_bounded_and_producers_wait (sampleScanner 0 3) [1, 2, 3] [7]
      (sampleSchedule.take 2) (by decide)).2.1 Producer.scanLoop false (by decide) (by decide)⟩

end Blockscanner

/-! ## Concurrent submissions -/

namespace Thorclient

theorem seqAfter_eq (s0 : Nat) : ∀ k, s0 + k < 2 ^ 64 → seqAfter s0 k = s0 + k := by
  intro k
  induction k with
  | zero => intro _; rfl
  | succ k ih =>
    intro h
    have := ih (by omega)
    simp only [seqAfter, this]
    omega

theorem concurrent_inv (b : ThorchainBridge) : (concurrent b).Inv b.seqNumber where
  excl := fun i h => by cases h
  free := fun _ => rfl
  atLocked := fun i h => by cases h
  atRead := fun i s h => by cases h
  atAdvanced := fun i s h => by cases h
  atSent := fun i s h => by cases h
  values := rfl
  mem := fun i s => ⟨fun h => (by cases h), fun h => (by rcases h with h | h <;> cases h)⟩
  once := List.nodup_nil

theorem calls_ne (st : Shared) (i j : Nat) (c : Submission) (hji : j ≠ i) :
    (st.setCall i c).calls j = st.calls j := by
  simp only [Shared.setCall, if_neg hji]

theorem calls_same (st : Shared) (i : Nat) (c : Submission) : (st.setCall i c).calls i = c := by
  simp only [Shared.setCall, if_true]

/-- While a call is between `Lock` and `Unlock`, no other call is. -/
theorem Shared.Inv.alone {s0 : Nat} {st : Shared} (h : st.Inv s0) (i j : Nat)
    (hi : (st.calls i).holding = true) (hj : (st.calls j).holding = true) : j = i := by
  have h1 := h.excl i hi
  have h2 := h.excl j hj
  rw [h1] at h2
  exact (Option.some.inj h2).symm

/-- A call that has not posted is not in the list of the posts. -/
theorem Shared.Inv.not_posted {s0 : Nat} {st : Shared} (h : st.Inv s0) (i : Nat)
    (hi : ∀ s, st.calls i ≠ Submission.sent s ∧ st.calls i ≠ Submission.done s) :
    ∀ s, (i, s) ∉ st.posted := by
  intro s hm
  rcases (h.mem i s).1 hm with h1 | h1
  · exact (hi s).1 h1
  · exact (hi s).2 h1

/-- The step `Lock` of a call that finds the lock free. -/
theorem acquire_inv (s0 : Nat) (st : Shared) (i : Nat) (h : st.Inv s0)
    (hc : st.calls i = Submission.waiting) (hl : st.lock = none) :
    Shared.Inv s0 { st.setCall i Submission.locked with lock := some i } where
  excl := by
    intro j hj
    by_cases hji : j = i
    · rw [hji]
    · have hj1 : ((st.setCall i Submission.locked).calls j).holding = true := hj
      rw [calls_ne _ _ _ _ hji] at hj1
      have := h.excl j hj1
      rw [hl] at this
      cases this
  free := by
    intro hf
    cases hf
  atLocked := fun _ _ => h.free hl
  atRead := by
    intro j s hj
    have hj1 : (st.setCall i Submission.locked).calls j = Submission.read s := hj
    by_cases hji : j = i
    · rw [hji, calls_same] at hj1
      cases hj1
    · rw [calls_ne _ _ _ _ hji] at hj1
      exact h.atRead j s hj1
  atAdvanced := by
    intro j s hj
    have hj1 : (st.setCall i Submission.locked).calls j = Submission.advanced s := hj
    by_cases hji : j = i
    · rw [hji, calls_same] at hj1
      cases hj1
    · rw [calls_ne _ _ _ _ hji] at hj1
      exact h.atAdvanced j s hj1
  atSent := by
    intro j s hj
    have hj1 : (st.setCall i Submission.locked).calls j = Submission.sent s := hj
    by_cases hji : j = i
    · rw [hji, calls_same] at hj1
      cases hj1
    · rw [calls_ne _ _ _ _ hji] at hj1
      exact h.atSent j s hj1
  values := h.values
  mem := by
    intro j s
    show (j, s) ∈ st.posted ↔ ((st.setCall i Submission.locked).calls j = Submission.sent s ∨
      (st.setCall i Submission.locked).calls j = Submission.done s)
    by_cases hji : j = i
    · rw [hji, calls_same]
      have hn := h.not_posted i (fun s => by
        rw [hc]
        exact ⟨fun e => (by cases e), fun e => (by cases e)⟩) s
      exact ⟨fun hm => absurd hm hn, fun hm => (by rcases hm with e | e <;> cases e)⟩
    · rw [calls_ne _ _ _ _ hji]
      exact h.mem j s
  once := h.once

/-- The read of the sequence by a call that holds the lock. -/
theorem read_inv (s0 : Nat) (st : Shared) (i : Nat) (h : st.Inv s0)
    (hc : st.calls i = Submission.locked) :
    Shared.Inv s0 (st.setCall i (Submission.read st.b.seqNumber)) where
  excl := by
    intro j hj
    by_cases hji : j = i
    · rw [hji]
      exact h.excl i (by rw [hc]; rfl)
    · rw [calls_ne _ _ _ _ hji] at hj
      exact h.excl j hj
  free := h.free
  atLocked := by
    intro j _
    exact h.atLocked i hc
  atRead := by
    intro j s hj
    by_cases hji : j = i
    · rw [hji, calls_same] at hj
      have e : st.b.seqNumber = s := by
        cases hj
        rfl
      rw [← e]
      exact ⟨h.atLocked i hc, h.atLocked i hc⟩
    · rw [calls_ne _ _ _ _ hji] at hj
      exact h.atRead j s hj
  atAdvanced := by
    intro j s hj
    by_cases hji : j = i
    · rw [hji, calls_same] at hj
      cases hj
    · rw [calls_ne _ _ _ _ hji] at hj
      exact h.atAdvanced j s hj
  atSent := by
    intro j s hj
    by_cases hji : j = i
    · rw [hji, calls_same] at hj
      cases hj
    · rw [calls_ne _ _ _ _ hji] at hj
      exact h.atSent j s hj
  values := h.values
  mem := by
    intro j s
    show (j, s) ∈ st.posted ↔ _
    by_cases hji : j = i
    · rw [hji, calls_same]
      have hn := h.not_posted i (fun s => by
        rw [hc]
        exact ⟨fun e => (by cases e), fun e => (by cases e)⟩) s
      exact ⟨fun hm => absurd hm hn, fun hm => (by rcases hm with e | e <;> cases e)⟩
    · rw [calls_ne _ _ _ _ hji]
      exact h.mem j s
  once := h.once

/-- The increment of the sequence by a call that has read it. -/
theorem advance_inv (s0 : Nat) (st : Shared) (i s : Nat) (h : st.Inv s0)
    (hc : st.calls i = Submission.read s) :
    Shared.Inv s0 { st.setCall i (Submission.advanced s) with
      b := { st.b with seqNumber := (st.b.seqNumber + 1) % 2 ^ 64 } } where
  excl := by
    intro j hj
    have hj1 : ((st.setCall i (Submission.advanced s)).calls j).holding = true := hj
    by_cases hji : j = i
    · rw [hji]
      exact h.excl i (by rw [hc]; rfl)
    · rw [calls_ne _ _ _ _ hji] at hj1
      exact h.excl j hj1
  free := by
    intro hf
    have := h.excl i (by rw [hc]; rfl)
    have hf1 : st.lock = none := hf
    rw [hf1] at this
    cases this
  atLocked := by
    intro j hj
    have hj1 : (st.setCall i (Submission.advanced s)).calls j = Submission.locked := hj
    by_cases hji : j = i
    · rw [hji, calls_same] at hj1
      cases hj1
    · rw [calls_ne _ _ _ _ hji] at hj1
      exact absurd (h.alone i j (by rw [hc]; rfl) (by rw [hj1]; rfl)) hji
  atRead := by
    intro j s1 hj
    have hj1 : (st.setCall i (Submission.advanced s)).calls j = Submission.read s1 := hj
    by_cases hji : j = i
    · rw [hji, calls_same] at hj1
      cases hj1
    · rw [calls_ne _ _ _ _ hji] at hj1
      exact absurd (h.alone i j (by rw [hc]; rfl) (by rw [hj1]; rfl)) hji
  atAdvanced := by
    intro j s1 hj
    have hj1 : (st.setCall i (Submission.advanced s)).calls j = Submission.advanced s1 := hj
    by_cases hji : j = i
    · rw [hji, calls_same] at hj1
      have e : s = s1 := by
        cases hj1
        rfl
      obtain ⟨r1, r2⟩ := h.atRead i s hc
      refine ⟨by rw [← e]; exact r1, ?_⟩
      show (st.b.seqNumber + 1) % 2 ^ 64 = seqAfter s0 (st.posted.length + 1)
      rw [r2]
      rfl
    · rw [calls_ne _ _ _ _ hji] at hj1
      exact absurd (h.alone i j (by rw [hc]; rfl) (by rw [hj1]; rfl)) hji
  atSent := by
    intro j s1 hj
    have hj1 : (st.setCall i (Submission.advanced s)).calls j = Submission.sent s1 := hj
    by_cases hji : j = i
    · rw [hji, calls_same] at hj1
      cases hj1
    · rw [calls_ne _ _ _ _ hji] at hj1
      exact absurd (h.alone i j (by rw [hc]; rfl) (by rw [hj1]; rfl)) hji
  values := h.values
  mem := by
    intro j s1
    show (j, s1) ∈ st.posted ↔
      ((st.setCall i (Submission.advanced s)).calls j = Submission.sent s1 ∨
        (st.setCall i (Submission.advanced s)).calls j = Submission.done s1)
    by_cases hji : j = i
    · rw [hji, calls_same]
      have hn := h.not_posted i (fun s => by
        rw [hc]
        exact ⟨fun e => (by cases e), fun e => (by cases e)⟩) s1
      exact ⟨fun hm => absurd hm hn, fun hm => (by rcases hm with e | e <;> cases e)⟩
    · rw [calls_ne _ _ _ _ hji]
      exact h.mem j s1
  once := h.once

/-- The post of the transaction by a call that has incremented the sequence. -/
theorem post_inv (s0 : Nat) (st : Shared) (i s : Nat) (h : st.Inv s0)
    (hc : st.calls i = Submission.advanced s) :
    Shared.Inv s0 { st.setCall i (Submission.sent s) with posted := st.posted ++ [(i, s)] } where
  excl := by
    intro j hj
    have hj1 : ((st.setCall i (Submission.sent s)).calls j).holding = true := hj
    by_cases hji : j = i
    · rw [hji]
      exact h.excl i (by rw [hc]; rfl)
    · rw [calls_ne _ _ _ _ hji] at hj1
      exact h.excl j hj1
  free := by
    intro hf
    have := h.excl i (by rw [hc]; rfl)
    have hf1 : st.lock = none := hf
    rw [hf1] at this
    cases this
  atLocked := by
    intro j hj
    have hj1 : (st.setCall i (Submission.sent s)).calls j = Submission.locked := hj
    by_cases hji : j = i
    · rw [hji, calls_same] at hj1
      cases hj1
    · rw [calls_ne _ _ _ _ hji] at hj1
      exact absurd (h.alone i j (by rw [hc]; rfl) (by rw [hj1]; rfl)) hji
  atRead := by
    intro j s1 hj
    have hj1 : (st.setCall i (Submission.sent s)).calls j = Submission.read s1 := hj
    by_cases hji : j = i
    · rw [hji, calls_same] at hj1
      cases hj1
    · rw [calls_ne _ _ _ _ hji] at hj1
      exact absurd (h.alone i j (by rw [hc]; rfl) (by rw [hj1]; rfl)) hji
  atAdvanced := by
    intro j s1 hj
    have hj1 : (st.setCall i (Submission.sent s)).calls j = Submission.advanced s1 := hj
    by_cases hji : j = i
    · rw [hji, calls_same] at hj1
      cases hj1
    · rw [calls_ne _ _ _ _ hji] at hj1
      exact absurd (h.alone i j (by rw [hc]; rfl) (by rw [hj1]; rfl)) hji
  atSent := by
    intro j s1 hj
    have hj1 : (st.setCall i (Submission.sent s)).calls j = Submission.sent s1 := hj
    by_cases hji : j = i
    · show st.b.seqNumber = seqAfter s0 (st.posted ++ [(i, s)]).length
      rw [List.length_append, List.length_singleton]
      exact (h.atAdvanced i s hc).2
    · rw [calls_ne _ _ _ _ hji] at hj1
      exact absurd (h.alone i j (by rw [hc]; rfl) (by rw [hj1]; rfl)) hji
  values := by
    show (st.posted ++ [(i, s)]).map Prod.snd =
      (List.range (st.posted ++ [(i, s)]).length).map (seqAfter s0)
    rw [List.map_append, List.length_append, List.length_singleton, List.range_succ,
      List.map_append, h.values, (h.atAdvanced i s hc).1]
    rfl
  mem := by
    intro j s1
    show (j, s1) ∈ st.posted ++ [(i, s)] ↔
      ((st.setCall i (Submission.sent s)).calls j = Submission.sent s1 ∨
        (st.setCall i (Submission.sent s)).calls j = Submission.done s1)
    rw [List.mem_append, List.mem_singleton]
    by_cases hji : j = i
    · rw [hji, calls_same]
      have hn := h.not_posted i (fun s => by
        rw [hc]
        exact ⟨fun e => (by cases e), fun e => (by cases e)⟩) s1
      constructor
      · rintro (hm | hm)
        · exact absurd hm hn
        · have e : s1 = s := congrArg Prod.snd hm
          rw [e]
          exact Or.inl rfl
      · rintro (e | e)
        · have e1 : s = s1 := by
            cases e
            rfl
          rw [e1]
          exact Or.inr rfl
        · cases e
    · rw [calls_ne _ _ _ _ hji]
      constructor
      · rintro (hm | hm)
        · exact (h.mem j s1).1 hm
        · exact absurd (congrArg Prod.fst hm) hji
      · intro hm
        exact Or.inl ((h.mem j s1).2 hm)
  once := by
    show ((st.posted ++ [(i, s)]).map Prod.fst).Nodup
    rw [List.map_append, List.map_singleton, List.nodup_append]
    refine ⟨h.once, List.nodup_singleton _, ?_⟩
    intro a ha hb
    rw [List.mem_singleton] at hb
    rw [hb] at ha
    obtain ⟨⟨i1, s1⟩, hm, he⟩ := List.mem_map.1 ha
    have he1 : i1 = i := he
    rw [he1] at hm
    exact h.not_posted i (fun s => by
        rw [hc]
        exact ⟨fun e => (by cases e), fun e => (by cases e)⟩) s1 hm

/-- The step `Unlock` of a call that knows the response. -/
theorem release_inv (s0 : Nat) (st : Shared) (i s : Nat) (h : st.Inv s0)
    (hc : st.calls i = Submission.sent s) :
    Shared.Inv s0 { st.setCall i (Submission.done s) with lock := none } where
  excl := by
    intro j hj
    have hj1 : ((st.setCall i (Submission.done s)).calls j).holding = true := hj
    by_cases hji : j = i
    · rw [hji, calls_same] at hj1
      cases hj1
    · rw [calls_ne _ _ _ _ hji] at hj1
      exact absurd (h.alone i j (by rw [hc]; rfl) hj1) hji
  free := fun _ => h.atSent i s hc
  atLocked := fun _ _ => h.atSent i s hc
  atRead := by
    intro j s1 hj
    have hj1 : (st.setCall i (Submission.done s)).calls j = Submission.read s1 := hj
    by_cases hji : j = i
    · rw [hji, calls_same] at hj1
      cases hj1
    · rw [calls_ne _ _ _ _ hji] at hj1
      exact h.atRead j s1 hj1
  atAdvanced := by
    intro j s1 hj
    have hj1 : (st.setCall i (Submission.done s)).calls j = Submission.advanced s1 := hj
    by_cases hji : j = i
    · rw [hji, calls_same] at hj1
      cases hj1
    · rw [calls_ne _ _ _ _ hji] at hj1
      exact h.atAdvanced j s1 hj1
  atSent := fun _ _ _ => h.atSent i s hc
  values := h.values
  mem := by
    intro j s1
    show (j, s1) ∈ st.posted ↔
      ((st.setCall i (Submission.done s)).calls j = Submission.sent s1 ∨
        (st.setCall i (Submission.done s)).calls j = Submission.done s1)
    by_cases hji : j = i
    · rw [hji, calls_same, h.mem i s1, hc]
      constructor
      · rintro (e | e)
        · have e1 : s = s1 := by
            cases e
            rfl
          rw [e1]
          exact Or.inr rfl
        · cases e
      · rintro (e | e)
        · cases e
        · have e1 : s = s1 := by
            cases e
            rfl
          rw [e1]
          exact Or.inl rfl
    · rw [calls_ne _ _ _ _ hji]
      exact h.mem j s1
  once := h.once

/-- Every step keeps the invariant. -/
theorem step_inv (s0 : Nat) (st : Shared) (i : Nat) (h : st.Inv s0) : (st.step i).Inv s0 := by
  cases hc : st.calls i with
  | waiting =>
    cases hl : st.lock with
    | none =>
      have e : st.step i = { st.setCall i Submission.locked with lock := some i } := by
        simp only [Shared.step, hc, hl]
      rw [e]
      exact acquire_inv s0 st i h hc hl
    | some k =>
      have e : st.step i = st := by
        simp only [Shared.step, hc, hl]
      rw [e]
      exact h
  | locked =>
    have e : st.step i = st.setCall i (Submission.read st.b.seqNumber) := by
      simp only [Shared.step, hc]
    rw [e]
    exact read_inv s0 st i h hc
  | read s =>
    have e : st.step i = { st.setCall i (Submission.advanced s) with
        b := { st.b with seqNumber := (st.b.seqNumber + 1) % 2 ^ 64 } } := by
      simp only [Shared.step, hc]
    rw [e]
    exact advance_inv s0 st i s h hc
  | advanced s =>
    have e : st.step i =
        { st.setCall i (Submission.sent s) with posted := st.posted ++ [(i, s)] } := by
      simp only [Shared.step, hc]
    rw [e]
    exact post_inv s0 st i s h hc
  | sent s =>
    have e : st.step i = { st.setCall i (Submission.done s) with lock := none } := by
      simp only [Shared.step, hc]
    rw [e]
    exact release_inv s0 st i s h hc
  | done s =>
    have e : st.step i = st := by
      simp only [Shared.step, hc]
    rw [e]
    exact h

theorem run_inv (s0 : Nat) (schedule : List Nat) : ∀ st : Shared, st.Inv s0 →
    (st.run schedule).Inv s0 := by
  induction schedule with
  | nil => intro st h; exact h
  | cons i rest ih =>
    intro st h
    exact ih (st.step i) (step_inv s0 st i h)

/-- The sequences posted from a sequence `s0` that does not wrap around are
`s0`, `s0 + 1`, and so on. -/
theorem posted_consecutive (s0 : Nat) (st : Shared) (h : st.Inv s0)
    (hfit : s0 + st.posted.length ≤ 2 ^ 64) :
    st.posted.map Prod.snd = List.range' s0 st.posted.length := by
  rw [h.values, List.range'_eq_map_range]
  refine List.map_congr_left (fun k hk => ?_)
  have hk1 : k < st.posted.length := List.mem_range.1 hk
  exact seqAfter_eq s0 k (by omega)

/-- When exactly the calls below `N` have returned and the others have not
started, `N` transactions have been posted. -/
theorem posted_length (s0 : Nat) (st : Shared) (h : st.Inv s0) (N : Nat)
    (hdone : ∀ i, i < N → ∃ s, st.calls i = Submission.done s)
    (hrest : ∀ i, N ≤ i → st.calls i = Submission.waiting) : st.posted.length = N := by
  have hmem : ∀ i, i ∈ st.posted.map Prod.fst ↔ i ∈ List.range N := by
    intro i
    rw [List.mem_range]
    constructor
    · intro hi
      obtain ⟨⟨i1, s1⟩, hm, he⟩ := List.mem_map.1 hi
      have he1 : i1 = i := he
      rw [he1] at hm
      by_contra hlt
      have hw := hrest i (by omega)
      rcases (h.mem i s1).1 hm with e | e
      · rw [hw] at e
        cases e
      · rw [hw] at e
        cases e
    · intro hi
      obtain ⟨s, hs⟩ := hdone i hi
      exact List.mem_map.2 ⟨(i, s), (h.mem i s).2 (Or.inr hs), rfl⟩
  have hperm := (List.perm_ext_iff_of_nodup h.once (List.nodup_range N)).2 hmem
  have hlen := hperm.length_eq
  rw [List.length_map, List.length_range] at hlen
  exact hlen

/-- C29: on a bridge whose calls of `Broadcast` hold the lock from before the
read of the sequence until the response is known, whatever the interleaving of
the steps of the calls: a call between `Lock` and `Unlock` is the holder of
the lock; no call posts twice; every call that has returned has posted with
the sequence it read; and, as long as the `uint64` sequence does not wrap
around, the sequences posted are the consecutive numbers from the sequence the
bridge started with, in the order of the posts, so that no two are equal.
When `N` calls have returned and no other has started, `N` transactions have
been posted. -/
theorem C29_sequences_distinct_consecutive (b : ThorchainBridge) (schedule : List Nat) :
    (∀ i, (((concurrent b).run schedule).calls i).holding = true →
      ((concurrent b).run schedule).lock = some i) ∧
    (((concurrent b).run schedule).posted.map Prod.fst).Nodup ∧
    (∀ i s, ((concurrent b).run schedule).calls i = Submission.done s →
      (i, s) ∈ ((concurrent b).run schedule).posted) ∧
    (b.seqNumber + ((concurrent b).run schedule).posted.length ≤ 2 ^ 64 →
      ((concurrent b).run schedule).posted.map Prod.snd =
        List.range' b.seqNumber ((concurrent b).run schedule).posted.length ∧
      (((concurrent b).run schedule).posted.map Prod.snd).Nodup) ∧
    (∀ N, (∀ i, i < N → ∃ s, ((concurrent b).run schedule).calls i = Submission.done s) →
      (∀ i, N ≤ i → ((concurrent b).run schedule).calls i = Submission.waiting) →
      ((concurrent b).run schedule).posted.length = N) := by
  have h := run_inv b.seqNumber schedule (concurrent b) (concurrent_inv b)
  refine ⟨h.excl, h.once, fun i s hd => (h.mem i s).2 (Or.inr hd), ?_,
    fun N hdone hrest => posted_length b.seqNumber _ h N hdone hrest⟩
  intro hfit
  have hc := posted_consecutive b.seqNumber _ h hfit
  refine ⟨hc, ?_⟩
  rw [hc]
  exact List.nodup_range' _ _

/-- Two calls on the sample bridge, whose sequence is 9, with their steps
interleaved: call 0 posts with sequence 9 and call 1 with sequence 10. -/
theorem C29_witness :
    ((concurrent sampleBridge).run twoCalls).posted.map Prod.snd = List.range' 9 2 ∧
    (((concurrent sampleBridge).run twoCalls).posted.map Prod.snd).Nodup ∧
    ((concurrent sampleBridge).run twoCalls).posted = [(0, 9), (1, 10)] ∧
    ((concurrent sampleBridge).run twoCalls).posted.length = 2 :=
  ⟨((C29_sequences_distinct_consecutive sampleBridge twoCalls).2.2.2.1 (by decide)).1,
    ((C29_sequences_distinct_consecutive sampleBridge twoCalls).2.2.2.1 (by decide)).2,
    by decide,
    (C29_sequences_distinct_consecutive sampleBridge twoCalls).2.2.2.2 2
      (fun i hi => by
        interval_cases i
        · exact ⟨9, rfl⟩
        · exact ⟨10, rfl⟩)
      (fun i hi => by
        have h0 : i ≠ 0 := by omega
        have h1 : i ≠ 1 := by omega
        simp [Shared.run, twoCalls, Shared.step, Shared.setCall, concurrent, h0, h1])⟩

end Thorclient

/-! ## Pool stakers -/

namespace Swapservice

theorem findIndexLoop_none (stakerID : String) (l : List StakerUnit) :
    ∀ (idx : Nat) (pos : Int), (∀ y ∈ l, y.StakerID ≠ stakerID) →
      findIndexLoop stakerID l idx pos = pos := by
  induction l with
  | nil => intro idx pos _; rfl
  | cons x rest ih =>
    intro idx pos h
    have hx : ¬ x.StakerID = stakerID := h x (List.mem_cons_self _ _)
    simp only [findIndexLoop, if_neg hx]
    exact ih _ _ (fun y hy => h y (List.mem_cons_of_mem _ hy))

theorem findIndexLoop_last (stakerID : String) (pre : List StakerUnit) :
    ∀ (x : StakerUnit) (post : List StakerUnit) (idx : Nat) (pos : Int),
      x.StakerID = stakerID → (∀ y ∈ post, y.StakerID ≠ stakerID) →
      findIndexLoop stakerID (pre ++ x :: post) idx pos = ((idx + pre.length : Nat) : Int) := by
  induction pre with
  | nil =>
    intro x post idx pos hx hpost
    simp only [List.nil_append, findIndexLoop, if_pos hx, List.length_nil, Nat.add_zero]
    exact findIndexLoop_none stakerID post _ _ hpost
  | cons p pre ih =>
    intro x post idx pos hx hpost
    show findIndexLoop stakerID (pre ++ x :: post) (idx + 1)
      (if p.StakerID = stakerID then (idx : Int) else pos) = _
    rw [ih x post (idx + 1) _ hx hpost, List.length_cons]
    congr 1
    omega

/-- A list with a staker of the given id splits at the last such staker. -/
theorem exists_last (stakerID : String) (l : List StakerUnit) :
    (∃ y ∈ l, y.StakerID = stakerID) →
    ∃ pre x post, l = pre ++ x :: post ∧ x.StakerID = stakerID ∧
      ∀ y ∈ post, y.StakerID ≠ stakerID := by
  induction l with
  | nil =>
    rintro ⟨y, hy, _⟩
    cases hy
  | cons a rest ih =>
    intro h
    by_cases hr : ∃ y ∈ rest, y.StakerID = stakerID
    · obtain ⟨pre, x, post, e, hx, hpost⟩ := ih hr
      exact ⟨a :: pre, x, post, by rw [e]; rfl, hx, hpost⟩
    · have hnone : ∀ y ∈ rest, y.StakerID ≠ stakerID := fun y hy he => hr ⟨y, hy, he⟩
      obtain ⟨y, hy, he⟩ := h
      rcases List.mem_cons.1 hy with rfl | hy
      · exact ⟨[], y, rest, rfl, he, hnone⟩
      · exact absurd he (hnone y hy)

theorem getStakerUnitLoop_none (stakerID : String) (l : List StakerUnit)
    (h : ∀ y ∈ l, y.StakerID ≠ stakerID) :
    getStakerUnitLoop stakerID l = { StakerID := stakerID, Units := 0 } := by
  induction l with
  | nil => rfl
  | cons x rest ih =>
    have hx : ¬ x.StakerID = stakerID := h x (List.mem_cons_self _ _)
    simp only [getStakerUnitLoop, if_neg hx]
    exact ih (fun y hy => h y (List.mem_cons_of_mem _ hy))

theorem getStakerUnitLoop_append (stakerID : String) (pre : List StakerUnit)
    (h : ∀ y ∈ pre, y.StakerID ≠ stakerID) (l : List StakerUnit) :
    getStakerUnitLoop stakerID (pre ++ l) = getStakerUnitLoop stakerID l := by
  induction pre with
  | nil => rfl
  | cons x rest ih =>
    have hx : ¬ x.StakerID = stakerID := h x (List.mem_cons_self _ _)
    simp only [List.cons_append, getStakerUnitLoop, if_neg hx]
    exact ih (fun y hy => h y (List.mem_cons_of_mem _ hy))

/-- In a list whose ids are pairwise distinct, the stakers before and after a
staker have other ids. -/
theorem distinct_split (pre post : List StakerUnit) (x : StakerUnit)
    (hd : ((pre ++ x :: post).map StakerUnit.StakerID).Nodup) :
    (∀ y ∈ pre, y.StakerID ≠ x.StakerID) ∧ (∀ y ∈ post, y.StakerID ≠ x.StakerID) ∧
      ((pre ++ post).map StakerUnit.StakerID).Nodup := by
  rw [List.map_append, List.map_cons] at hd
  have h1 := List.nodup_middle.1 hd
  rw [List.nodup_cons] at h1
  obtain ⟨hnot, hrest⟩ := h1
  rw [← List.map_append] at hnot hrest
  refine ⟨?_, ?_, hrest⟩
  · intro y hy he
    exact hnot (List.mem_map.2 ⟨y, List.mem_append_left _ hy, he⟩)
  · intro y hy he
    exact hnot (List.mem_map.2 ⟨y, List.mem_append_right _ hy, he⟩)

/-- The stakers after `RemoveStakerUnit`: the last staker with the id is taken
out, and nothing changes when there is none. -/
theorem remove_stakers (ps : PoolStaker) (stakerID : String) :
    ((∀ y ∈ ps.Stakers, y.StakerID ≠ stakerID) ∧ ps.RemoveStakerUnit stakerID = ps) ∨
    (∃ pre x post, ps.Stakers = pre ++ x :: post ∧ x.StakerID = stakerID ∧
      (∀ y ∈ post, y.StakerID ≠ stakerID) ∧
      ps.RemoveStakerUnit stakerID = { ps with Stakers := pre ++ post }) := by
  by_cases h : ∃ y ∈ ps.Stakers, y.StakerID = stakerID
  · right
    obtain ⟨pre, x, post, e, hx, hpost⟩ := exists_last stakerID ps.Stakers h
    refine ⟨pre, x, post, e, hx, hpost, ?_⟩
    have hidx : findIndexLoop stakerID ps.Stakers 0 (-1) = ((pre.length : Nat) : Int) := by
      rw [e, findIndexLoop_last stakerID pre x post 0 (-1) hx hpost, Nat.zero_add]
    have hne : ((pre.length : Nat) : Int) ≠ -1 := by omega
    simp only [PoolStaker.RemoveStakerUnit, hidx, if_pos hne, Int.toNat_ofNat]
    rw [e]
    simp
  · left
    have hnone : ∀ y ∈ ps.Stakers, y.StakerID ≠ stakerID := fun y hy he => h ⟨y, hy, he⟩
    refine ⟨hnone, ?_⟩
    simp only [PoolStaker.RemoveStakerUnit, findIndexLoop_none stakerID ps.Stakers 0 (-1) hnone]
    rfl

/-- The stakers after `UpsertStakerUnit`: the last staker with the id is
replaced, and the unit is appended when there is none. -/
theorem upsert_stakers (ps : PoolStaker) (u : StakerUnit) :
    ((∀ y ∈ ps.Stakers, y.StakerID ≠ u.StakerID) ∧
      ps.UpsertStakerUnit u = { ps with Stakers := ps.Stakers ++ [u] }) ∨
    (∃ pre x post, ps.Stakers = pre ++ x :: post ∧ x.StakerID = u.StakerID ∧
      (∀ y ∈ post, y.StakerID ≠ u.StakerID) ∧
      ps.UpsertStakerUnit u = { ps with Stakers := pre ++ u :: post }) := by
  by_cases h : ∃ y ∈ ps.Stakers, y.StakerID = u.StakerID
  · right
    obtain ⟨pre, x, post, e, hx, hpost⟩ := exists_last u.StakerID ps.Stakers h
    refine ⟨pre, x, post, e, hx, hpost, ?_⟩
    have hidx : findIndexLoop u.StakerID ps.Stakers 0 (-1) = ((pre.length : Nat) : Int) := by
      rw [e, findIndexLoop_last u.StakerID pre x post 0 (-1) hx hpost, Nat.zero_add]
    have hne : ((pre.length : Nat) : Int) ≠ -1 := by omega
    simp only [PoolStaker.UpsertStakerUnit, hidx, if_pos hne, Int.toNat_ofNat]
    rw [e]
    simp
  · left
    have hnone : ∀ y ∈ ps.Stakers, y.StakerID ≠ u.StakerID := fun y hy he => h ⟨y, hy, he⟩
    refine ⟨hnone, ?_⟩
    simp only [PoolStaker.UpsertStakerUnit,
      findIndexLoop_none u.StakerID ps.Stakers 0 (-1) hnone]
    rfl

theorem map_replace_of_ne (stakerID : String) (u : StakerUnit) (l : List StakerUnit)
    (h : ∀ y ∈ l, y.StakerID ≠ stakerID) :
    l.map (fun y => if y.StakerID = stakerID then u else y) = l := by
  induction l with
  | nil => rfl
  | cons x rest ih =>
    have hx : ¬ x.StakerID = stakerID := h x (List.mem_cons_self _ _)
    simp only [List.map_cons, if_neg hx]
    rw [ih (fun y hy => h y (List.mem_cons_of_mem _ hy))]

theorem filter_other_of_ne (stakerID : String) (l : List StakerUnit)
    (h : ∀ y ∈ l, y.StakerID ≠ stakerID) :
    l.filter (fun y => decide (y.StakerID ≠ stakerID)) = l := by
  rw [List.filter_eq_self]
  intro y hy
  exact decide_eq_true (h y hy)

/-- The lookup of an id passes over a staker of another id. -/
theorem getStakerUnitLoop_skip (stakerID : String) (pre : List StakerUnit) :
    ∀ (x : StakerUnit) (post : List StakerUnit), x.StakerID ≠ stakerID →
      getStakerUnitLoop stakerID (pre ++ x :: post) = getStakerUnitLoop stakerID (pre ++ post) := by
  induction pre with
  | nil =>
    intro x post hx
    simp only [List.nil_append, getStakerUnitLoop, if_neg hx]
  | cons p pre ih =>
    intro x post hx
    show (if p.StakerID = stakerID then p else getStakerUnitLoop stakerID (pre ++ x :: post)) =
      (if p.StakerID = stakerID then p else getStakerUnitLoop stakerID (pre ++ post))
    rw [ih x post hx]

/-- C31: for a pool whose staker ids are pairwise distinct and a unit `u`:
after `UpsertStakerUnit(u)` the lookup of the id of `u` returns `u`.  If a
staker with that id existed, its entry is replaced where it stands, every
other entry and the length staying as they were; otherwise `u` is appended
and the length grows by one.  The lookup of every other id returns what it
returned before. -/
theorem C31_upsert_then_get (ps : PoolStaker) (u : StakerUnit) (hd : ps.Distinct) :
    (ps.UpsertStakerUnit u).GetStakerUnit u.StakerID = u ∧
    ((∃ y ∈ ps.Stakers, y.StakerID = u.StakerID) →
      (ps.UpsertStakerUnit u).Stakers =
        ps.Stakers.map (fun y => if y.StakerID = u.StakerID then u else y) ∧
      (ps.UpsertStakerUnit u).Stakers.length = ps.Stakers.length) ∧
    ((∀ y ∈ ps.Stakers, y.StakerID ≠ u.StakerID) →
      (ps.UpsertStakerUnit u).Stakers = ps.Stakers ++ [u] ∧
      (ps.UpsertStakerUnit u).Stakers.length = ps.Stakers.length + 1) ∧
    (∀ stakerID, stakerID ≠ u.StakerID →
      (ps.UpsertStakerUnit u).GetStakerUnit stakerID = ps.GetStakerUnit stakerID) := by
  rcases upsert_stakers ps u with ⟨hnone, he⟩ | ⟨pre, x, post, e, hx, hpost, he⟩
  · refine ⟨?_, ?_, ?_, ?_⟩
    · rw [he]
      show getStakerUnitLoop u.StakerID (ps.Stakers ++ [u]) = u
      rw [getStakerUnitLoop_append u.StakerID ps.Stakers hnone]
      simp only [getStakerUnitLoop, if_true]
    · rintro ⟨y, hy, hye⟩
      exact absurd hye (hnone y hy)
    · intro _
      rw [he]
      exact ⟨rfl, by simp⟩
    · intro stakerID hne
      rw [he]
      show getStakerUnitLoop stakerID (ps.Stakers ++ [u]) = getStakerUnitLoop stakerID ps.Stakers
      have := getStakerUnitLoop_skip stakerID ps.Stakers u [] (fun h => hne h.symm)
      rw [this, List.append_nil]
  · have hd1 : ((pre ++ x :: post).map StakerUnit.StakerID).Nodup := by
      rw [← e]
      exact hd
    obtain ⟨hpre, hpost1, _⟩ := distinct_split pre post x hd1
    rw [hx] at hpre hpost1
    refine ⟨?_, ?_, ?_, ?_⟩
    · rw [he]
      show getStakerUnitLoop u.StakerID (pre ++ u :: post) = u
      rw [getStakerUnitLoop_append u.StakerID pre hpre]
      simp only [getStakerUnitLoop, if_true]
    · intro _
      rw [he, e]
      refine ⟨?_, by simp⟩
      rw [List.map_append, List.map_cons, if_pos hx, map_replace_of_ne u.StakerID u pre hpre,
        map_replace_of_ne u.StakerID u post hpost1]
    · intro hnone
      exact absurd hx (hnone x (by rw [e]; simp))
    · intro stakerID hne
      rw [he]
      show getStakerUnitLoop stakerID (pre ++ u :: post) = getStakerUnitLoop stakerID ps.Stakers
      rw [e, getStakerUnitLoop_skip stakerID pre u post (fun h => hne h.symm),
        getStakerUnitLoop_skip stakerID pre x post (fun h => hne (by rw [← hx, h]))]

/-- In the sample pool the units of `bnb2` are set to 25 in place, and a new
staker `bnb4` is appended. -/
theorem C31_witness :
    (samplePool.UpsertStakerUnit ⟨"bnb2", 25⟩).GetStakerUnit "bnb2" = ⟨"bnb2", 25⟩ ∧
    (samplePool.UpsertStakerUnit ⟨"bnb2", 25⟩).Stakers = [⟨"bnb1", 10⟩, ⟨"bnb2", 25⟩, ⟨"bnb3", 30⟩] ∧
    (samplePool.UpsertStakerUnit ⟨"bnb4", 40⟩).Stakers =
      [⟨"bnb1", 10⟩, ⟨"bnb2", 20⟩, ⟨"bnb3", 30⟩, ⟨"bnb4", 40⟩] :=
  ⟨(C31_upsert_then_get samplePool ⟨"bnb2", 25⟩ (by decide)).1,
    ((C31_upsert_then_get samplePool ⟨"bnb2", 25⟩ (by decide)).2.1
      ⟨⟨"bnb2", 20⟩, by decide, rfl⟩).1,
    ((C31_upsert_then_get samplePool ⟨"bnb4", 40⟩ (by decide)).2.2.1 (by decide)).1⟩

/-- C32 as stated fails: in a pool where the id `bnb1` occurs twice,
`RemoveStakerUnit` takes out the last entry only, so an entry with the id
remains and the lookup of the id returns units that are not zero. -/
theorem C32_duplicate_id_survives_removal :
    ¬ ((∀ y ∈ (doublePool.RemoveStakerUnit "bnb1").Stakers, y.StakerID ≠ "bnb1") ∧
      ((doublePool.RemoveStakerUnit "bnb1").GetStakerUnit "bnb1").Units = 0) := by
  decide

/-- C32, amended: for a pool whose staker ids are pairwise distinct, after
`RemoveStakerUnit(id)` no entry with that id remains and the lookup of the id
returns a unit with zero units; the stakers left are the stakers of other ids,
with their values and in their order, and the lookup of every other id returns
what it returned before. -/
theorem C32_remove_then_get (ps : PoolStaker) (stakerID : String) (hd : ps.Distinct) :
    (∀ y ∈ (ps.RemoveStakerUnit stakerID).Stakers, y.StakerID ≠ stakerID) ∧
    (ps.RemoveStakerUnit stakerID).GetStakerUnit stakerID = { StakerID := stakerID, Units := 0 } ∧
    (ps.RemoveStakerUnit stakerID).Stakers =
      ps.Stakers.filter (fun y => decide (y.StakerID ≠ stakerID)) ∧
    (∀ other, other ≠ stakerID →
      (ps.RemoveStakerUnit stakerID).GetStakerUnit other = ps.GetStakerUnit other) := by
  rcases remove_stakers ps stakerID with ⟨hnone, he⟩ | ⟨pre, x, post, e, hx, hpost, he⟩
  · rw [he]
    exact ⟨hnone, getStakerUnitLoop_none stakerID ps.Stakers hnone,
      (filter_other_of_ne stakerID ps.Stakers hnone).symm, fun _ _ => rfl⟩
  · have hd1 : ((pre ++ x :: post).map StakerUnit.StakerID).Nodup := by
      rw [← e]
      exact hd
    obtain ⟨hpre, _, _⟩ := distinct_split pre post x hd1
    rw [hx] at hpre
    have hall : ∀ y ∈ pre ++ post, y.StakerID ≠ stakerID := by
      intro y hy
      rcases List.mem_append.1 hy with h | h
      · exact hpre y h
      · exact hpost y h
    rw [he]
    refine ⟨hall, getStakerUnitLoop_none stakerID (pre ++ post) hall, ?_, ?_⟩
    · show pre ++ post = _
      have hxf : decide (x.StakerID ≠ stakerID) = false := by
        simp only [hx, ne_eq, not_true_eq_false, decide_False]
      rw [e, List.filter_append, List.filter_cons, hxf, filter_other_of_ne stakerID pre hpre,
        filter_other_of_ne stakerID post hpost]
      rfl
    · intro other hne
      show getStakerUnitLoop other (pre ++ post) = getStakerUnitLoop other ps.Stakers
      rw [e, getStakerUnitLoop_skip other pre x post (fun h => hne (by rw [← hx, h]))]

/-- From the sample pool the staker `bnb2` is removed; the other two stay. -/
theorem C32_witness :
    (samplePool.RemoveStakerUnit "bnb2").GetStakerUnit "bnb2" = ⟨"bnb2", 0⟩ ∧
    (samplePool.RemoveStakerUnit "bnb2").Stakers =
      samplePool.Stakers.filter (fun y => decide (y.StakerID ≠ "bnb2")) :=
  ⟨(C32_remove_then_get samplePool "bnb2" (by decide)).2.1,
    (C32_remove_then_get samplePool "bnb2" (by decide)).2.2.1⟩

/-- C37: the pool made by `NewPoolStaker` has pairwise distinct staker ids,
and `UpsertStakerUnit` and `RemoveStakerUnit` keep the staker ids pairwise
distinct. -/
theorem C37_distinct_ids_preserved (ticker : String) (totalUnits : Nat) (ps : PoolStaker)
    (u : StakerUnit) (stakerID : String) :
    (NewPoolStaker ticker totalUnits).Distinct ∧
    (ps.Distinct → (ps.UpsertStakerUnit u).Distinct) ∧
    (ps.Distinct → (ps.RemoveStakerUnit stakerID).Distinct) := by
  refine ⟨List.nodup_nil, ?_, ?_⟩
  · intro hd
    rcases upsert_stakers ps u with ⟨hnone, he⟩ | ⟨pre, x, post, e, hx, hpost, he⟩
    · rw [he]
      show ((ps.Stakers ++ [u]).map StakerUnit.StakerID).Nodup
      rw [List.map_append, List.map_singleton, List.nodup_append]
      refine ⟨hd, List.nodup_singleton _, ?_⟩
      intro a ha hb
      rw [List.mem_singleton] at hb
      obtain ⟨y, hy, hye⟩ := List.mem_map.1 ha
      exact hnone y hy (by rw [hye, hb])
    · rw [he]
      show ((pre ++ u :: post).map StakerUnit.StakerID).Nodup
      have hd1 : ((pre ++ x :: post).map StakerUnit.StakerID).Nodup := by
        rw [← e]
        exact hd
      rw [List.map_append, List.map_cons] at hd1 ⊢
      rw [← hx]
      exact hd1
  · intro hd
    rcases remove_stakers ps stakerID with ⟨_, he⟩ | ⟨pre, x, post, e, _, _, he⟩
    · rw [he]
      exact hd
    · rw [he]
      have hd1 : ((pre ++ x :: post).map StakerUnit.StakerID).Nodup := by
        rw [← e]
        exact hd
      exact (distinct_split pre post x hd1).2.2

/-- The sample pool, whose ids are distinct, keeps distinct ids when `bnb2` is
upserted and when it is removed. -/
theorem C37_witness :
    (samplePool.UpsertStakerUnit ⟨"bnb2", 25⟩).Distinct ∧
    (samplePool.RemoveStakerUnit "bnb2").Distinct :=
  ⟨(C37_distinct_ids_preserved "BNB" 0 samplePool ⟨"bnb2", 25⟩ "bnb2").2.1 (by decide),
    (C37_distinct_ids_preserved "BNB" 0 samplePool ⟨"bnb2", 25⟩ "bnb2").2.2 (by decide)⟩

end Swapservice

/-! ## Transaction types and memos -/

namespace Thorchain

open Blockscanner (Error)

/-- Among the types that have a name, `Equals` is equality. -/
theorem equals_iff_of_named (a b : TxType) (ha1 : 1 ≤ a.val) (ha2 : a.val ≤ 14)
    (hb1 : 1 ≤ b.val) (hb2 : b.val ≤ 14) : a.Equals b = true ↔ a = b := by
  obtain ⟨n⟩ := a
  obtain ⟨m⟩ := b
  simp only at ha1 ha2 hb1 hb2
  interval_cases n <;> interval_cases m <;> decide

/-- C33, as stated, fails outside the declared constants: `Equals` compares
the names of the two types, and a type without an entry in `txToStringMap` has
the empty name.  So
`txUnknown` equals the undeclared type 15, and the undeclared types 15 and 200
equal each other, though the types differ; a named type such as `txSwap`
equals none of them. -/
theorem C33_unnamed_types_are_equal :
    txUnknown.Equals ⟨15⟩ = true ∧ txUnknown ≠ ⟨15⟩ ∧
    (TxType.mk 15).Equals ⟨200⟩ = true ∧ TxType.mk 15 ≠ ⟨200⟩ ∧
    txUnknown.String = "" ∧ (TxType.mk 15).String = "" ∧
    txSwap.Equals ⟨15⟩ = false ∧ txSwap.Equals txSwap = true := by
  decide

/-- C33, amended: for the declared constants, `txUnknown` to `txMigrate`,
`Equals` is true if and only if the two types are the same. -/
theorem C33_equals_iff_same_declared_type (a b : TxType) (ha : a.val ≤ 14)
    (hb : b.val ≤ 14) : a.Equals b = true ↔ a = b := by
  obtain ⟨n⟩ := a
  obtain ⟨m⟩ := b
  simp only at ha hb
  interval_cases n <;> interval_cases m <;> decide

/-- Witness of C33: `txUnknown` and `txSwap` are declared and differ, and
`Equals` tells them apart; `txMigrate` equals itself. -/
theorem C33_witness :
    (txUnknown.val ≤ 14 ∧ txSwap.val ≤ 14 ∧ txMigrate.val ≤ 14) ∧
    (txUnknown.Equals txSwap = true ↔ txUnknown = txSwap) ∧
    (txMigrate.Equals txMigrate = true ↔ txMigrate = txMigrate) :=
  ⟨⟨by decide, by decide, by decide⟩,
    C33_equals_iff_same_declared_type txUnknown txSwap (by decide) (by decide),
    C33_equals_iff_same_declared_type txMigrate txMigrate (by decide) (by decide)⟩

/-! ### The case of a type name -/

set_option maxRecDepth 100000 in
theorem ascii_case_facts : ∀ k : Fin 128,
    (Char.ofNat k).toLower.toNat < 128 ∧ (Char.ofNat k).toUpper.toNat < 128 ∧
    (Char.ofNat k).toLower.toLower = (Char.ofNat k).toLower ∧
    (Char.ofNat k).toUpper.toLower = (Char.ofNat k).toLower := by
  decide

theorem toLower_of_not_ascii (c : Char) (h : 128 ≤ c.toNat) : c.toLower = c ∧ c.toUpper = c := by
  constructor
  · have hn : ¬ (c.toNat ≥ 65 ∧ c.toNat ≤ 90) := by omega
    simp only [Char.toLower, if_neg hn]
  · have hn : ¬ (c.toNat ≥ 97 ∧ c.toNat ≤ 122) := by omega
    simp only [Char.toUpper, if_neg hn]

/-- A case variant of a character has the same lower case, for every case
mapping that is the usual one on the ASCII characters. -/
theorem toLower_variant (toLower : Char → Char)
    (hascii : ∀ c : Char, c.toNat < 128 → toLower c = c.toLower) (c d : Char)
    (h : d = c ∨ d = c.toLower ∨ d = c.toUpper) : toLower d = toLower c := by
  by_cases hc : c.toNat < 128
  · obtain ⟨f1, f2, f3, f4⟩ := ascii_case_facts ⟨c.toNat, hc⟩
    simp only [Char.ofNat_toNat] at f1 f2 f3 f4
    rcases h with rfl | rfl | rfl
    · rfl
    · rw [hascii _ f1, hascii _ hc, f3]
    · rw [hascii _ f2, hascii _ hc, f4]
  · obtain ⟨g1, g2⟩ := toLower_of_not_ascii c (by omega)
    rw [g1, g2] at h
    rcases h with rfl | rfl | rfl <;> rfl

theorem ToLower_variant (toLower : Char → Char)
    (hascii : ∀ c : Char, c.toNat < 128 → toLower c = c.toLower) (s1 s2 : String)
    (h : AsciiCaseVariant s1 s2) : ToLower toLower s1 = ToLower toLower s2 := by
  have key : ∀ l1 l2 : List Char,
      List.Forall₂ (fun c d => d = c ∨ d = c.toLower ∨ d = c.toUpper) l1 l2 →
      l1.map toLower = l2.map toLower := by
    intro l1 l2 hf
    induction hf with
    | nil => rfl
    | cons hcd _ ih =>
      rw [List.map_cons, List.map_cons, ih, toLower_variant toLower hascii _ _ hcd]
  simp only [ToLower, key s1.toList s2.toList h]

/-- A text of lower-case ASCII characters is its own lower case. -/
theorem ToLower_fixed (toLower : Char → Char)
    (hascii : ∀ c : Char, c.toNat < 128 → toLower c = c.toLower) (s : String)
    (h : ∀ c ∈ s.toList, c.toNat < 128 ∧ c.toLower = c) : ToLower toLower s = s := by
  have key : ∀ l : List Char, (∀ c ∈ l, c.toNat < 128 ∧ c.toLower = c) → l.map toLower = l := by
    intro l
    induction l with
    | nil => intro _; rfl
    | cons c rest ih =>
      intro hl
      obtain ⟨h1, h2⟩ := hl c (List.mem_cons_self _ _)
      rw [List.map_cons, hascii c h1, h2, ih (fun x hx => hl x (List.mem_cons_of_mem _ hx))]
  simp only [ToLower, key s.toList h]
  rfl

set_option maxRecDepth 100000 in
theorem named_roundtrip (t : TxType) (h1 : 1 ≤ t.val) (h2 : t.val ≤ 14) :
    (∀ c ∈ t.String.toList, c.toNat < 128 ∧ c.toLower = c) ∧
      stringToTxTypeMap t.String = some t := by
  obtain ⟨n⟩ := t
  simp only at h1 h2
  interval_cases n <;> decide

set_option maxRecDepth 100000 in
/-- C36, as stated, fails: a text and a case variant of it do not give the
same result when the text names no type, because the error quotes the text as
it was given: `foo` and `FOO` give two different errors.  Nor does the case of
a letter outside ASCII fold: the upper case of the letter U+017F is `S`, and
`unicode.ToLower` leaves U+017F as it is, so the text of U+017F and `wap` is
no type name while its upper case `SWAP` is the name of `txSwap`. -/
theorem C36_case_variants_give_different_results :
    AsciiCaseVariant "foo" "FOO" ∧
    stringToTxType Char.toLower "foo" =
      (txUnknown, some (Error.fundamental "invalid tx type: foo")) ∧
    stringToTxType Char.toLower "FOO" =
      (txUnknown, some (Error.fundamental "invalid tx type: FOO")) ∧
    stringToTxType Char.toLower "foo" ≠ stringToTxType Char.toLower "FOO" ∧
    Char.toLower (Char.ofNat 383) = Char.ofNat 383 ∧
    stringToTxType Char.toLower (String.mk [Char.ofNat 383, 'w', 'a', 'p']) =
      (txUnknown, some (Error.fundamental
        ("invalid tx type: " ++ String.mk [Char.ofNat 383, 'w', 'a', 'p']))) ∧
    stringToTxType Char.toLower "SWAP" = (txSwap, none) :=
  ⟨List.Forall₂.cons (by decide) (List.Forall₂.cons (by decide)
      (List.Forall₂.cons (by decide) List.Forall₂.nil)),
    by decide, by decide, by decide, by decide, by decide, by decide⟩

/-- C36, amended: for every type `t` from `txCreate` to `txMigrate`,
`stringToTxType` of the name of `t` returns `t` and no error; and for every
text and every text that differs from it in the case of ASCII letters only,
`stringToTxType` looks up the same lower case text, so it returns the same
type for both and an error for both or for neither, and the same result when
it returns no error; an error quotes the text as it was given.  This holds
for every case mapping `unicode.ToLower` that is the usual one on the ASCII
characters. -/
theorem C36_names_roundtrip_and_case_is_ignored (toLower : Char → Char)
    (hascii : ∀ c : Char, c.toNat < 128 → toLower c = c.toLower) :
    (∀ t : TxType, 1 ≤ t.val → t.val ≤ 14 → stringToTxType toLower t.String = (t, none)) ∧
    (∀ s1 s2 : String, AsciiCaseVariant s1 s2 →
      ToLower toLower s1 = ToLower toLower s2 ∧
      (stringToTxType toLower s1).1 = (stringToTxType toLower s2).1 ∧
      ((stringToTxType toLower s1).2 = none ↔ (stringToTxType toLower s2).2 = none) ∧
      ((stringToTxType toLower s1).2 = none →
        stringToTxType toLower s1 = stringToTxType toLower s2)) ∧
    (∀ s : String, (stringToTxType toLower s).2 = none ∨
      stringToTxType toLower s =
        (txUnknown, some (Error.fundamental ("invalid tx type: " ++ s)))) := by
  refine ⟨?_, ?_, ?_⟩
  · intro t h1 h2
    obtain ⟨hchars, hmap⟩ := named_roundtrip t h1 h2
    simp only [stringToTxType, ToLower_fixed toLower hascii t.String hchars, hmap]
  · intro s1 s2 hv
    have e := ToLower_variant toLower hascii s1 s2 hv
    refine ⟨e, ?_, ?_, ?_⟩
    · simp only [stringToTxType, e]
      cases stringToTxTypeMap (ToLower toLower s2) <;> rfl
    · simp only [stringToTxType, e]
      cases stringToTxTypeMap (ToLower toLower s2) <;> simp
    · simp only [stringToTxType, e]
      cases stringToTxTypeMap (ToLower toLower s2) with
      | none => intro h; cases h
      | some t => intro _; rfl
  · intro s
    simp only [stringToTxType]
    cases stringToTxTypeMap (ToLower toLower s) with
    | none => exact Or.inr rfl
    | some t => exact Or.inl rfl

set_option maxRecDepth 100000 in
/-- With the case mapping of the ASCII letters: the name of `txSwap` gives
`txSwap`, and `SWAP`, `Swap` and `swap` give the same result. -/
theorem C36_witness :
    stringToTxType Char.toLower txSwap.String = (txSwap, none) ∧
    (stringToTxType Char.toLower "swap").1 = (stringToTxType Char.toLower "SWAP").1 ∧
    (stringToTxType Char.toLower "SWAP").1 = txSwap ∧
    stringToTxType Char.toLower "swap" = stringToTxType Char.toLower "Swap" :=
  ⟨(C36_names_roundtrip_and_case_is_ignored Char.toLower (fun _ _ => rfl)).1 txSwap
      (by decide) (by decide),
    ((C36_names_roundtrip_and_case_is_ignored Char.toLower (fun _ _ => rfl)).2.1 "swap" "SWAP"
      (List.Forall₂.cons (by decide) (List.Forall₂.cons (by decide)
        (List.Forall₂.cons (by decide) (List.Forall₂.cons (by decide) List.Forall₂.nil))))).2.1,
    by decide,
    ((C36_names_roundtrip_and_case_is_ignored Char.toLower (fun _ _ => rfl)).2.1 "swap" "Swap"
      (List.Forall₂.cons (by decide) (List.Forall₂.cons (by decide)
        (List.Forall₂.cons (by decide) (List.Forall₂.cons (by decide)
          List.Forall₂.nil))))).2.2.2 (by decide)⟩

/-! ### The type of a parsed memo -/

theorem parseStake_type (lib : MemoLib) (parts : List String) (asset : Asset)
    (h : (parseStake lib parts asset).2 = none) :
    (parseStake lib parts asset).1.GetType = txStake := by
  unfold parseStake at h ⊢
  split
  · split
    · rename_i h1 h2
      rw [if_pos h1, if_pos h2] at h
      cases h
    · rename_i h1 h2
      rw [if_pos h1, if_neg h2] at h
      cases hn : lib.NewAddress (parts.getD 2 "") with
      | error err =>
        rw [hn] at h
        cases h
      | ok addr => rfl
  · rfl

theorem parseWithdraw_type (lib : MemoLib) (parts : List String) (asset : Asset)
    (h : (parseWithdraw lib parts asset).2 = none) :
    (parseWithdraw lib parts asset).1.GetType = txWithdraw := by
  unfold parseWithdraw at h ⊢
  split
  · rename_i h1
    rw [if_pos h1] at h
    cases h
  · rename_i h1
    rw [if_neg h1] at h
    split
    · rename_i h2
      rw [if_pos h2] at h
      simp only at h ⊢
      cases hp : lib.ParseUint (parts.getD 2 "") with
      | error err =>
        rw [hp] at h
        cases h
      | ok wa =>
        rw [hp] at h
        simp only at h ⊢
        split
        · rename_i h3
          rw [if_pos h3] at h
          cases h
        · rfl
    · rfl

theorem parseSwap_type (lib : MemoLib) (parts : List String) (asset : Asset)
    (h : (parseSwap lib parts asset).2 = none) :
    (parseSwap lib parts asset).1.GetType = txSwap := by
  unfold parseSwap at h ⊢
  split
  · rename_i h1
    rw [if_pos h1] at h
    cases h
  · rename_i h1
    rw [if_neg h1] at h
    simp only at h ⊢
    split
    · rename_i err hd
      rw [hd] at h
      cases h
    · rename_i dest hd
      rw [hd] at h
      simp only at h ⊢
      cases hs : parseSlip lib parts with
      | error err =>
        rw [hs] at h
        cases h
      | ok slip => rfl

theorem parseOutbound_eq (lib : MemoLib) (parts : List String) (asset : Asset) :
    parseByType lib txOutbound parts asset =
      if parts.length < 2 then
        (Memo.base noMemoBase, some (Error.fundamental "not enough parameters"))
      else
        (NewOutboundMemo (lib.NewTxID (parts.getD 1 "")).1, (lib.NewTxID (parts.getD 1 "")).2) :=
  rfl

theorem parseRefund_eq (lib : MemoLib) (parts : List String) (asset : Asset) :
    parseByType lib txRefund parts asset =
      if parts.length < 2 then
        (Memo.base noMemoBase, some (Error.fundamental "not enough parameters"))
      else
        (NewRefundMemo (lib.NewTxID (parts.getD 1 "")).1, (lib.NewTxID (parts.getD 1 "")).2) :=
  rfl

theorem parseBond_eq (lib : MemoLib) (parts : List String) (asset : Asset) :
    parseByType lib txBond parts asset =
      if parts.length < 2 then
        (Memo.base noMemoBase, some (Error.fundamental "not enough parameters"))
      else
        match lib.AccAddressFromBech32 (parts.getD 1 "") with
        | Except.error err =>
          (Memo.base noMemoBase,
            some (Error.Wrap err (parts.getD 1 "" ++ " is an invalid thorchain address")))
        | Except.ok addr => (Memo.bond ⟨txBond, noMemoBase.Asset⟩ addr, none) :=
  rfl

/-- The type of the memo the `switch` of `ParseMemo` returns without error. -/
theorem parseByType_type (lib : MemoLib) (tx : TxType) (parts : List String) (asset : Asset)
    (h : (parseByType lib tx parts asset).2 = none) :
    (parseByType lib tx parts asset).1.GetType = parsedType tx := by
  by_cases c1 : tx = txCreate
  · subst c1
    rfl
  by_cases c2 : tx = txGas
  · subst c2
    rfl
  by_cases c3 : tx = txLeave
  · subst c3
    rfl
  by_cases c4 : tx = txAdd
  · subst c4
    rfl
  by_cases c5 : tx = txStake
  · subst c5
    exact parseStake_type lib parts asset h
  by_cases c6 : tx = txWithdraw
  · subst c6
    exact parseWithdraw_type lib parts asset h
  by_cases c7 : tx = txSwap
  · subst c7
    exact parseSwap_type lib parts asset h
  by_cases c8 : tx = txOutbound
  · subst c8
    rw [parseOutbound_eq] at h ⊢
    by_cases hl : parts.length < 2
    · rw [if_pos hl] at h
      cases h
    · rw [if_neg hl]
      rfl
  by_cases c9 : tx = txRefund
  · subst c9
    rw [parseRefund_eq] at h ⊢
    by_cases hl : parts.length < 2
    · rw [if_pos hl] at h
      cases h
    · rw [if_neg hl]
      rfl
  by_cases c10 : tx = txBond
  · subst c10
    rw [parseBond_eq] at h ⊢
    by_cases hl : parts.length < 2
    · rw [if_pos hl] at h
      cases h
    · rw [if_neg hl] at h ⊢
      cases hb : lib.AccAddressFromBech32 (parts.getD 1 "") with
      | error err =>
        rw [hb] at h
        cases h
      | ok addr => rfl
  by_cases c11 : tx = txYggdrasilFund
  · subst c11
    rfl
  by_cases c12 : tx = txYggdrasilReturn
  · subst c12
    rfl
  by_cases c13 : tx = txReserve
  · subst c13
    rfl
  by_cases c14 : tx = txMigrate
  · subst c14
    rfl
  exfalso
  simp only [parseByType, if_neg c1, if_neg c2, if_neg c3, if_neg c4, if_neg c5, if_neg c6,
    if_neg c7, if_neg c8, if_neg c9, if_neg c10, if_neg c11, if_neg c12, if_neg c13,
    if_neg c14] at h
  cases h

/-- The type of every memo `ParseMemo` returns without error, in terms of the
type `stringToTxType` gives its first field. -/
theorem ParseMemo_type (lib : MemoLib) (memo : String) (h : (ParseMemo lib memo).2 = none) :
    (ParseMemo lib memo).1.GetType =
      parsedType (stringToTxType lib.toLower ((Split memo ':').getD 0 "")).1 := by
  unfold ParseMemo at h ⊢
  split
  · rename_i h0
    rw [if_pos h0] at h
    cases h
  · rename_i h0
    rw [if_neg h0] at h
    simp only at h ⊢
    cases hs : stringToTxType lib.toLower ((Split memo ':').getD 0 "") with
    | mk tx o =>
      rw [hs] at h
      cases o with
      | some err => cases h
      | none =>
        simp only at h ⊢
        cases ha : parseAsset lib tx (Split memo ':') with
        | error err =>
          rw [ha] at h
          cases h
        | ok asset =>
          rw [ha] at h
          exact parseByType_type lib tx (Split memo ':') asset h

set_option maxRecDepth 100000 in
/-- C35, evaluated where it fails: `ParseMemo` succeeds on the memo `reserve`,
whose first field `stringToTxType` reads as `txReserve`, and returns a memo of
type `txYggdrasilReturn`: the case `txReserve` fills in the constant of the
case above it.  It succeeds on `outbound:ABC` and on `refund:ABC` and returns
memos of type `txUnknown`: `NewOutboundMemo` and `NewRefundMemo` leave the
embedded `MemoBase` at its zero value.  So `IsType` of the type of the first
field is false for the three.  The other cases set the type they handle, as
the memos `migrate:BNB` and `yggdrasil-` show. -/
theorem C35_reserve_outbound_refund_lose_their_type :
    (stringToTxType sampleLib.toLower "reserve" = (txReserve, none) ∧
      (ParseMemo sampleLib "reserve").2 = none ∧
      (ParseMemo sampleLib "reserve").1.GetType = txYggdrasilReturn ∧
      (ParseMemo sampleLib "reserve").1.IsType txReserve = false) ∧
    (stringToTxType sampleLib.toLower "outbound" = (txOutbound, none) ∧
      (ParseMemo sampleLib "outbound:ABC").2 = none ∧
      (ParseMemo sampleLib "outbound:ABC").1.GetType = txUnknown ∧
      (ParseMemo sampleLib "outbound:ABC").1.IsType txOutbound = false) ∧
    (stringToTxType sampleLib.toLower "refund" = (txRefund, none) ∧
      (ParseMemo sampleLib "refund:ABC").2 = none ∧
      (ParseMemo sampleLib "refund:ABC").1.GetType = txUnknown ∧
      (ParseMemo sampleLib "refund:ABC").1.IsType txRefund = false) ∧
    ((ParseMemo sampleLib "migrate:BNB").1.GetType = txMigrate ∧
      (ParseMemo sampleLib "migrate:BNB").1.IsType txMigrate = true ∧
      (ParseMemo sampleLib "yggdrasil-").1.GetType = txYggdrasilReturn) := by
  decide

end Thorchain

/-! ## Bond units and block rewards -/

namespace Thorchain

/-- C34: for `int64` arguments, `calculateNodeAccountBondUints` returns 0 if
one of them is negative; otherwise it returns the larger of 0 and
`height - activeBlock - slashPts`, so it returns 0 whenever the slash points
meet or exceed the blocks served, and the result is below `2 ^ 63`: no
operation wraps around. -/
theorem C34_bond_units_never_wrap (height activeBlock slashPts : Int)
    (hh : -9223372036854775808 ≤ height ∧ height ≤ 9223372036854775807)
    (ha : -9223372036854775808 ≤ activeBlock ∧ activeBlock ≤ 9223372036854775807)
    (hs : -9223372036854775808 ≤ slashPts ∧ slashPts ≤ 9223372036854775807) :
    ((height < 0 ∨ activeBlock < 0 ∨ slashPts < 0) →
      calculateNodeAccountBondUints height activeBlock slashPts = 0) ∧
    ((0 ≤ height ∧ 0 ≤ activeBlock ∧ 0 ≤ slashPts) →
      ((calculateNodeAccountBondUints height activeBlock slashPts : Nat) : Int) =
        max 0 (height - activeBlock - slashPts)) ∧
    ((0 ≤ height ∧ 0 ≤ activeBlock ∧ 0 ≤ slashPts) → height - activeBlock ≤ slashPts →
      calculateNodeAccountBondUints height activeBlock slashPts = 0) ∧
    calculateNodeAccountBondUints height activeBlock slashPts < 9223372036854775808 := by
  have key : (0 ≤ height ∧ 0 ≤ activeBlock ∧ 0 ≤ slashPts) →
      ((calculateNodeAccountBondUints height activeBlock slashPts : Nat) : Int) =
        max 0 (height - activeBlock - slashPts) := by
    intro hpos
    have hneg : ¬ (height < 0 ∨ activeBlock < 0 ∨ slashPts < 0) := by omega
    have hb : toInt64 (height - activeBlock) = height - activeBlock := by
      simp only [toInt64]
      omega
    simp only [calculateNodeAccountBondUints, if_neg hneg, hb]
    by_cases hlt : height - activeBlock < slashPts
    · rw [if_pos hlt]
      have e : toInt64 (slashPts - slashPts) = 0 := by
        simp only [toInt64]
        omega
      rw [e, max_eq_left (by omega)]
      rfl
    · rw [if_neg hlt]
      have e : toInt64 (height - activeBlock - slashPts) = height - activeBlock - slashPts := by
        simp only [toInt64]
        omega
      rw [e, max_eq_right (by omega)]
      simp only [toUint64]
      omega
  refine ⟨?_, key, ?_, ?_⟩
  · intro hneg
    simp only [calculateNodeAccountBondUints, if_pos hneg]
  · intro hpos hle
    have := key hpos
    rw [max_eq_left (by omega)] at this
    omega
  · by_cases hneg : height < 0 ∨ activeBlock < 0 ∨ slashPts < 0
    · simp only [calculateNodeAccountBondUints, if_pos hneg]
      omega
    · have := key (by omega)
      rcases le_total 0 (height - activeBlock - slashPts) with h0 | h0
      · rw [max_eq_right h0] at this
        omega
      · rw [max_eq_left h0] at this
        omega

/-- A node active since block 100, at height 1000: with 50 slash points it
has 850 units, with 2000 slash points it has none. -/
theorem C34_witness :
    ((calculateNodeAccountBondUints 1000 100 50 : Nat) : Int) = max 0 (1000 - 100 - 50) ∧
    calculateNodeAccountBondUints 1000 100 2000 = 0 ∧
    calculateNodeAccountBondUints 1000 (-1) 0 = 0 :=
  ⟨(C34_bond_units_never_wrap 1000 100 50 (by decide) (by decide) (by decide)).2.1 (by decide),
    (C34_bond_units_never_wrap 1000 100 2000 (by decide) (by decide) (by decide)).2.2.1
      (by decide) (by decide),
    (C34_bond_units_never_wrap 1000 (-1) 0 (by decide) (by decide) (by decide)).1 (by decide)⟩

/-- The value of `calcBlockRewards` when the reserve fits in 64 bits and the
system income in 256 bits. -/
theorem calcBlockRewards_ok (emission : Nat → Nat) (totalReserve totalLiquidityFees : Nat)
    (hr : totalReserve < 2 ^ 64)
    (hsum : emission totalReserve % 2 ^ 64 + totalLiquidityFees ≤ maxUint) :
    calcBlockRewards emission totalReserve totalLiquidityFees =
      Except.ok
        (emission totalReserve % 2 ^ 64 + totalLiquidityFees -
            (emission totalReserve % 2 ^ 64 + totalLiquidityFees) / 3,
          (emission totalReserve % 2 ^ 64 + totalLiquidityFees) / 3 - totalLiquidityFees,
          totalLiquidityFees - (emission totalReserve % 2 ^ 64 + totalLiquidityFees) / 3) := by
  have h3 : ¬ (3 : Nat) = 0 := by decide
  have hle : (emission totalReserve % 2 ^ 64 + totalLiquidityFees) / 3 ≤
      emission totalReserve % 2 ^ 64 + totalLiquidityFees := Nat.div_le_self _ _
  simp only [calcBlockRewards, UintUint64, if_pos hr, UintAdd, if_pos hsum, UintQuoUint64,
    if_neg h3, UintSub, if_pos hle]
  by_cases hge : (emission totalReserve % 2 ^ 64 + totalLiquidityFees) / 3 ≥ totalLiquidityFees
  · have hz : totalLiquidityFees -
        (emission totalReserve % 2 ^ 64 + totalLiquidityFees) / 3 = 0 := by omega
    simp only [if_pos hge, hz]
  · have hz : (emission totalReserve % 2 ^ 64 + totalLiquidityFees) / 3 -
        totalLiquidityFees = 0 := by omega
    have hlt : (emission totalReserve % 2 ^ 64 + totalLiquidityFees) / 3 ≤
        totalLiquidityFees := by omega
    simp only [if_neg hge, hz, if_pos hlt]

/-- What `calcBlockRewards` does when it does not return: the reserve has
more than 64 bits, or the system income has more than 256 bits. -/
theorem calcBlockRewards_panic (emission : Nat → Nat) (totalReserve totalLiquidityFees : Nat)
    (p : Panic) (h : calcBlockRewards emission totalReserve totalLiquidityFees = Except.error p) :
    (p = Panic.notUint64 ∧ 2 ^ 64 ≤ totalReserve) ∨
    (p = Panic.overflow ∧ maxUint < emission totalReserve % 2 ^ 64 + totalLiquidityFees) := by
  by_cases hr : totalReserve < 2 ^ 64
  · by_cases hsum : emission totalReserve % 2 ^ 64 + totalLiquidityFees ≤ maxUint
    · rw [calcBlockRewards_ok emission totalReserve totalLiquidityFees hr hsum] at h
      cases h
    · right
      simp only [calcBlockRewards, UintUint64, if_pos hr, UintAdd, if_neg hsum,
        Except.error.injEq] at h
      exact ⟨h.symm, by omega⟩
  · left
    simp only [calcBlockRewards, UintUint64, if_neg hr, Except.error.injEq] at h
    exact ⟨h.symm, by omega⟩

/-- C38: write `blockReward` for the emission computed from the reserve and
`systemIncome` for `blockReward + totalLiquidityFees`.  Whenever
`calcBlockRewards` returns, which it does when the reserve fits in 64 bits and
the system income in 256 bits, it returns a bond reward, a pool reward and a
staker deficit with `bondReward = systemIncome - systemIncome / 3`, the pool
reward or the staker deficit zero, and
`bondReward + poolReward + totalLiquidityFees = systemIncome + stakerDeficit`.
It never panics on a subtraction or a division: it panics only on a reserve
of more than 64 bits or a system income of more than 256 bits. -/
theorem C38_block_rewards_balance (emission : Nat → Nat)
    (totalReserve totalLiquidityFees : Nat) :
    (totalReserve < 2 ^ 64 →
      emission totalReserve % 2 ^ 64 + totalLiquidityFees ≤ maxUint →
      ∃ r, calcBlockRewards emission totalReserve totalLiquidityFees = Except.ok r) ∧
    (∀ bondReward poolReward stakerDeficit,
      calcBlockRewards emission totalReserve totalLiquidityFees =
        Except.ok (bondReward, poolReward, stakerDeficit) →
      bondReward = emission totalReserve % 2 ^ 64 + totalLiquidityFees -
        (emission totalReserve % 2 ^ 64 + totalLiquidityFees) / 3 ∧
      (poolReward = 0 ∨ stakerDeficit = 0) ∧
      bondReward + poolReward + totalLiquidityFees =
        emission totalReserve % 2 ^ 64 + totalLiquidityFees + stakerDeficit) ∧
    calcBlockRewards emission totalReserve totalLiquidityFees ≠ Except.error Panic.underflow ∧
    calcBlockRewards emission totalReserve totalLiquidityFees ≠
      Except.error Panic.divisionByZero := by
  refine ⟨fun hr hsum => ⟨_, calcBlockRewards_ok emission totalReserve totalLiquidityFees hr hsum⟩,
    ?_, ?_, ?_⟩
  · intro bondReward poolReward stakerDeficit h
    by_cases hr : totalReserve < 2 ^ 64
    · by_cases hsum : emission totalReserve % 2 ^ 64 + totalLiquidityFees ≤ maxUint
      · rw [calcBlockRewards_ok emission totalReserve totalLiquidityFees hr hsum] at h
        simp only [Except.ok.injEq, Prod.mk.injEq] at h
        obtain ⟨h1, h2, h3⟩ := h
        subst h1 h2 h3
        refine ⟨rfl, ?_, ?_⟩ <;> omega
      · simp only [calcBlockRewards, UintUint64, if_pos hr, UintAdd, if_neg hsum] at h
        cases h
    · simp only [calcBlockRewards, UintUint64, if_neg hr] at h
      cases h
  · intro h
    rcases calcBlockRewards_panic emission totalReserve totalLiquidityFees _ h with ⟨e, _⟩ | ⟨e, _⟩
      <;> cases e
  · intro h
    rcases calcBlockRewards_panic emission totalReserve totalLiquidityFees _ h with ⟨e, _⟩ | ⟨e, _⟩
      <;> cases e

/-- With a reserve of `6311390 * 6 * 90` the block reward is 90.  With fees of
9 the system income is 99, of which 66 go to the bonders, and the stakers,
whose third is 33, get 24 more; with fees of 60 the income is 150, the bonders
get 100 and the stakers have been paid 10 too much. -/
theorem C38_witness :
    calcBlockRewards sampleEmission 3408150600 9 = Except.ok (66, 24, 0) ∧
    calcBlockRewards sampleEmission 3408150600 60 = Except.ok (100, 0, 10) ∧
    ((66 : Nat) = sampleEmission 3408150600 % 2 ^ 64 + 9 -
        (sampleEmission 3408150600 % 2 ^ 64 + 9) / 3 ∧
      ((24 : Nat) = 0 ∨ (0 : Nat) = 0) ∧
      66 + 24 + 9 = sampleEmission 3408150600 % 2 ^ 64 + 9 + 0) :=
  ⟨rfl, rfl, (C38_block_rewards_balance sampleEmission 3408150600 9).2.1 66 24 0 rfl⟩

end Thorchain

/-! ## A transaction from the vault to the vault -/

namespace Thorclient

open Blockscanner (Error)

theorem mem_observationMsgs_in (signer s : String) (inbound outbound txs : List ObservedTx)
    (h : Msg.ObservedTxIn txs s ∈ observationMsgs signer inbound outbound) : txs = inbound := by
  rw [observationMsgs_eq, List.mem_append] at h
  rcases h with h | h
  · split at h
    · cases h
    · rw [List.mem_singleton] at h
      cases h
      rfl
  · split at h
    · cases h
    · rw [List.mem_singleton] at h
      cases h

theorem mem_observationMsgs_out (signer s : String) (inbound outbound txs : List ObservedTx)
    (h : Msg.ObservedTxOut txs s ∈ observationMsgs signer inbound outbound) : txs = outbound := by
  rw [observationMsgs_eq, List.mem_append] at h
  rcases h with h | h
  · split at h
    · cases h
    · rw [List.mem_singleton] at h
      cases h
  · split at h
    · cases h
    · rw [List.mem_singleton] at h
      cases h
      rfl

/-- C40: when `GetObservationsStdTx` returns a transaction for a batch, a
transaction of the batch whose to-address and from-address both equal the
address of the vault on its chain, which is the chain of the first coin and
BNB for a transaction without coins, is in the inbound message and in no
outbound message; and no transaction at all is both in an inbound and in an
outbound message of the result. -/
theorem C40_vault_to_vault_is_inbound_only (b : ThorchainBridge) (book : AddressBook)
    (txIns : List ObservedTx) (stdTx : StdTx)
    (h : (b.GetObservationsStdTx book txIns).2 = (some stdTx, none)) (tx : ObservedTx)
    (hmem : tx ∈ txIns) (hto : specInbound book tx = true)
    (_hfrom : specOutbound book tx = true) :
    (∃ txs, Msg.ObservedTxIn txs b.signerAddress ∈ stdTx.Msgs ∧ tx ∈ txs) ∧
    (∀ txs s, Msg.ObservedTxOut txs s ∈ stdTx.Msgs → tx ∉ txs) ∧
    (∀ t txsIn txsOut s1 s2, Msg.ObservedTxIn txsIn s1 ∈ stdTx.Msgs →
      Msg.ObservedTxOut txsOut s2 ∈ stdTx.Msgs → ¬ (t ∈ txsIn ∧ t ∈ txsOut)) := by
  obtain ⟨_, hmsgs, _⟩ := observations_ok b book txIns stdTx h
  rw [← isInbound_eq_specInbound] at hto
  have hin : tx ∈ txIns.filter (isInbound book) := List.mem_filter.2 ⟨hmem, hto⟩
  refine ⟨⟨txIns.filter (isInbound book), ?_, hin⟩, ?_, ?_⟩
  · rw [hmsgs, observationMsgs_eq]
    have hne : ¬ txIns.filter (isInbound book) = [] := List.ne_nil_of_mem hin
    rw [if_neg hne]
    exact List.mem_append_left _ (List.mem_singleton.2 rfl)
  · intro txs s hm hx
    rw [hmsgs] at hm
    rw [mem_observationMsgs_out _ _ _ _ _ hm] at hx
    have := (List.mem_filter.1 hx).2
    rw [hto] at this
    cases this
  · intro t txsIn txsOut s1 s2 h1 h2 hboth
    rw [hmsgs] at h1 h2
    rw [mem_observationMsgs_in _ _ _ _ _ h1, mem_observationMsgs_out _ _ _ _ _ h2] at hboth
    have g1 := (List.mem_filter.1 hboth.1).2
    have g2 := (List.mem_filter.1 hboth.2).2
    rw [g1] at g2
    cases g2

/-- A transaction from the vault to the vault whose first coin is on ETH,
observed with a transaction from the vault to a user on BNB, is reported in
the inbound message only. -/
theorem C40_witness :
    (sampleBridge.GetObservationsStdTx sampleBook
      [sampleTxWith "A" "ETH:vault" "ETH:vault" ethFirstCoins,
        sampleTx "B" "BNB:vault" "BNB:user"]).2 =
      (some
        { Msgs :=
            [Msg.ObservedTxIn [sampleTxWith "A" "ETH:vault" "ETH:vault" ethFirstCoins]
              sampleBridge.signerAddress,
            Msg.ObservedTxOut [sampleTx "B" "BNB:vault" "BNB:user"] sampleBridge.signerAddress]
          Gas := 100000000
          Signatures := []
          Memo := "" }, none) ∧
    specInbound sampleBook (sampleTxWith "A" "ETH:vault" "ETH:vault" ethFirstCoins) = true ∧
    specOutbound sampleBook (sampleTxWith "A" "ETH:vault" "ETH:vault" ethFirstCoins) = true ∧
    (∃ txs, Msg.ObservedTxIn txs sampleBridge.signerAddress ∈
        [Msg.ObservedTxIn [sampleTxWith "A" "ETH:vault" "ETH:vault" ethFirstCoins]
            sampleBridge.signerAddress,
          Msg.ObservedTxOut [sampleTx "B" "BNB:vault" "BNB:user"] sampleBridge.signerAddress] ∧
      sampleTxWith "A" "ETH:vault" "ETH:vault" ethFirstCoins ∈ txs) ∧
    (∀ txs s, Msg.ObservedTxOut txs s ∈
        [Msg.ObservedTxIn [sampleTxWith "A" "ETH:vault" "ETH:vault" ethFirstCoins]
            sampleBridge.signerAddress,
          Msg.ObservedTxOut [sampleTx "B" "BNB:vault" "BNB:user"] sampleBridge.signerAddress] →
      sampleTxWith "A" "ETH:vault" "ETH:vault" ethFirstCoins ∉ txs) :=
  ⟨by decide, by decide, by decide,
    (C40_vault_to_vault_is_inbound_only sampleBridge sampleBook
      [sampleTxWith "A" "ETH:vault" "ETH:vault" ethFirstCoins,
        sampleTx "B" "BNB:vault" "BNB:user"]
      { Msgs :=
          [Msg.ObservedTxIn [sampleTxWith "A" "ETH:vault" "ETH:vault" ethFirstCoins]
            sampleBridge.signerAddress,
            Msg.ObservedTxOut [sampleTx "B" "BNB:vault" "BNB:user"] sampleBridge.signerAddress]
        Gas := 100000000
        Signatures := []
        Memo := "" } (by decide)
      (sampleTxWith "A" "ETH:vault" "ETH:vault" ethFirstCoins) (by decide)
      (by decide) (by decide)).1,
    (C40_vault_to_vault_is_inbound_only sampleBridge sampleBook
      [sampleTxWith "A" "ETH:vault" "ETH:vault" ethFirstCoins,
        sampleTx "B" "BNB:vault" "BNB:user"]
      { Msgs :=
          [Msg.ObservedTxIn [sampleTxWith "A" "ETH:vault" "ETH:vault" ethFirstCoins]
            sampleBridge.signerAddress,
            Msg.ObservedTxOut [sampleTx "B" "BNB:vault" "BNB:user"] sampleBridge.signerAddress]
        Gas := 100000000
        Signatures := []
        Memo := "" } (by decide)
      (sampleTxWith "A" "ETH:vault" "ETH:vault" ethFirstCoins) (by decide)
      (by decide) (by decide)).2.1⟩

end Thorclient

/-! ## Swaps -/

namespace Swapservice

open Blockscanner (Error)

/-- After the balances are parsed, `swapOne` writes the pool only when it
returns no error: with an error the store is the one it was given and the
amount is `0`. -/
theorem swapOnePool_error {F K : Type} (env : Env F K) (settings : Settings F) (keeper : K)
    (source ticker : Ticker) (pool : PoolStruct) (amt fslipLimit balanceRune balanceToken : F)
    (h : (swapOnePool env settings keeper source ticker pool amt fslipLimit balanceRune
      balanceToken).2.2 ≠ none) :
    (swapOnePool env settings keeper source ticker pool amt fslipLimit balanceRune
      balanceToken).1 = keeper ∧
    (swapOnePool env settings keeper source ticker pool amt fslipLimit balanceRune
      balanceToken).2.1 = "0" := by
  unfold swapOnePool at h ⊢
  simp only at h ⊢
  split_ifs at h ⊢
  · exact ⟨rfl, rfl⟩
  · exact ⟨rfl, rfl⟩
  · exact ⟨rfl, rfl⟩
  · exact ⟨rfl, rfl⟩
  · split at h
    · exact ⟨rfl, rfl⟩
    · exact absurd rfl h

/-- The function `swapOne` writes the pool only when it returns no error. -/
theorem swapOne_error {F K : Type} (env : Env F K) (settings : Settings F) (keeper : K)
    (source target : Ticker) (amount requester destination tradeSlipLimit : String)
    (h : (swapOne env settings keeper source target amount requester destination
      tradeSlipLimit).2.2 ≠ none) :
    (swapOne env settings keeper source target amount requester destination
      tradeSlipLimit).1 = keeper ∧
    (swapOne env settings keeper source target amount requester destination
      tradeSlipLimit).2.1 = "0" := by
  revert h
  unfold swapOne
  simp only
  by_cases he : (!env.PoolExist keeper (if env.IsRune source then target else source)) = true
  · rw [if_pos he]
    exact fun _ => ⟨rfl, rfl⟩
  rw [if_neg he]
  cases env.fl.ParseFloat amount with
  | error err => exact fun _ => ⟨rfl, rfl⟩
  | ok amt =>
    cases env.fl.ParseFloat tradeSlipLimit with
    | error err => exact fun _ => ⟨rfl, rfl⟩
    | ok fslipLimit =>
      simp only
      by_cases hs : (env.GetPoolStruct keeper (if env.IsRune source then target else source)).Status
          ≠ env.PoolEnabled
      · rw [if_pos hs]
        exact fun _ => ⟨rfl, rfl⟩
      rw [if_neg hs]
      cases env.fl.ParseFloat
          (env.GetPoolStruct keeper (if env.IsRune source then target else source)).BalanceRune with
      | error err => exact fun _ => ⟨rfl, rfl⟩
      | ok balanceRune =>
        cases env.fl.ParseFloat
            (env.GetPoolStruct keeper
              (if env.IsRune source then target else source)).BalanceToken with
        | error err => exact fun _ => ⟨rfl, rfl⟩
        | ok balanceToken => exact fun h => swapOnePool_error _ _ _ _ _ _ _ _ _ _ h

/-- Whenever `swap` returns an error, the amount it returns is `0`. -/
theorem swap_error_amount {F K : Type} (env : Env F K) (settings : Settings F) (keeper : K)
    (source target : Ticker)
    (amount requester destination requestTxHash tradeSlipLimit : String)
    (h : (swap env settings keeper source target amount requester destination requestTxHash
      tradeSlipLimit).2.2 ≠ none) :
    (swap env settings keeper source target amount requester destination requestTxHash
      tradeSlipLimit).2.1 = "0" := by
  revert h
  unfold swap
  cases validateMessage env keeper source target amount requester destination requestTxHash
      tradeSlipLimit with
  | some err => exact fun _ => rfl
  | none =>
    simp only
    by_cases hd : (!env.IsRune source && !env.IsRune target) = true
    · rw [if_pos hd]
      cases hf : (swapOne env settings keeper source env.RuneTicker amount requester destination
          tradeSlipLimit).2.2 with
      | some err => exact fun _ => rfl
      | none => exact fun h => (swapOne_error _ _ _ _ _ _ _ _ _ h).2
    · rw [if_neg hd]
      exact fun h => (swapOne_error _ _ _ _ _ _ _ _ _ h).2

/-- A swap with one leg that returns an error leaves every pool of the store
as it was, when saving a swap record touches no pool. -/
theorem swap_single_error_pools {F K : Type} (env : Env F K) (settings : Settings F)
    (keeper : K) (source target : Ticker)
    (amount requester destination requestTxHash tradeSlipLimit : String)
    (hrec : ∀ k r t, env.GetPoolStruct (env.SetSwapRecord k r).1 t = env.GetPoolStruct k t ∧
      env.PoolExist (env.SetSwapRecord k r).1 t = env.PoolExist k t)
    (hsingle : (!env.IsRune source && !env.IsRune target) = false)
    (h : (swap env settings keeper source target amount requester destination requestTxHash
      tradeSlipLimit).2.2 ≠ none) (t : Ticker) :
    env.GetPoolStruct (swap env settings keeper source target amount requester destination
      requestTxHash tradeSlipLimit).1 t = env.GetPoolStruct keeper t ∧
    env.PoolExist (swap env settings keeper source target amount requester destination
      requestTxHash tradeSlipLimit).1 t = env.PoolExist keeper t := by
  revert h
  unfold swap
  cases validateMessage env keeper source target amount requester destination requestTxHash
      tradeSlipLimit with
  | some err => exact fun _ => ⟨rfl, rfl⟩
  | none =>
    simp only
    rw [hsingle]
    intro h
    have hone := (swapOne_error env settings keeper source target amount requester destination
      tradeSlipLimit h).1
    have hr := hrec (swapOne env settings keeper source target amount requester destination
      tradeSlipLimit).1
      { RequestTxHash := requestTxHash
        SourceTicker := source
        TargetTicker := target
        Requester := requester
        Destination := destination
        AmountRequested := amount
        AmountPaidBack := (swapOne env settings keeper source target amount requester
          destination tradeSlipLimit).2.1 } t
    rw [hone] at hr
    rw [hone]
    exact hr

set_option maxRecDepth 100000 in
/-- C39, evaluated where it fails: in the store with an enabled pool `BNB` of
100 rune and 100 tokens and a suspended pool `TCAN`, the double swap of 100
`BNB` for `TCAN` returns the amount `0` with the error of its second leg, and
the pool `BNB` of the store has gone from 100 rune and 100 tokens to 75 rune
and 200 tokens: the write of the first leg stays. -/
theorem C39_failed_second_leg_keeps_first_write :
    (swap sampleEnv sampleSettings sampleKeeper "BNB" "TCAN" "100" "bnb1user" "bnb1user"
      "HASH" "4").2 =
      ("0", some (Error.New "pool TCAN is in Suspended status, can't swap")) ∧
    sampleKeeper.pool "BNB" = some (samplePoolStruct "BNB" "Enabled") ∧
    (swap sampleEnv sampleSettings sampleKeeper "BNB" "TCAN" "100" "bnb1user" "bnb1user"
      "HASH" "4").1.pool "BNB" =
      some { samplePoolStruct "BNB" "Enabled" with
        BalanceRune := "75.00000000"
        BalanceToken := "200.00000000" } ∧
    sampleEnv.GetPoolStruct (swap sampleEnv sampleSettings sampleKeeper "BNB" "TCAN" "100"
      "bnb1user" "bnb1user" "HASH" "4").1 "BNB" ≠ sampleEnv.GetPoolStruct sampleKeeper "BNB" := by
  decide

end Swapservice
